import Mathlib

/-!
# Fog raster paint engine: a verification development

A shallow embedding of `Fog/Graphics/PaintEngine/Raster.cpp` (the multithreaded
raster paint engine of the Fog library): the row partitioning used by the
worker contexts, the arena allocator, the copy-on-write clip / caps state
objects, and the integer fast paths of the drawing operations.

Conventions of the embedding.

* C++ `int` values are mathematical integers (`Int`).  Signed overflow is
  undefined behaviour in C++, so every statement is about runs in which the
  `int` arithmetic of the source does not overflow.  Casts to `uint` are
  modelled explicitly by reduction modulo `2 ^ 32`.
* `sysuint_t` values are natural numbers reduced modulo `2 ^ w`, where `w` is
  the pointer width of the target.
* `double` values are exact rationals (`ℚ`).
* Pointers to heap objects are indices into an explicit object table.
-/

namespace Fog

/-! ## Geometry (`Point`, `Rect`, `Box`, `Region`)

The geometry classes live in `Fog/Graphics/Geometry.h` and `Region.h`; only
their uses are part of `Raster.cpp`. -/

/-- Modelled from the spec: `Fog::Point` (declared in `Geometry.h`, not in
`Raster.cpp`), an integer point. -/
structure Point where
  x : Int
  y : Int
deriving DecidableEq, Repr, Inhabited

/-- Modelled from the spec: `Fog::PointD`, a point with `double` coordinates. -/
structure PointD where
  x : ℚ
  y : ℚ
deriving DecidableEq, Inhabited

/-- Modelled from the spec: `Fog::Rect` (origin and size), with the accessors
`getX1() = x`, `getY1() = y`, `getX2() = x + w`, `getY2() = y + h`. -/
structure Rect where
  x : Int
  y : Int
  w : Int
  h : Int
deriving DecidableEq, Repr, Inhabited

/-- Modelled from the spec: `Fog::Box`, the half-open pixel box
`[x1, x2) x [y1, y2)`. -/
structure Box where
  x1 : Int
  y1 : Int
  x2 : Int
  y2 : Int
deriving DecidableEq, Repr, Inhabited

/-- Modelled from the spec: `Fog::Region`, a set of pixels kept as a list of
boxes (`getData()` / `getLength()`). -/
structure Region where
  rects : List Box
deriving DecidableEq, Repr, Inhabited

/-- Modelled from the spec: `Point::operator+`. -/
def Point.add (a b : Point) : Point := ⟨a.x + b.x, a.y + b.y⟩

/-- Modelled from the spec: `Rect::isValid()`, a rectangle of positive width
and height ("degenerate rectangles are rejected early (zero-size or negative
extents)"). -/
def Rect.isValid (r : Rect) : Bool := decide (0 < r.w) && decide (0 < r.h)

/-- Modelled from the spec: `Rect::getX1()`. -/
def Rect.getX1 (r : Rect) : Int := r.x

/-- Modelled from the spec: `Rect::getY1()`. -/
def Rect.getY1 (r : Rect) : Int := r.y

/-- Modelled from the spec: `Rect::getX2()`. -/
def Rect.getX2 (r : Rect) : Int := r.x + r.w

/-- Modelled from the spec: `Rect::getY2()`. -/
def Rect.getY2 (r : Rect) : Int := r.y + r.h

/-- Modelled from the spec: `Box::isValid()`, a box with at least one pixel. -/
def Box.isValid (b : Box) : Bool := decide (b.x1 < b.x2) && decide (b.y1 < b.y2)

/-- Modelled from the spec: `Box::getWidth()`. -/
def Box.getWidth (b : Box) : Int := b.x2 - b.x1

/-- Modelled from the spec: `Box::getHeight()`. -/
def Box.getHeight (b : Box) : Int := b.y2 - b.y1

/-- Modelled from the spec: `Box::intersect(dst, a, b)`, the box of the common
pixels of `a` and `b` (not valid when there are none). -/
def Box.intersect (a b : Box) : Box :=
  ⟨max a.x1 b.x1, max a.y1 b.y1, min a.x2 b.x2, min a.y2 b.y2⟩

/-- Modelled from the spec: translation of a box by a point. -/
def Box.translate (b : Box) (pt : Point) : Box :=
  ⟨b.x1 + pt.x, b.y1 + pt.y, b.x2 + pt.x, b.y2 + pt.y⟩

/-- The pixel `(px, py)` lies in the box. -/
def Box.Covers (b : Box) (px py : Int) : Prop :=
  b.x1 ≤ px ∧ px < b.x2 ∧ b.y1 ≤ py ∧ py < b.y2

/-- Every pixel of `a` is a pixel of `b` (stated on the corners, for a valid `a`). -/
def Box.Inside (a b : Box) : Prop :=
  b.x1 ≤ a.x1 ∧ a.x2 ≤ b.x2 ∧ b.y1 ≤ a.y1 ∧ a.y2 ≤ b.y2

/-- The pixel `(px, py)` lies in some box of the list. -/
def CoversAny (bs : List Box) (px py : Int) : Prop := ∃ b ∈ bs, b.Covers px py

/-- Modelled from the spec: `Region::getLength()`, the number of rectangles. -/
def Region.getLength (g : Region) : Nat := g.rects.length

/-- Modelled from the spec: `Region::isEmpty()`. -/
def Region.isEmpty (g : Region) : Bool := g.rects.isEmpty

/-- Modelled from the spec: `Region::translateAndClip(dst, src, pt, clipBox)`:
every rectangle of `src` moved by `pt` and cut to `clipBox`; rectangles that
fall outside are dropped. -/
def Region.translateAndClip (src : Region) (pt : Point) (clipBox : Box) : Region :=
  ⟨(src.rects.map (fun b => (b.translate pt).intersect clipBox)).filter Box.isValid⟩

/-- Modelled from the spec: `Region::intersect(dst, a, b)`: the common pixels of
two regions, as the non-empty pairwise intersections of their rectangles. -/
def Region.intersect (a b : Region) : Region :=
  ⟨a.rects.flatMap (fun x => (b.rects.map (fun y => x.intersect y)).filter Box.isValid)⟩

/-- Modelled from the spec: `Region::translate(dst, src, pt)`. -/
def Region.translate (src : Region) (pt : Point) : Region :=
  ⟨src.rects.map (fun b => b.translate pt)⟩

/-- Modelled from the spec: `Region::intersectAndClip(dst, a, b, clipBox)`. -/
def Region.intersectAndClip (a b : Region) (clipBox : Box) : Region :=
  ⟨((Region.intersect a b).rects.map (fun x => x.intersect clipBox)).filter Box.isValid⟩

/-- Bounding box of a non-empty list of boxes, starting from `acc`. -/
def boundingBox (acc : Box) : List Box → Box
  | [] => acc
  | b :: bs => boundingBox ⟨min acc.x1 b.x1, min acc.y1 b.y1, max acc.x2 b.x2, max acc.y2 b.y2⟩ bs

/-- Modelled from the spec: `Region::extents()`, the bounding box of the region
("union bounding box"); the zero box for the empty region. -/
def Region.extents (g : Region) : Box :=
  match g.rects with
  | [] => ⟨0, 0, 0, 0⟩
  | b :: bs => boundingBox b bs

/-- Modelled from the spec: `Region::operator=(const Rect&)`, the region made of
one rectangle; an invalid rectangle gives the empty region. -/
def Region.ofRect (r : Rect) : Region :=
  if r.isValid then ⟨[⟨r.getX1, r.getY1, r.getX2, r.getY2⟩]⟩ else ⟨[]⟩

/-! ## Row partitioning (`alignToDelta`, `_renderBoxes`) -/

/-- The function `alignToDelta(y, offset, delta)` of `Raster.cpp`: the first row
`>= y` that belongs to the worker with the given `offset` (C `%` truncates
towards zero, hence `Int.tmod`). -/
def alignToDelta (y offset delta : Int) : Int :=
  let mody := Int.tmod y delta
  let mody := if mody < 0 then mody + delta else mody
  let newy := y - mody + offset
  if newy < y then newy + delta else newy

/-- The `do { ...; y1 += delta; } while (y1 < y2);` loop of `_renderBoxes`: the
rows handed to the span function, in order.  The first argument bounds the
number of iterations. -/
def rowLoop : Nat → Int → Int → Int → List Int
  | 0, _, _, _ => []
  | fuel + 1, y1, y2, delta =>
    y1 :: (if y1 + delta < y2 then rowLoop fuel (y1 + delta) y2 delta else [])

/-- The rows of one box `[y1, y2)` visited by `_renderBoxes` under a context
with the given `offset` and `delta`:
`if (delta != 1) y1 = alignToDelta(y1, offset, delta); if (y1 >= y2) continue;`
followed by the do-while loop.  (The width test `w <= 0` does not depend on
the context and is modelled in `renderBoxesLoop`.) -/
def boxRows (y1 y2 offset delta : Int) : List Int :=
  let y1 := if delta ≠ 1 then alignToDelta y1 offset delta else y1
  if y1 ≥ y2 then [] else rowLoop (y2 - y1).toNat y1 y2 delta

/-- The loop `for (i = 0; i < count; i++)` of `_renderBoxes`, which each of its
branches runs: box after box, `w <= 0` skips the box, and the rows of the box
are those of `boxRows`.  The result lists the spans handed to the span
function, each as the box and the row. -/
def renderBoxesLoop (boxes : List Box) (offset delta : Int) : List (Box × Int) :=
  boxes.flatMap (fun b =>
    if b.getWidth ≤ 0 then [] else (boxRows b.y1 b.y2 offset delta).map (fun y => (b, y)))

/-! ## Arena allocator (`MemoryAllocator`) -/

/-- The two data models the library is built for; they fix the width of
`sysuint_t` and of a pointer, hence `sizeof(Header)`. -/
inductive Target where
  | ilp32
  | lp64
deriving DecidableEq, Repr

/-- The modulus `2 ^ w` of `sysuint_t` arithmetic. -/
def wordMod : Target → Nat
  | .ilp32 => 4294967296
  | .lp64 => 18446744073709551616

/-- The value `sizeof(Header)`: a `Block*` followed by a `sysuint_t`. -/
def sizeofHeader : Target → Nat
  | .ilp32 => 8
  | .lp64 => 16

/-- The constant `enum { BLOCK_SIZE = 8000 }`. -/
def BLOCK_SIZE : Nat := 8000

/-- Addition of `sysuint_t` values. -/
def uadd (t : Target) (a b : Nat) : Nat := (a + b) % wordMod t

/-- Subtraction of `sysuint_t` values (wraps below zero). -/
def usub (t : Target) (a b : Nat) : Nat := (a % wordMod t + wordMod t - b % wordMod t) % wordMod t

/-- The struct `MemoryAllocator::Block`.  `addr` is the address of the block (its
identity); `next` is the position in the list `MemoryAllocator.blocks`;
`headers` records the `Header`s written into `memory`, as pairs
(offset of the header, `Header::size`), most recent first.  `Header::block` is
always the enclosing block. -/
structure Block where
  addr : Nat
  size : Nat
  pos : Nat
  used : Nat
  headers : List (Nat × Nat)
deriving DecidableEq, Repr

/-- A pointer returned by `alloc`: the block it points into and the offset inside
`Block::memory`. -/
structure Ptr where
  block : Nat
  offset : Nat
deriving DecidableEq, Repr

/-- The struct `MemoryAllocator`: the singly linked list `blocks`, head first.
`sysNext` models the system heap behind `Memory::alloc`: the address the next
successful system allocation returns (never an address handed out before). -/
structure MemoryAllocator where
  blocks : List Block
  sysNext : Nat
deriving DecidableEq, Repr

/-- The constructor `MemoryAllocator::MemoryAllocator()`: `blocks(NULL)`. -/
def MemoryAllocator.init : MemoryAllocator := ⟨[], 0⟩

/-- What one call of `alloc` did: the pointer returned (`none` is `NULL`),
whether `Memory::alloc` was called to get a new block, and the allocator
afterwards. -/
structure AllocStep where
  ptr : Option Ptr
  sysRequested : Bool
  after : MemoryAllocator
deriving DecidableEq, Repr

/-- The search loop of `alloc` ("Traverse to previous blocks and try to find
complete free one"): the blocks before the first block with `used == 0`, that
block, and the blocks after it. -/
def findFree : List Block → Option (List Block × Block × List Block)
  | [] => none
  | b :: rest =>
    if b.used = 0 then some ([], b, rest)
    else
      match findFree rest with
      | some (pre, cur, post) => some (b :: pre, cur, post)
      | none => none

/-- The label `allocFromBlocks:` of `alloc`: write the header at the cursor of the
head block, advance `pos`, add to `used`, return the address after the
header.  `size` already includes the header. -/
def allocFromBlocks (t : Target) (blocks : List Block) (sysNext : Nat) (size : Nat)
    (sysRequested : Bool) : AllocStep :=
  match blocks with
  | [] => ⟨none, sysRequested, ⟨[], sysNext⟩⟩
  | b :: rest =>
    ⟨some ⟨b.addr, b.pos + sizeofHeader t⟩, sysRequested,
      ⟨{ b with headers := (b.pos, size) :: b.headers,
                pos := uadd t b.pos size,
                used := uadd t b.used size } :: rest, sysNext⟩⟩

/-- The function `MemoryAllocator::alloc(size)`.  `sysOk` tells whether
`Memory::alloc(sizeof(Block))` succeeds when it is called.  The result is
`none` when `FOG_ASSERT(size <= BLOCK_SIZE)` fails. -/
def MemoryAllocator.alloc (t : Target) (a : MemoryAllocator) (size : Nat) (sysOk : Bool) :
    Option AllocStep :=
  let size := uadd t size (sizeofHeader t)
  if ¬ size ≤ BLOCK_SIZE then none
  else
    let slow : Bool :=
      match a.blocks with
      | [] => true
      | b :: _ => decide (usub t b.size b.pos < size)
    if slow then
      match findFree a.blocks with
      | some (pre, cur, post) =>
        some (allocFromBlocks t ({ cur with pos := 0 } :: (pre ++ post)) a.sysNext size false)
      | none =>
        if sysOk then
          some (allocFromBlocks t
            (⟨a.sysNext, BLOCK_SIZE, 0, 0, []⟩ :: a.blocks) (a.sysNext + 1) size true)
        else some ⟨none, true, a⟩
    else some (allocFromBlocks t a.blocks a.sysNext size false)

/-- The function `MemoryAllocator::free(ptr)`: read the header in front of `ptr`
and subtract its size from the `used` counter of its block.  Nothing else
changes; a pointer that `alloc` never returned leaves the state as it is. -/
def MemoryAllocator.free (t : Target) (a : MemoryAllocator) (p : Ptr) : MemoryAllocator :=
  { a with blocks := a.blocks.map (fun b =>
      if b.addr = p.block then
        match b.headers.lookup (p.offset - sizeofHeader t) with
        | some sz => { b with used := usub t b.used sz }
        | none => b
      else b) }

/-- A run of `alloc` calls, one per request `(size, sysOk)`; `none` when an
assertion fails on the way. -/
def allocSeq (t : Target) : MemoryAllocator → List (Nat × Bool) → Option (List AllocStep)
  | _, [] => some []
  | a, (size, sysOk) :: rest =>
    match a.alloc t size sysOk with
    | none => none
    | some st =>
      match allocSeq t st.after rest with
      | none => none
      | some sts => some (st :: sts)

/-- The allocator after a run of `alloc` calls. -/
def lastState (a : MemoryAllocator) (steps : List AllocStep) : MemoryAllocator :=
  match steps.getLast? with
  | some st => st.after
  | none => a

/-- Free every pointer a run of `alloc` calls returned. -/
def freeAll (t : Target) (a : MemoryAllocator) (steps : List AllocStep) : MemoryAllocator :=
  steps.foldl (fun acc st => match st.ptr with
    | some p => acc.free t p
    | none => acc) a

/-- The invariant of the block list: distinct block addresses below `sysNext`,
every block of capacity `BLOCK_SIZE`, and `used <= pos <= size`. -/
def MemoryAllocator.WF (a : MemoryAllocator) : Prop :=
  (a.blocks.map Block.addr).Nodup ∧
    ∀ b ∈ a.blocks, b.addr < a.sysNext ∧ b.size = BLOCK_SIZE ∧ b.pos ≤ BLOCK_SIZE ∧ b.used ≤ b.pos

/-! ## Shared state objects (`RasterPaintClipState`, `RasterPaintCapsState`) -/

/-- The enum `TRANSFORM_TYPE`: `TRANSFORM_TRANSLATE_EXACT = 0`. -/
def TRANSFORM_TRANSLATE_EXACT : Nat := 0

/-- The enum `TRANSFORM_TYPE`: `TRANSFORM_TRANSLATE_SUBPX = 1`. -/
def TRANSFORM_TRANSLATE_SUBPX : Nat := 1

/-- The enum `TRANSFORM_TYPE`: `TRANSFORM_AFFINE = 2`. -/
def TRANSFORM_AFFINE : Nat := 2

/-- Modelled from the spec: `Fog::Matrix` (declared in `Matrix.h`), the affine
map `x' = x*sx + y*shx + tx`, `y' = x*shy + y*sy + ty`. -/
structure Matrix where
  sx : ℚ
  shy : ℚ
  shx : ℚ
  sy : ℚ
  tx : ℚ
  ty : ℚ
deriving DecidableEq, Inhabited

/-- Modelled from the spec: `Matrix::reset()`, the identity matrix. -/
def Matrix.identity : Matrix := ⟨1, 0, 0, 1, 0, 0⟩

/-- Modelled from the spec: `Matrix::translate(x, y, order)`; `append` stands for
`MATRIX_APPEND` (translate after the map), otherwise the translation is
applied first. -/
def Matrix.translate (m : Matrix) (x y : ℚ) (append : Bool) : Matrix :=
  if append then { m with tx := m.tx + x, ty := m.ty + y }
  else { m with tx := m.tx + (x * m.sx + y * m.shx), ty := m.ty + (x * m.shy + y * m.sy) }

/-- Modelled from the spec: `Math::iround(double)` (declared in `Math.h`): the
nearest integer, halves away from zero ("integer-rounded pixel
translation"). -/
def iround (x : ℚ) : Int := if x < 0 then -⌊-x + 1 / 2⌋ else ⌊x + 1 / 2⌋

/-- The test `(v & 0xFF) == 0x00` on an `int`: the low byte of the two's
complement representation is zero. -/
def lowByteZero (v : Int) : Bool := decide (v % 256 = 0)

/-- Modelled from the spec: `Fog::StrokeParams` (declared in `Stroker.h`). -/
structure StrokeParams where
  lineWidth : ℚ
  startCap : Int
  endCap : Int
  lineJoin : Int
  miterLimit : ℚ
  dashes : List ℚ
  dashOffset : ℚ
deriving DecidableEq, Inhabited

/-- Modelled from the spec: a `Fog::Pattern` value (texture or gradient). -/
structure Pattern where
  key : Nat
deriving DecidableEq, Repr, Inhabited

/-- Modelled from the spec: a `Fog::ColorFilter` value. -/
structure ColorFilter where
  key : Nat
deriving DecidableEq, Repr, Inhabited

/-- The member `sourceType` together with the anonymous union
`solid` / `pattern` / `colorFilter` of `RasterPaintCapsState`: the variant in
use is the one `sourceType` names. -/
inductive Source where
  | argb (argb prgb : Nat)
  | pattern (p : Pattern)
  | colorFilter (f : ColorFilter)
deriving DecidableEq, Repr, Inhabited

/-- The value `rops`: the entry of the compositing function table selected by
`RasterUtil::getRasterOps(format, op)`. -/
structure RasterOps where
  format : Int
  op : Nat
deriving DecidableEq, Repr, Inhabited

/-- The value of `approximationScale`: the constant `1.0`, or
`sqrt(x * x + y * y) * 0.7071068` kept by its radicand `x * x + y * y`. -/
inductive ApproxScale where
  | one
  | affine (radicand : ℚ)
deriving DecidableEq, Inhabited

/-- The declarations `Raster.cpp` takes from other headers of the library:
enum values of `Constants.h`, the default stroke parameters of
`StrokeParams::reset()`, and the comparison `Math::feq`. -/
structure PaintEnv where
  OPERATOR_SRC_OVER : Nat
  OPERATOR_COUNT : Nat
  FILL_DEFAULT : Nat
  FILL_MODE_COUNT : Nat
  ANTI_ALIASING_SMOOTH : Nat
  ANTI_ALIASING_COUNT : Nat
  INTERPOLATION_SMOOTH : Nat
  INTERPOLATION_INVALID : Nat
  LINE_CAP_DEFAULT : Int
  LINE_CAP_COUNT : Int
  LINE_JOIN_DEFAULT : Int
  LINE_JOIN_COUNT : Int
  strokeReset : StrokeParams
  feq : ℚ → ℚ → Bool

/-- The struct `RasterPaintLayer` (the geometry of the target buffer). -/
structure RasterPaintLayer where
  width : Int
  height : Int
  format : Int
deriving DecidableEq, Repr, Inhabited

/-- The struct `RasterPaintClipState`. -/
structure RasterPaintClipState where
  refCount : Nat
  metaOrigin : Point
  userOrigin : Point
  workOrigin : Point
  metaRegion : Region
  userRegion : Region
  workRegion : Region
  clipBox : Box
  metaRegionUsed : Bool
  userRegionUsed : Bool
  workRegionUsed : Bool
  clipSimple : Bool
deriving DecidableEq, Repr, Inhabited

/-- The struct `RasterPaintCapsState`.  The packed bytes `data[8]` are the fields
`op` .. `transformType` (`sourceType` is carried by `source`). -/
structure RasterPaintCapsState where
  refCount : Nat
  op : Nat
  source : Source
  fillMode : Nat
  aaQuality : Nat
  imageInterpolation : Nat
  gradientInterpolation : Nat
  lineIsSimple : Bool
  transformType : Nat
  rops : RasterOps
  strokeParams : StrokeParams
  transform : Matrix
  approximationScale : ApproxScale
  transformTranslateSaved : PointD
  transformTranslateInt : Point
deriving DecidableEq, Inhabited

/-- The copy constructor `RasterPaintClipState(const RasterPaintClipState& other)`:
the member initialisers, then `refCount.init(1)`. -/
def RasterPaintClipState.copy (other : RasterPaintClipState) : RasterPaintClipState where
  refCount := 1
  metaOrigin := other.metaOrigin
  userOrigin := other.userOrigin
  workOrigin := other.workOrigin
  metaRegion := other.metaRegion
  userRegion := other.userRegion
  workRegion := other.workRegion
  clipBox := other.clipBox
  metaRegionUsed := other.metaRegionUsed
  userRegionUsed := other.userRegionUsed
  workRegionUsed := other.workRegionUsed
  clipSimple := other.clipSimple

/-- The copy constructor `RasterPaintCapsState(const RasterPaintCapsState& other)`:
the member initialisers, `refCount.init(1)`, `Memory::copy8B(data, other.data)`
and the copy of the payload that `sourceType` selects. -/
def RasterPaintCapsState.copy (other : RasterPaintCapsState) : RasterPaintCapsState where
  refCount := 1
  rops := other.rops
  strokeParams := other.strokeParams
  transform := other.transform
  approximationScale := other.approximationScale
  transformTranslateSaved := other.transformTranslateSaved
  transformTranslateInt := other.transformTranslateInt
  op := other.op
  fillMode := other.fillMode
  aaQuality := other.aaQuality
  imageInterpolation := other.imageInterpolation
  gradientInterpolation := other.gradientInterpolation
  lineIsSimple := other.lineIsSimple
  transformType := other.transformType
  source :=
    match other.source with
    | .argb a p => .argb a p
    | .pattern p => .pattern p
    | .colorFilter f => .colorFilter f

/-! ## The paint engine: object table, save / restore, copy-on-write -/

/-- The fields of `RasterUtil::PatternContext` the engine itself reads and writes. -/
structure PatternContext where
  refCount : Nat
  initialized : Bool
deriving DecidableEq, Repr, Inhabited

/-- The struct `RasterPaintStoredState`: pointers into the object tables. -/
structure RasterPaintStoredState where
  clipState : Nat
  capsState : Nat
  pctx : Option Nat
deriving DecidableEq, Repr, Inhabited

/-- The class `RasterPaintEngine` with its single-threaded context `ctx`.  The
objects the engine allocates from its arena are kept in three tables; a pointer
is an index into its table, and an object whose reference count fell to zero
stays in the table as a dead entry.  `ctxClipState`, `ctxCapsState` and
`ctxPctx` are `ctx.clipState`, `ctx.capsState` and `ctx.pctx`; `states` is the
save stack, last element on top. -/
structure RasterPaintEngine where
  main : RasterPaintLayer
  clipObjs : List RasterPaintClipState
  capsObjs : List RasterPaintCapsState
  pctxObjs : List PatternContext
  ctxClipState : Nat
  ctxCapsState : Nat
  ctxPctx : Option Nat
  states : List RasterPaintStoredState
deriving DecidableEq, Inhabited

/-- Dereference a pointer into an object table. -/
def readObj {α : Type} [Inhabited α] (objs : List α) (p : Nat) : α := objs.getD p default

/-- The object `*ctx.clipState`. -/
def RasterPaintEngine.clip (e : RasterPaintEngine) : RasterPaintClipState :=
  readObj e.clipObjs e.ctxClipState

/-- The object `*ctx.capsState`. -/
def RasterPaintEngine.caps (e : RasterPaintEngine) : RasterPaintCapsState :=
  readObj e.capsObjs e.ctxCapsState

/-- Write through `ctx.clipState`. -/
def RasterPaintEngine.setClip (e : RasterPaintEngine) (c : RasterPaintClipState) :
    RasterPaintEngine :=
  { e with clipObjs := e.clipObjs.set e.ctxClipState c }

/-- Write through `ctx.capsState`. -/
def RasterPaintEngine.setCaps (e : RasterPaintEngine) (c : RasterPaintCapsState) :
    RasterPaintEngine :=
  { e with capsObjs := e.capsObjs.set e.ctxCapsState c }

/-- The function `_derefClipState(clipState)`: `refCount.deref()`; at zero the
object is destroyed and its memory given back (a dead table entry). -/
def RasterPaintEngine._derefClipState (e : RasterPaintEngine) (p : Nat) : RasterPaintEngine :=
  let o := readObj e.clipObjs p
  { e with clipObjs := e.clipObjs.set p { o with refCount := o.refCount - 1 } }

/-- The function `_derefCapsState(capsState)`. -/
def RasterPaintEngine._derefCapsState (e : RasterPaintEngine) (p : Nat) : RasterPaintEngine :=
  let o := readObj e.capsObjs p
  { e with capsObjs := e.capsObjs.set p { o with refCount := o.refCount - 1 } }

/-- The function `_detachClipState()`.  `allocOk` tells whether
`allocator.alloc(sizeof(RasterPaintClipState))` succeeds when it is called; the
new object is placed at a fresh address.  Returns the pointer (`none` is
`NULL`) and the engine afterwards. -/
def RasterPaintEngine._detachClipState (e : RasterPaintEngine) (allocOk : Bool) :
    Option Nat × RasterPaintEngine :=
  if e.clip.refCount = 1 then (some e.ctxClipState, e)
  else if !allocOk then (none, e)
  else
    let clipState := e.clipObjs.length
    let old := e.ctxClipState
    let e1 := { e with clipObjs := e.clipObjs ++ [RasterPaintClipState.copy e.clip],
                       ctxClipState := clipState }
    (some clipState, e1._derefClipState old)

/-- The function `_detachCapsState()`. -/
def RasterPaintEngine._detachCapsState (e : RasterPaintEngine) (allocOk : Bool) :
    Option Nat × RasterPaintEngine :=
  if e.caps.refCount = 1 then (some e.ctxCapsState, e)
  else if !allocOk then (none, e)
  else
    let capsState := e.capsObjs.length
    let old := e.ctxCapsState
    let e1 := { e with capsObjs := e.capsObjs ++ [RasterPaintCapsState.copy e.caps],
                       ctxCapsState := capsState }
    (some capsState, e1._derefCapsState old)

/-- The function `_resetPatternRasterPaintContext()`: an initialised context is
destroyed for reuse when the engine holds the last reference, and dropped from
`ctx.pctx` otherwise. -/
def RasterPaintEngine._resetPatternRasterPaintContext (e : RasterPaintEngine) :
    RasterPaintEngine :=
  match e.ctxPctx with
  | none => e
  | some p =>
    let o := readObj e.pctxObjs p
    if o.initialized then
      if o.refCount - 1 = 0 then
        { e with pctxObjs := e.pctxObjs.set p { refCount := 1, initialized := false } }
      else
        { e with pctxObjs := e.pctxObjs.set p { o with refCount := o.refCount - 1 },
                 ctxPctx := none }
    else e

/-- The function `save()`. -/
def RasterPaintEngine.save (e : RasterPaintEngine) : RasterPaintEngine :=
  let clip := e.clip
  let caps := e.caps
  let e1 := (e.setClip { clip with refCount := clip.refCount + 1 })
  let e2 := (e1.setCaps { caps with refCount := caps.refCount + 1 })
  match e.ctxPctx with
  | some p =>
    let o := readObj e.pctxObjs p
    if o.initialized then
      { e2 with pctxObjs := e2.pctxObjs.set p { o with refCount := o.refCount + 1 },
                states := e2.states ++ [⟨e.ctxClipState, e.ctxCapsState, some p⟩] }
    else { e2 with states := e2.states ++ [⟨e.ctxClipState, e.ctxCapsState, none⟩] }
  | none => { e2 with states := e2.states ++ [⟨e.ctxClipState, e.ctxCapsState, none⟩] }

/-- The function `restore()`. -/
def RasterPaintEngine.restore (e : RasterPaintEngine) : RasterPaintEngine :=
  match e.states.getLast? with
  | none => e
  | some s =>
    let e1 := { e with states := e.states.dropLast }
    let e2 := e1._derefClipState e1.ctxClipState
    let e3 := e2._derefCapsState e2.ctxCapsState
    let e4 :=
      match e3.ctxPctx with
      | some p =>
        let o := readObj e3.pctxObjs p
        if o.refCount - 1 = 0 then
          { e3 with pctxObjs := e3.pctxObjs.set p { refCount := 0, initialized := false } }
        else { e3 with pctxObjs := e3.pctxObjs.set p { o with refCount := o.refCount - 1 } }
      | none => e3
    { e4 with ctxClipState := s.clipState, ctxCapsState := s.capsState, ctxPctx := s.pctx }

/-- The function `_updateTransform(translationOnly)`.  It writes through
`ctx.capsState` as it finds it. -/
def RasterPaintEngine._updateTransform (K : PaintEnv) (e : RasterPaintEngine)
    (translationOnly : Bool) : RasterPaintEngine :=
  let capsState := e.caps
  let capsState := { capsState with
    transformTranslateInt := ⟨iround capsState.transform.tx, iround capsState.transform.ty⟩ }
  let capsState :=
    if translationOnly then
      if capsState.transformType < TRANSFORM_AFFINE then
        let isExact := lowByteZero (iround (capsState.transform.tx * 256)) &&
          lowByteZero (iround (capsState.transform.ty * 256))
        { capsState with transformType :=
            if isExact then TRANSFORM_TRANSLATE_EXACT else TRANSFORM_TRANSLATE_SUBPX }
      else capsState
    else
      let isIdentity := K.feq capsState.transform.sx 1 && K.feq capsState.transform.sy 1 &&
        K.feq capsState.transform.shx 0 && K.feq capsState.transform.shy 0
      let isExact := isIdentity && (lowByteZero (iround (capsState.transform.tx * 256)) &&
        lowByteZero (iround (capsState.transform.ty * 256)))
      let transformType :=
        if isIdentity then
          (if isExact then TRANSFORM_TRANSLATE_EXACT else TRANSFORM_TRANSLATE_SUBPX)
        else TRANSFORM_AFFINE
      if transformType ≥ TRANSFORM_AFFINE then
        let x := capsState.transform.sx + capsState.transform.shx
        let y := capsState.transform.sy + capsState.transform.shy
        { capsState with transformType := transformType,
                         approximationScale := .affine (x * x + y * y) }
      else
        { capsState with transformType := transformType, approximationScale := .one }
  let e1 := e.setCaps capsState
  match e1.ctxPctx with
  | some p => if (readObj e1.pctxObjs p).initialized then e1._resetPatternRasterPaintContext else e1
  | none => e1

/-- The function `_updateWorkRegion()`.  The caller has detached the clip state
(`FOG_ASSERT(clipState->refCount.get() == 1)`). -/
def RasterPaintEngine._updateWorkRegion (K : PaintEnv) (e : RasterPaintEngine) :
    RasterPaintEngine :=
  let clipState := e.clip
  let workOrigin := clipState.metaOrigin.add clipState.userOrigin
  let workOriginChanged := decide (clipState.workOrigin ≠ workOrigin)
  let clipState := { clipState with
    clipBox := ⟨0, 0, e.main.width, e.main.height⟩,
    clipSimple := true,
    workOrigin := workOrigin }
  let clipState :=
    match clipState.metaRegionUsed, clipState.userRegionUsed with
    | false, true =>
      { clipState with workRegion :=
          (Region.translateAndClip clipState.userRegion clipState.metaOrigin clipState.clipBox) }
    | true, false =>
      { clipState with workRegion :=
          (Region.translateAndClip clipState.metaRegion ⟨0, 0⟩ clipState.clipBox) }
    | true, true =>
      { clipState with workRegion :=
          (Region.intersectAndClip clipState.metaRegion
            (Region.translate clipState.userRegion clipState.metaOrigin) clipState.clipBox) }
    | false, false => clipState
  let clipBits := clipState.metaRegionUsed || clipState.userRegionUsed
  let clipState :=
    if clipBits then
      { clipState with clipBox := clipState.workRegion.extents,
                       clipSimple := decide (clipState.workRegion.getLength ≤ 1) }
    else clipState
  let clipState := { clipState with workRegionUsed := clipBits && !clipState.clipSimple }
  let e1 := e.setClip clipState
  if workOriginChanged then e1._updateTransform K true else e1

/-- The function `_setClipDefaults()`. -/
def RasterPaintEngine._setClipDefaults (e : RasterPaintEngine) : RasterPaintEngine :=
  e.setClip { e.clip with
    metaOrigin := ⟨0, 0⟩, userOrigin := ⟨0, 0⟩, workOrigin := ⟨0, 0⟩,
    clipBox := ⟨0, 0, e.main.width, e.main.height⟩,
    metaRegionUsed := false, userRegionUsed := false, workRegionUsed := false,
    clipSimple := true }

/-- The function `_setCapsDefaults()`. -/
def RasterPaintEngine._setCapsDefaults (K : PaintEnv) (e : RasterPaintEngine) :
    RasterPaintEngine :=
  let clipState := e.clip
  e.setCaps { e.caps with
    op := K.OPERATOR_SRC_OVER,
    source := .argb 0xFF000000 0xFF000000,
    fillMode := K.FILL_DEFAULT,
    aaQuality := K.ANTI_ALIASING_SMOOTH,
    imageInterpolation := K.INTERPOLATION_SMOOTH,
    gradientInterpolation := K.INTERPOLATION_SMOOTH,
    lineIsSimple := true,
    transformType := TRANSFORM_TRANSLATE_EXACT,
    rops := ⟨e.main.format, K.OPERATOR_SRC_OVER⟩,
    strokeParams := K.strokeReset,
    transform := ⟨1, 0, 0, 1, clipState.workOrigin.x, clipState.workOrigin.y⟩,
    approximationScale := .one,
    transformTranslateSaved := ⟨0, 0⟩,
    transformTranslateInt := clipState.workOrigin }

/-- The constructor `RasterPaintClipState()`: `refCount.init(1)`; the regions
start empty, the other members are set by `_setClipDefaults` before use. -/
def RasterPaintClipState.new : RasterPaintClipState :=
  ⟨1, ⟨0, 0⟩, ⟨0, 0⟩, ⟨0, 0⟩, ⟨[]⟩, ⟨[]⟩, ⟨[]⟩, ⟨0, 0, 0, 0⟩, false, false, false, false⟩

/-- The constructor `RasterPaintCapsState()`: `refCount.init(1)` and
`sourceType = PAINTER_SOURCE_ARGB`; the other members are set by
`_setCapsDefaults` before use. -/
def RasterPaintCapsState.new : RasterPaintCapsState :=
  ⟨1, 0, .argb 0 0, 0, 0, 0, 0, false, 0, ⟨0, 0⟩, ⟨0, 0, 0, 0, 0, [], 0⟩, ⟨0, 0, 0, 0, 0, 0⟩,
    .one, ⟨0, 0⟩, ⟨0, 0⟩⟩

/-- The constructor `RasterPaintEngine(buffer, hints)`, up to the choice of the
engine mode: one clip state and one caps state, each with `refCount` 1, set to
their defaults; no pattern context; an empty save stack. -/
def RasterPaintEngine.create (K : PaintEnv) (layer : RasterPaintLayer) : RasterPaintEngine :=
  let e : RasterPaintEngine :=
    { main := layer,
      clipObjs := [RasterPaintClipState.new],
      capsObjs := [RasterPaintCapsState.new],
      pctxObjs := [],
      ctxClipState := 0,
      ctxCapsState := 0,
      ctxPctx := none,
      states := [] }
  (e._setClipDefaults)._setCapsDefaults K

/-- The function `setUserOrigin(pt)`. -/
def RasterPaintEngine.setUserOrigin (K : PaintEnv) (e : RasterPaintEngine) (pt : Point)
    (allocOk : Bool) : RasterPaintEngine :=
  if e.clip.userOrigin = pt then e
  else
    match e._detachClipState allocOk with
    | (none, e1) => e1
    | (some _, e1) => (e1.setClip { e1.clip with userOrigin := pt })._updateWorkRegion K

/-- The macro `RASTER_BEFORE_MATRIX_OP`. -/
def rasterBeforeMatrixOp (capsState : RasterPaintCapsState) : RasterPaintCapsState :=
  { capsState with transform := { capsState.transform with
      tx := capsState.transformTranslateSaved.x, ty := capsState.transformTranslateSaved.y } }

/-- The macro `RASTER_AFTER_MATRIX_OP`. -/
def rasterAfterMatrixOp (clipState : RasterPaintClipState) (capsState : RasterPaintCapsState) :
    RasterPaintCapsState :=
  { capsState with
    transformTranslateSaved := ⟨capsState.transform.tx, capsState.transform.ty⟩,
    transform := { capsState.transform with
      tx := capsState.transform.tx + (clipState.workOrigin.x : ℚ),
      ty := capsState.transform.ty + (clipState.workOrigin.y : ℚ) } }

/-- The function `setMatrix(m)`. -/
def RasterPaintEngine.setMatrix (K : PaintEnv) (e : RasterPaintEngine) (m : Matrix)
    (allocOk : Bool) : RasterPaintEngine :=
  match e._detachCapsState allocOk with
  | (none, e1) => e1
  | (some _, e1) =>
    (e1.setCaps (rasterAfterMatrixOp e1.clip { e1.caps with transform := m }))._updateTransform
      K false

/-- The function `resetMatrix()`. -/
def RasterPaintEngine.resetMatrix (e : RasterPaintEngine) (allocOk : Bool) : RasterPaintEngine :=
  match e._detachCapsState allocOk with
  | (none, e1) => e1
  | (some _, e1) =>
    let capsState := rasterAfterMatrixOp e1.clip { e1.caps with
      transform := Matrix.identity,
      approximationScale := .one,
      transformType := TRANSFORM_TRANSLATE_EXACT }
    let e2 := e1.setCaps capsState
    match capsState.source with
    | .pattern _ => e2._resetPatternRasterPaintContext
    | _ => e2

/-- The function `translate(x, y, order)`. -/
def RasterPaintEngine.translate (K : PaintEnv) (e : RasterPaintEngine) (x y : ℚ)
    (append : Bool) (allocOk : Bool) : RasterPaintEngine :=
  match e._detachCapsState allocOk with
  | (none, e1) => e1
  | (some _, e1) =>
    let capsState := rasterBeforeMatrixOp e1.caps
    let capsState := { capsState with transform := capsState.transform.translate x y append }
    (e1.setCaps (rasterAfterMatrixOp e1.clip capsState))._updateTransform K true

/-! ## Integer fast paths of the drawing operations -/

/-- What a drawing operation hands to the serializers. -/
inductive DrawCall where
  /-- The operation returned without calling a serializer. -/
  | nothing
  /-- A call `_serializeBoxes(data, count)`. -/
  | boxes (bs : List Box)
  /-- A call `_serializeImage(dst, image, src)`. -/
  | image (dst src : Rect)
  /-- The operation went on to its `double` overload or built a vector path. -/
  | vector
  /-- A call `_serializeImageAffine(pt, image, irect)`. -/
  | imageAffine
deriving DecidableEq, Repr

/-- The function `fillRect(const Rect& r)`. -/
def RasterPaintEngine.fillRect (e : RasterPaintEngine) (r : Rect) : DrawCall :=
  if !r.isValid then .nothing
  else
    let clipState := e.clip
    let capsState := e.caps
    if capsState.transformType ≠ TRANSFORM_TRANSLATE_EXACT then .vector
    else
      let tx := capsState.transformTranslateInt.x
      let ty := capsState.transformTranslateInt.y
      let box : Box := ⟨r.getX1 + tx, r.getY1 + ty, r.getX2 + tx, r.getY2 + ty⟩
      if clipState.clipSimple then
        let box := Box.intersect box clipState.clipBox
        if !box.isValid then .nothing else .boxes [box]
      else
        let boxISect := Region.intersect ⟨[box]⟩ clipState.workRegion
        if boxISect.isEmpty then .nothing else .boxes boxISect.rects

/-- The function `fillRegion(const Region& region)`.  The names follow the
source: `regionISect` is the translated and clipped region, `region` the
argument. -/
def RasterPaintEngine.fillRegion (e : RasterPaintEngine) (region : Region) : DrawCall :=
  if region.isEmpty then .nothing
  else
    let capsState := e.caps
    if capsState.transformType ≠ TRANSFORM_TRANSLATE_EXACT then .vector
    else
      let regionISect :=
        Region.translateAndClip region capsState.transformTranslateInt e.clip.clipBox
      if regionISect.isEmpty then .nothing
      else if !e.clip.clipSimple then
        let _regionISect := Region.intersect regionISect e.clip.workRegion
        if region.isEmpty then .nothing else .boxes region.rects
      else .boxes region.rects

/-- The function `fillRects(const Rect* r, count)`, the sibling of `fillRegion`
for a rectangle list (`region.set(r, count)` is taken as the valid
rectangles of the list). -/
def RasterPaintEngine.fillRects (e : RasterPaintEngine) (rs : List Rect) : DrawCall :=
  if rs.isEmpty then .nothing
  else
    let capsState := e.caps
    if capsState.transformType ≠ TRANSFORM_TRANSLATE_EXACT then .vector
    else
      let region : Region :=
        ⟨(rs.filter Rect.isValid).map (fun r => ⟨r.getX1, r.getY1, r.getX2, r.getY2⟩)⟩
      let region := Region.translateAndClip region capsState.transformTranslateInt e.clip.clipBox
      if region.isEmpty then .nothing
      else if !e.clip.clipSimple then
        let region := Region.intersect region e.clip.workRegion
        if region.isEmpty then .nothing else .boxes region.rects
      else .boxes region.rects

/-- Modelled from the spec: the size of a `Fog::Image` (`getWidth()`,
`getHeight()`); `isEmpty()` holds for an image without pixels. -/
structure Image where
  width : Int
  height : Int
deriving DecidableEq, Repr

/-- Modelled from the spec: `Image::isEmpty()`. -/
def Image.isEmpty (image : Image) : Bool := decide (image.width ≤ 0) || decide (image.height ≤ 0)

/-- The cast `(uint)v` of an `int`. -/
def toUInt (v : Int) : Int := v % 4294967296

/-- The function `blitImage(const Point& p, const Image& image, const Rect* irect)`;
`irect = none` is the null pointer. -/
def RasterPaintEngine.blitImage (e : RasterPaintEngine) (p : Point) (image : Image)
    (irect : Option Rect) : DrawCall :=
  if image.isEmpty then .nothing
  else
    let capsState := e.caps
    if capsState.transformType = TRANSFORM_TRANSLATE_EXACT then
      let clipState := e.clip
      let dstx := p.x + capsState.transformTranslateInt.x
      let dsty := p.y + capsState.transformTranslateInt.y
      let start : Option (Int × Int × Int × Int) :=
        match irect with
        | none => some (0, 0, image.width, image.height)
        | some ir =>
          if !ir.isValid then none
          else if ir.x < 0 then none
          else if ir.y < 0 then none
          else if min image.width ir.w = 0 then none
          else if min image.height ir.h = 0 then none
          else some (ir.x, ir.y, min image.width ir.w, min image.height ir.h)
      match start with
      | none => .nothing
      | some (srcx, srcy, dstw, dsth) =>
        let d := dstx - clipState.clipBox.x1
        let stepX : Option (Int × Int × Int) :=
          if toUInt d ≥ toUInt clipState.clipBox.getWidth then
            if d < 0 then
              if dstw + d ≤ 0 then none else some (0, -d, dstw + d)
            else none
          else some (dstx, srcx, dstw)
        match stepX with
        | none => .nothing
        | some (dstx, srcx, dstw) =>
          let d := dsty - clipState.clipBox.y1
          let stepY : Option (Int × Int × Int) :=
            if toUInt d ≥ toUInt clipState.clipBox.getHeight then
              if d < 0 then
                if dsth + d ≤ 0 then none else some (0, -d, dsth + d)
              else none
            else some (dsty, srcy, dsth)
          match stepY with
          | none => .nothing
          | some (dsty, srcy, dsth) =>
            let dstw := if clipState.clipBox.x2 - dstx < dstw then clipState.clipBox.x2 - dstx
              else dstw
            let dsth := if clipState.clipBox.y2 - dsty < dsth then clipState.clipBox.y2 - dsty
              else dsth
            .image ⟨dstx, dsty, dstw, dsth⟩ ⟨srcx, srcy, dstw, dsth⟩
    else .imageAffine

/-- The function `setUserRegion(const Rect& r)`. -/
def RasterPaintEngine.setUserRegion (K : PaintEnv) (e : RasterPaintEngine) (r : Rect)
    (allocOk : Bool) : RasterPaintEngine :=
  match e._detachClipState allocOk with
  | (none, e1) => e1
  | (some _, e1) =>
    (e1.setClip { e1.clip with userRegion := Region.ofRect r,
                               userRegionUsed := true })._updateWorkRegion K

/-- The function `setUserRegion(const Region& r)`. -/
def RasterPaintEngine.setUserRegionR (K : PaintEnv) (e : RasterPaintEngine) (r : Region)
    (allocOk : Bool) : RasterPaintEngine :=
  match e._detachClipState allocOk with
  | (none, e1) => e1
  | (some _, e1) =>
    (e1.setClip { e1.clip with userRegion := r, userRegionUsed := true })._updateWorkRegion K

/-! ## Concrete engines used in the examples -/

/-- A choice of the library constants: enum values, default stroke parameters
and exact comparison for `Math::feq`. -/
def sampleEnv : PaintEnv :=
  ⟨1, 30, 0, 2, 1, 2, 1, 2, 0, 3, 0, 3, ⟨1, 0, 0, 0, 4, [], 0⟩, fun a b => decide (a = b)⟩

/-- A freshly constructed engine on a 300 x 300 buffer. -/
def freshEngine : RasterPaintEngine := RasterPaintEngine.create sampleEnv ⟨300, 300, 0⟩

/-- The engine after `setUserRegion(Rect(20, 20, 10, 10))` on a fresh 300 x 300
engine. -/
def clippedEngine : RasterPaintEngine :=
  freshEngine.setUserRegion sampleEnv ⟨20, 20, 10, 10⟩ true

/-- The engine after `setUserRegion` with the two-rectangle region
`[10, 20) x [10, 20)` and `[30, 40) x [10, 20)`. -/
def twoRectEngine : RasterPaintEngine :=
  freshEngine.setUserRegionR sampleEnv ⟨[⟨10, 10, 20, 20⟩, ⟨30, 10, 40, 20⟩]⟩ true

/-- The engine after `translate(5, 0)` and `resetMatrix()` on a fresh engine. -/
def resetEngine : RasterPaintEngine :=
  (freshEngine.translate sampleEnv 5 0 true true).resetMatrix true

/-- The engine `e1` is `e` after a copy-on-write of the clip state to the new
pointer `p`: the context points at `p`, the object at `p` has `refCount` 1 and
every other field equal to the old object, the old object lost exactly one
reference, and nothing else in the engine changed. -/
def ClipDetached (e e1 : RasterPaintEngine) (p : Nat) : Prop :=
  p ≠ e.ctxClipState ∧ e1.ctxClipState = p ∧
    readObj e1.clipObjs p = { e.clip with refCount := 1 } ∧
    readObj e1.clipObjs e.ctxClipState = { e.clip with refCount := e.clip.refCount - 1 } ∧
    e.clip.refCount - 1 + 1 = e.clip.refCount ∧
    (∀ q, q ≠ p → q ≠ e.ctxClipState → readObj e1.clipObjs q = readObj e.clipObjs q) ∧
    e1.capsObjs = e.capsObjs ∧ e1.pctxObjs = e.pctxObjs ∧ e1.ctxCapsState = e.ctxCapsState ∧
    e1.ctxPctx = e.ctxPctx ∧ e1.states = e.states ∧ e1.main = e.main

/-- The same for the caps state. -/
def CapsDetached (e e1 : RasterPaintEngine) (p : Nat) : Prop :=
  p ≠ e.ctxCapsState ∧ e1.ctxCapsState = p ∧
    readObj e1.capsObjs p = { e.caps with refCount := 1 } ∧
    readObj e1.capsObjs e.ctxCapsState = { e.caps with refCount := e.caps.refCount - 1 } ∧
    e.caps.refCount - 1 + 1 = e.caps.refCount ∧
    (∀ q, q ≠ p → q ≠ e.ctxCapsState → readObj e1.capsObjs q = readObj e.capsObjs q) ∧
    e1.clipObjs = e.clipObjs ∧ e1.pctxObjs = e.pctxObjs ∧ e1.ctxClipState = e.ctxClipState ∧
    e1.ctxPctx = e.ctxPctx ∧ e1.states = e.states ∧ e1.main = e.main

/-- The pixel `(px, py)` passes the clip of the engine: inside `clipBox` when
`clipSimple`, inside `workRegion` otherwise. -/
def RasterPaintEngine.InClip (e : RasterPaintEngine) (px py : Int) : Prop :=
  if e.clip.clipSimple then e.clip.clipBox.Covers px py
  else CoversAny e.clip.workRegion.rects px py

/-- The rectangle `r` translated by `t`, as a box. -/
def Rect.moved (r : Rect) (t : Point) : Box :=
  ⟨r.x + t.x, r.y + t.y, r.x + r.w + t.x, r.y + r.h + t.y⟩

/-- The first test of `alloc`, `!blocks || (blocks->size - blocks->pos) < size`:
the block list is empty or the space left behind the cursor of the head block
is smaller than `need` (the request plus the header). -/
def headShort (a : MemoryAllocator) (need : Nat) : Prop :=
  match a.blocks with
  | [] => True
  | b :: _ => b.size - b.pos < need


/-- The test on the head block can be evaluated. -/
instance (a : MemoryAllocator) (need : Nat) : Decidable (headShort a need) := by
  unfold headShort
  split <;> infer_instance

/-- The invariant of the block list can be evaluated. -/
instance (a : MemoryAllocator) : Decidable a.WF := by
  unfold MemoryAllocator.WF
  infer_instance

/-- The bytes a list of requests takes from a block, headers included. -/
def needSum (t : Target) (sizes : List Nat) : Nat := (sizes.map (fun s => s + sizeofHeader t)).sum


/-- Two requests of 984 and 5984 bytes (1000 and 6000 with the header on the
64-bit target): together they leave 1000 bytes free in a block. -/
def splitRequests : List (Nat × Bool) := [(984, true), (5984, true)]

/-- The run of `splitRequests` on a new allocator. -/
def splitRound : List AllocStep :=
  (allocSeq .lp64 MemoryAllocator.init splitRequests).getD []

/-- The allocator after the run `splitRound` and the release of both pointers. -/
def splitFreed : MemoryAllocator :=
  freeAll .lp64 (lastState MemoryAllocator.init splitRound) splitRound

/-- Two requests of 3984 bytes (4000 with the header): together they fill a block. -/
def fullRequests : List (Nat × Bool) := [(3984, true), (3984, true)]

/-- The run of `fullRequests` on a new allocator. -/
def fullRound : List AllocStep :=
  (allocSeq .lp64 MemoryAllocator.init fullRequests).getD []

/-! ## Clip setters and the clip invariant -/

/-- The body of the loop of `_deleteStates()`: one saved state gives up its
references to the clip state, the caps state and the pattern context. -/
def RasterPaintEngine.releaseStoredState (e : RasterPaintEngine) (s : RasterPaintStoredState) :
    RasterPaintEngine :=
  let a1 := e._derefClipState s.clipState
  let a2 := a1._derefCapsState s.capsState
  match s.pctx with
  | some p =>
    let o := readObj a2.pctxObjs p
    if !o.initialized || decide (o.refCount - 1 = 0) then
      { a2 with pctxObjs := a2.pctxObjs.set p { refCount := 0, initialized := false } }
    else { a2 with pctxObjs := a2.pctxObjs.set p { o with refCount := o.refCount - 1 } }
  | none => a2

/-- The function `_deleteStates()`: every saved state gives up its references;
the save stack is cleared. -/
def RasterPaintEngine._deleteStates (e : RasterPaintEngine) : RasterPaintEngine :=
  if e.states.isEmpty then e
  else { e.states.foldl RasterPaintEngine.releaseStoredState e with states := [] }

/-- The function `setMetaVariables(metaOrigin, metaRegion, useMetaRegion, reset)`.
`allocClip` and `allocCaps` tell whether the arena allocations of
`_detachClipState` and `_detachCapsState` succeed when they are made. -/
def RasterPaintEngine.setMetaVariables (K : PaintEnv) (e : RasterPaintEngine)
    (metaOrigin : Point) (metaRegion : Region) (useMetaRegion reset : Bool)
    (allocClip allocCaps : Bool) : RasterPaintEngine :=
  match e._detachClipState allocClip with
  | (none, e1) => e1
  | (some _, e1) =>
    let e2 := e1.setClip { e1.clip with metaOrigin := metaOrigin,
                                        metaRegion := metaRegion,
                                        metaRegionUsed := useMetaRegion }
    let e3 :=
      if reset then
        let a1 := e2._deleteStates
        let a2 := a1.setClip { a1.clip with userOrigin := ⟨0, 0⟩,
                                            userRegion := ⟨[]⟩,
                                            userRegionUsed := false,
                                            workOrigin := metaOrigin }
        match a2._detachCapsState allocCaps with
        | (none, a3) => a3
        | (some _, a3) => a3._setCapsDefaults K
      else e2
    e3._updateWorkRegion K

/-- The function `setMetaOrigin(pt)`. -/
def RasterPaintEngine.setMetaOrigin (K : PaintEnv) (e : RasterPaintEngine) (pt : Point)
    (allocOk : Bool) : RasterPaintEngine :=
  if e.clip.metaOrigin = pt then e
  else
    match e._detachClipState allocOk with
    | (none, e1) => e1
    | (some _, e1) => (e1.setClip { e1.clip with metaOrigin := pt })._updateWorkRegion K

/-- The function `translateMetaOrigin(pt)`. -/
def RasterPaintEngine.translateMetaOrigin (K : PaintEnv) (e : RasterPaintEngine) (pt : Point)
    (allocOk : Bool) : RasterPaintEngine :=
  if pt.x = 0 ∧ pt.y = 0 then e
  else
    match e._detachClipState allocOk with
    | (none, e1) => e1
    | (some _, e1) =>
      (e1.setClip { e1.clip with metaOrigin := e1.clip.metaOrigin.add pt })._updateWorkRegion K

/-- The function `translateUserOrigin(pt)`. -/
def RasterPaintEngine.translateUserOrigin (K : PaintEnv) (e : RasterPaintEngine) (pt : Point)
    (allocOk : Bool) : RasterPaintEngine :=
  if pt.x = 0 ∧ pt.y = 0 then e
  else
    match e._detachClipState allocOk with
    | (none, e1) => e1
    | (some _, e1) =>
      (e1.setClip { e1.clip with userOrigin := e1.clip.userOrigin.add pt })._updateWorkRegion K

/-- The function `resetMetaVars()`. -/
def RasterPaintEngine.resetMetaVars (K : PaintEnv) (e : RasterPaintEngine) (allocOk : Bool) :
    RasterPaintEngine :=
  match e._detachClipState allocOk with
  | (none, e1) => e1
  | (some _, e1) =>
    (e1.setClip { e1.clip with metaOrigin := ⟨0, 0⟩,
                               metaRegion := ⟨[]⟩,
                               metaRegionUsed := false })._updateWorkRegion K

/-- The function `resetUserVars()`. -/
def RasterPaintEngine.resetUserVars (K : PaintEnv) (e : RasterPaintEngine) (allocOk : Bool) :
    RasterPaintEngine :=
  match e._detachClipState allocOk with
  | (none, e1) => e1
  | (some _, e1) =>
    (e1.setClip { e1.clip with userOrigin := ⟨0, 0⟩,
                               userRegion := ⟨[]⟩,
                               userRegionUsed := false })._updateWorkRegion K

/-- The box `box` is the bounding box of the rectangles `rects`: it contains
each of them and lies inside every box that does; for no rectangle at all it
is the zero box. -/
def IsBoundingBox (box : Box) (rects : List Box) : Prop :=
  (rects = [] → box = ⟨0, 0, 0, 0⟩) ∧ (∀ b ∈ rects, b.Inside box) ∧
    (rects ≠ [] → ∀ other : Box, (∀ b ∈ rects, b.Inside other) → box.Inside other)

/-- The clip invariant of one clip state on a layer: without a meta or user
region the clip box is the whole layer and the clip is simple; with one, the
clip box is the bounding box of the work region, the clip is simple exactly
when the work region has at most one rectangle, and the clip box lies inside
the layer. -/
def ClipOK (layer : RasterPaintLayer) (c : RasterPaintClipState) : Prop :=
  (c.metaRegionUsed = false ∧ c.userRegionUsed = false →
      c.clipBox = ⟨0, 0, layer.width, layer.height⟩ ∧ c.clipSimple = true) ∧
    (¬ (c.metaRegionUsed = false ∧ c.userRegionUsed = false) →
      IsBoundingBox c.clipBox c.workRegion.rects ∧
      (c.clipSimple = true ↔ c.workRegion.getLength ≤ 1) ∧
      c.clipBox.Inside ⟨0, 0, layer.width, layer.height⟩)

/-- The clip invariant of an engine: the context points at a clip state of the
table, and every clip state of the table satisfies `ClipOK`. -/
def EngineClipInv (e : RasterPaintEngine) : Prop :=
  e.ctxClipState < e.clipObjs.length ∧ ∀ c ∈ e.clipObjs, ClipOK e.main c


/-- Every clip state of the table other than the one the context points at
satisfies `ClipOK`, and the context points into the table. -/
def OthersOK (e : RasterPaintEngine) : Prop :=
  e.ctxClipState < e.clipObjs.length ∧
    ∀ i c, e.clipObjs[i]? = some c → i ≠ e.ctxClipState → ClipOK e.main c


/-! ## Transform classification -/

/-- The value `isIdentity` of `_updateTransform`: the four comparisons of the
linear part with the identity by `Math::feq`. -/
def Matrix.feqIdentity (K : PaintEnv) (m : Matrix) : Prop :=
  K.feq m.sx 1 = true ∧ K.feq m.sy 1 = true ∧ K.feq m.shx 0 = true ∧ K.feq m.shy 0 = true

instance (K : PaintEnv) (m : Matrix) : Decidable (m.feqIdentity K) :=
  inferInstanceAs (Decidable (_ ∧ _ ∧ _ ∧ _))

/-- The translation component `v` is integral to 1/256 of a pixel: in units of
1/256 pixel it rounds to a whole number of pixels. -/
def IntegralTo256 (v : ℚ) : Prop := (256 : Int) ∣ iround (v * 256)

instance (v : ℚ) : Decidable (IntegralTo256 v) :=
  inferInstanceAs (Decidable ((256 : Int) ∣ _))

/-- The type `_updateTransform(false)` stores for the transform `m`: the
branch `else` of `if (translationOnly)`, with `isIdentity` and `isExact`. -/
def fullRuleType (K : PaintEnv) (m : Matrix) : Nat :=
  if m.feqIdentity K then
    if IntegralTo256 m.tx ∧ IntegralTo256 m.ty then TRANSFORM_TRANSLATE_EXACT
    else TRANSFORM_TRANSLATE_SUBPX
  else TRANSFORM_AFFINE

/-- The 2x2 linear part of the matrix is the identity. -/
def Matrix.linearIsIdentity (m : Matrix) : Prop :=
  m.sx = 1 ∧ m.sy = 1 ∧ m.shx = 0 ∧ m.shy = 0

instance (m : Matrix) : Decidable m.linearIsIdentity :=
  inferInstanceAs (Decidable (_ ∧ _ ∧ _ ∧ _))

/-- The classification rule in the words of the specification: exact-translate
if the linear part is the identity and both translation components are
integral to 1/256 of a pixel, sub-pixel-translate if the linear part is the
identity but a translation component is not integral, affine otherwise. -/
def classifyTransform (m : Matrix) : Nat :=
  if m.linearIsIdentity then
    if IntegralTo256 m.tx ∧ IntegralTo256 m.ty then TRANSFORM_TRANSLATE_EXACT
    else TRANSFORM_TRANSLATE_SUBPX
  else TRANSFORM_AFFINE

/-! ## Enum setters (`setOperator`, `setHint`, `setFillMode`, stroke caps and joins) -/

/-- The store of an `int` into a `uint8_t` member. -/
def toUInt8 (v : Int) : Nat := (v % 256).toNat

/-- The function `setOperator(op)`. -/
def RasterPaintEngine.setOperator (K : PaintEnv) (e : RasterPaintEngine) (op : Int)
    (allocOk : Bool) : RasterPaintEngine :=
  if decide ((e.caps.op : Int) = op) || decide (toUInt op ≥ toUInt K.OPERATOR_COUNT) then e
  else
    match e._detachCapsState allocOk with
    | (none, e1) => e1
    | (some _, e1) =>
      e1.setCaps { e1.caps with op := toUInt8 op, rops := ⟨e1.main.format, op.toNat⟩ }

/-- The selector of `setHint(hint, value)`: the three cases of its `switch` and
the `default` label. -/
inductive PainterHint where
  /-- The case `PAINTER_HINT_ANTIALIASING_QUALITY`. -/
  | antialiasingQuality
  /-- The case `PAINTER_HINT_IMAGE_INTERPOLATION`. -/
  | imageInterpolation
  /-- The case `PAINTER_HINT_GRADIENT_INTERPOLATION`. -/
  | gradientInterpolation
  /-- Any other value of `hint`. -/
  | other
deriving DecidableEq, Repr

/-- The function `setHint(hint, value)`. -/
def RasterPaintEngine.setHint (K : PaintEnv) (e : RasterPaintEngine) (hint : PainterHint)
    (value : Int) (allocOk : Bool) : RasterPaintEngine :=
  match hint with
  | .antialiasingQuality =>
    if decide ((e.caps.aaQuality : Int) = value) ||
        decide (toUInt value ≥ toUInt K.ANTI_ALIASING_COUNT) then e
    else
      match e._detachCapsState allocOk with
      | (none, e1) => e1
      | (some _, e1) => e1.setCaps { e1.caps with aaQuality := toUInt8 value }
  | .imageInterpolation =>
    if decide ((e.caps.imageInterpolation : Int) = value) ||
        decide (toUInt value ≥ toUInt K.INTERPOLATION_INVALID) then e
    else
      match e._detachCapsState allocOk with
      | (none, e1) => e1
      | (some _, e1) => e1.setCaps { e1.caps with imageInterpolation := toUInt8 value }
  | .gradientInterpolation =>
    if decide ((e.caps.gradientInterpolation : Int) = value) ||
        decide (toUInt value ≥ toUInt K.INTERPOLATION_INVALID) then e
    else
      match e._detachCapsState allocOk with
      | (none, e1) => e1
      | (some _, e1) => e1.setCaps { e1.caps with gradientInterpolation := toUInt8 value }
  | .other => e

/-- The function `setFillMode(mode)`. -/
def RasterPaintEngine.setFillMode (K : PaintEnv) (e : RasterPaintEngine) (mode : Int)
    (allocOk : Bool) : RasterPaintEngine :=
  if decide ((e.caps.fillMode : Int) = mode) || decide (toUInt mode ≥ toUInt K.FILL_MODE_COUNT)
  then e
  else
    match e._detachCapsState allocOk with
    | (none, e1) => e1
    | (some _, e1) => e1.setCaps { e1.caps with fillMode := toUInt8 mode }

/-- The function `setStartCap(startCap)`. -/
def RasterPaintEngine.setStartCap (K : PaintEnv) (e : RasterPaintEngine) (startCap : Int)
    (allocOk : Bool) : RasterPaintEngine :=
  if decide (e.caps.strokeParams.startCap = startCap) ||
      decide (toUInt startCap ≥ toUInt K.LINE_CAP_COUNT) then e
  else
    match e._detachCapsState allocOk with
    | (none, e1) => e1
    | (some _, e1) =>
      e1.setCaps { e1.caps with strokeParams := { e1.caps.strokeParams with startCap := startCap } }

/-- The function `setEndCap(endCap)`. -/
def RasterPaintEngine.setEndCap (K : PaintEnv) (e : RasterPaintEngine) (endCap : Int)
    (allocOk : Bool) : RasterPaintEngine :=
  if decide (e.caps.strokeParams.endCap = endCap) ||
      decide (toUInt endCap ≥ toUInt K.LINE_CAP_COUNT) then e
  else
    match e._detachCapsState allocOk with
    | (none, e1) => e1
    | (some _, e1) =>
      e1.setCaps { e1.caps with strokeParams := { e1.caps.strokeParams with endCap := endCap } }

/-- The function `setLineCaps(lineCaps)`. -/
def RasterPaintEngine.setLineCaps (K : PaintEnv) (e : RasterPaintEngine) (lineCaps : Int)
    (allocOk : Bool) : RasterPaintEngine :=
  if decide (e.caps.strokeParams.startCap = lineCaps) ||
      decide (e.caps.strokeParams.endCap = lineCaps) ||
      decide (toUInt lineCaps ≥ toUInt K.LINE_CAP_COUNT) then e
  else
    match e._detachCapsState allocOk with
    | (none, e1) => e1
    | (some _, e1) =>
      e1.setCaps { e1.caps with strokeParams :=
        { e1.caps.strokeParams with startCap := lineCaps, endCap := lineCaps } }

/-- The function `setLineJoin(lineJoin)`. -/
def RasterPaintEngine.setLineJoin (K : PaintEnv) (e : RasterPaintEngine) (lineJoin : Int)
    (allocOk : Bool) : RasterPaintEngine :=
  if decide (e.caps.strokeParams.lineJoin = lineJoin) ||
      decide (toUInt lineJoin ≥ toUInt K.LINE_JOIN_COUNT) then e
  else
    match e._detachCapsState allocOk with
    | (none, e1) => e1
    | (some _, e1) =>
      e1.setCaps { e1.caps with strokeParams := { e1.caps.strokeParams with lineJoin := lineJoin } }

/-- The value `v` is out of the range of an enum with `count` values: negative,
or `count` and above. -/
def OutOfRange (v count : Int) : Prop := v < 0 ∨ count ≤ v

instance (v count : Int) : Decidable (OutOfRange v count) :=
  inferInstanceAs (Decidable (_ ∨ _))

/-- The value `v` is a value of the C++ type `int` (32 bits). -/
def IsInt32 (v : Int) : Prop := -2147483648 ≤ v ∧ v < 2147483648

instance (v : Int) : Decidable (IsInt32 v) := inferInstanceAs (Decidable (_ ∧ _))

/-- The enum counts of the library are non-negative values of type `int`. -/
def PaintEnv.CountsAreInts (K : PaintEnv) : Prop :=
  (K.OPERATOR_COUNT : Int) < 2147483648 ∧ (K.FILL_MODE_COUNT : Int) < 2147483648 ∧
    (K.ANTI_ALIASING_COUNT : Int) < 2147483648 ∧ (K.INTERPOLATION_INVALID : Int) < 2147483648 ∧
    0 ≤ K.LINE_CAP_COUNT ∧ K.LINE_CAP_COUNT < 2147483648 ∧
    0 ≤ K.LINE_JOIN_COUNT ∧ K.LINE_JOIN_COUNT < 2147483648

instance (K : PaintEnv) : Decidable K.CountsAreInts :=
  inferInstanceAs (Decidable (_ ∧ _ ∧ _ ∧ _ ∧ _ ∧ _ ∧ _ ∧ _))

/-! ## The multithreaded engine: render contexts, worker tasks, command queue -/

/-- The enum constant `RASTER_MAX_WORKERS`. -/
def RASTER_MAX_WORKERS : Nat := 16

/-- The enum constant `RASTER_MAX_COMMANDS` (without
`FOG_DEBUG_RASTER_SYNCHRONIZATION`). -/
def RASTER_MAX_COMMANDS : Nat := 1024

/-- The enum constant `RASTER_MAX_CALCULATIONS` (without
`FOG_DEBUG_RASTER_SYNCHRONIZATION`). -/
def RASTER_MAX_CALCULATIONS : Nat := 1024

/-- The size `FOG_ARRAY_SIZE(bufferStatic)` of `uint8_t bufferStatic[1024*8]`. -/
def BUFFER_STATIC_SIZE : Int := 8192

/-- The struct `RasterPaintContext`, as far as the row scheduling and the
scratch buffer go.  `buffer = none` is `buffer == bufferStatic`; `some n` is a
block of `n` bytes obtained from `Memory::alloc`. -/
structure RasterPaintContext where
  id : Int
  offset : Int
  delta : Int
  buffer : Option Int
  bufferSize : Int
deriving DecidableEq, Repr, Inhabited

/-- The constructor `RasterPaintContext()`. -/
def RasterPaintContext.new : RasterPaintContext :=
  { id := -1, offset := 0, delta := 1, buffer := none, bufferSize := BUFFER_STATIC_SIZE }

/-- The struct `RasterPaintTask`: the cursors of one worker into the two
queues, and its render context. -/
structure RasterPaintTask where
  calcCurrent : Int
  cmdCurrent : Int
  ctx : RasterPaintContext
deriving DecidableEq, Repr, Inhabited

/-- The constructor `RasterPaintTask(lock)`. -/
def RasterPaintTask.new : RasterPaintTask :=
  { calcCurrent := 0, cmdCurrent := 0, ctx := RasterPaintContext.new }

/-- The struct `RasterPaintWorkerManager`: `tasks` holds the constructed tasks
`tasks[0 .. numWorkers)`; `cmdData` and `calcData` are the two fixed arrays,
whose slots hold a pointer (an identifier) or `NULL`. -/
structure RasterPaintWorkerManager where
  numWorkers : Nat
  tasks : List RasterPaintTask
  cmdPosition : Int
  cmdData : List (Option Nat)
  calcPosition : Int
  calcData : List (Option Nat)
deriving DecidableEq, Repr, Inhabited

/-- A call of one of the render functions on the layer. -/
inductive RenderCall where
  /-- A call `_renderBoxes(&ctx, box, count)`. -/
  | boxes (bs : List Box)
  /-- A call `_renderGlyphSet(&ctx, pt, glyphSet, boundingBox)`. -/
  | glyphSet (pt : Point) (glyphSet : Nat) (boundingBox : Box)
  /-- A call `_renderPath(&ctx, ras)` after `_rasterizePath`. -/
  | path (path : Nat) (stroke : Bool)
deriving DecidableEq, Repr

/-- The engine with the members of the multithreaded mode: the render context
`ctx` of the engine itself (its `clipState`, `capsState` and `pctx` pointers
are the fields of the base structure), the pointer `workerManager`, and the
calls of the render functions made on the layer so far (the layer changes only
through them). -/
structure RasterPaintEngineMT extends RasterPaintEngine where
  ctx : RasterPaintContext
  workerManager : Option RasterPaintWorkerManager
  rendered : List RenderCall

/-- The store `arr[pos] = v` into a fixed array, `pos` being a `sysuint_t` taken
from the `sysint_t` position: `none` when the index lies outside the array (a
negative position converts to an index beyond any array). -/
def storeAt {α : Type} (arr : List α) (pos : Int) (v : α) : Option (List α) :=
  if 0 ≤ pos ∧ pos < arr.length then some (arr.set pos.toNat v) else none

/-- The function `flush()`.  The wait for the workers is the job of the
workers; the producer then resets the two positions and the cursors of the
workers. -/
def RasterPaintEngineMT.flush (e : RasterPaintEngineMT) : RasterPaintEngineMT :=
  match e.workerManager with
  | none => e
  | some workerManager =>
    if workerManager.cmdPosition = 0 then e
    else
      { e with workerManager := some { workerManager with
          cmdPosition := 0,
          calcPosition := 0,
          tasks := workerManager.tasks.map
            (fun task => { task with cmdCurrent := 0, calcCurrent := 0 }) } }

/-- The function `_postCommand(cmd, clc)`; `clc = none` is the null pointer.
The result is `none` when the function dereferences a null `workerManager` or
stores outside one of the arrays.  The wake-up of waiting workers does not
change the queue. -/
def RasterPaintEngineMT._postCommand (e : RasterPaintEngineMT) (cmd : Nat) (clc : Option Nat) :
    Option RasterPaintEngineMT :=
  match e.workerManager with
  | none => none
  | some full =>
    let e1 := if full.cmdPosition = RASTER_MAX_COMMANDS then e.flush else e
    match e1.workerManager with
    | none => none
    | some workerManager =>
      let afterCalc : Option RasterPaintWorkerManager :=
        match clc with
        | some c =>
          (storeAt workerManager.calcData workerManager.calcPosition (some c)).map
            (fun data => { workerManager with calcData := data,
                                              calcPosition := workerManager.calcPosition + 1 })
        | none => some workerManager
      afterCalc.bind (fun workerManager =>
        (storeAt workerManager.cmdData workerManager.cmdPosition (some cmd)).map
          (fun data => { e1 with workerManager := some { workerManager with
            cmdData := data, cmdPosition := workerManager.cmdPosition + 1 } }))

/-- The worker manager is as `setEngine` leaves it: both positions are zero and
the two arrays have their declared sizes. -/
def RasterPaintWorkerManager.Started (m : RasterPaintWorkerManager) : Prop :=
  m.cmdPosition = 0 ∧ m.calcPosition = 0 ∧ m.cmdData.length = RASTER_MAX_COMMANDS ∧
    m.calcData.length = RASTER_MAX_CALCULATIONS

/-- The engines reachable from a started worker manager by `_postCommand` and
`flush`, with the workers free to clear calculation slots and to move their
cursors in between. -/
inductive QueueReachable : RasterPaintEngineMT → Prop
  | start (e : RasterPaintEngineMT) (m : RasterPaintWorkerManager) :
      e.workerManager = some m → m.Started → QueueReachable e
  | flush (e : RasterPaintEngineMT) : QueueReachable e → QueueReachable e.flush
  | post (e e1 : RasterPaintEngineMT) (cmd : Nat) (clc : Option Nat) :
      QueueReachable e → e._postCommand cmd clc = some e1 → QueueReachable e1
  | workers (e : RasterPaintEngineMT) (m : RasterPaintWorkerManager)
      (calcData : List (Option Nat)) (tasks : List RasterPaintTask) :
      QueueReachable e → e.workerManager = some m → calcData.length = m.calcData.length →
      QueueReachable { e with workerManager := some { m with calcData := calcData,
                                                             tasks := tasks } }

/-- A started worker manager with two workers. -/
def twoWorkers : RasterPaintWorkerManager :=
  { numWorkers := 2,
    tasks := [{ RasterPaintTask.new with ctx := { RasterPaintContext.new with
                  id := 0, offset := 0, delta := 2 } },
              { RasterPaintTask.new with ctx := { RasterPaintContext.new with
                  id := 1, offset := 1, delta := 2 } }],
    cmdPosition := 0,
    cmdData := List.replicate RASTER_MAX_COMMANDS none,
    calcPosition := 0,
    calcData := List.replicate RASTER_MAX_CALCULATIONS none }

/-- A fresh engine switched to two workers. -/
def mtEngine : RasterPaintEngineMT :=
  { freshEngine with ctx := RasterPaintContext.new, workerManager := some twoWorkers,
                     rendered := [] }

/-! ## The calculation phase of the workers (`RasterPaintTask::run`) -/

/-- One worker in the calculation phase of `RasterPaintTask::run`: its cursor
`calcCurrent` and its local `clc`, which is `none` before the read `*pclc` and
`some v` between that read and the `cmpXchg`. -/
structure CalcWorker where
  calcCurrent : Int
  clc : Option (Option Nat)
deriving DecidableEq, Repr, Inhabited

/-- The state the calculation phase works on: `mgr->calcPosition`,
`mgr->calcData`, the workers, and the calls `clc->run(&ctx)` made so far, each
recorded as the worker that made it and the slot of the calculation. -/
structure CalcPhase where
  calcPosition : Int
  calcData : List (Option Nat)
  workers : List CalcWorker
  ran : List (Nat × Nat)
deriving DecidableEq, Repr, Inhabited

/-- One atomic step of worker `i` in the calculation phase.  Before the read:
if `calcCurrent < mgr->calcPosition`, read the slot into `clc`.  After the
read: if `clc` is not null and `cmpXchg(pclc, clc, NULL)` succeeds, clear the
slot and run the calculation; then `calcCurrent++`.  A worker with nothing to
do leaves the state as it is. -/
def CalcPhase.step (s : CalcPhase) (i : Nat) : CalcPhase :=
  match s.workers[i]? with
  | none => s
  | some worker =>
    match worker.clc with
    | none =>
      if worker.calcCurrent < s.calcPosition then
        let clc := s.calcData.getD worker.calcCurrent.toNat none
        { s with workers := s.workers.set i { worker with clc := some clc } }
      else s
    | some clc =>
      let won := clc.isSome && decide (s.calcData.getD worker.calcCurrent.toNat none = clc)
      { s with
        calcData := if won then s.calcData.set worker.calcCurrent.toNat none else s.calcData,
        ran := if won then s.ran ++ [(i, worker.calcCurrent.toNat)] else s.ran,
        workers := s.workers.set i { calcCurrent := worker.calcCurrent + 1, clc := none } }

/-- An interleaving: the workers take their atomic steps in the order given. -/
def CalcPhase.run (s : CalcPhase) (schedule : List Nat) : CalcPhase :=
  schedule.foldl CalcPhase.step s

/-- The queue holds `calcPosition` posted calculations (non-null slots inside
the array) and every worker is at the start of the queue. -/
def CalcPhase.Posted (s : CalcPhase) : Prop :=
  0 ≤ s.calcPosition ∧ s.calcPosition ≤ s.calcData.length ∧
    (∀ j : Nat, (j : Int) < s.calcPosition → s.calcData.getD j none ≠ none) ∧
    (∀ w ∈ s.workers, w = ⟨0, none⟩) ∧ s.ran = []

/-- Every worker has passed the whole queue: no step is left. -/
def CalcPhase.Done (s : CalcPhase) : Prop :=
  ∀ w ∈ s.workers, w.clc = none ∧ s.calcPosition ≤ w.calcCurrent

instance (s : CalcPhase) : Decidable s.Done :=
  inferInstanceAs (Decidable (∀ w ∈ s.workers, w.clc = none ∧ s.calcPosition ≤ w.calcCurrent))

/-- The number of atomic steps the workers have left. -/
def CalcPhase.stepsLeft (s : CalcPhase) : Nat :=
  (s.workers.map (fun w =>
    2 * (s.calcPosition - w.calcCurrent).toNat - (if w.clc.isSome then 1 else 0))).sum

/-- Two workers at the start of a queue of three posted calculations. -/
def threeCalcs : CalcPhase :=
  { calcPosition := 3, calcData := [some 10, some 11, some 12, none],
    workers := [⟨0, none⟩, ⟨0, none⟩], ran := [] }

/-- The invariant of one worker against the array as posted (`posted`) and as
it is now (`data`): its cursor is inside the queue, every slot it has passed
is null, and a value it has read but not yet exchanged is either null, with
the slot null, or the pointer that was posted in the slot. -/
def CalcWorker.OK (posted data : List (Option Nat)) (calcPosition : Int) (w : CalcWorker) :
    Prop :=
  0 ≤ w.calcCurrent ∧ w.calcCurrent ≤ calcPosition ∧
    (∀ j : Nat, (j : Int) < w.calcCurrent → data.getD j none = none) ∧
    (∀ v, w.clc = some v → w.calcCurrent < calcPosition ∧
      (v = none → data.getD w.calcCurrent.toNat none = none) ∧
      (∀ p, v = some p → posted.getD w.calcCurrent.toNat none = some p))

/-- The invariant of the calculation phase started from `start`: the queue
keeps its size, a slot holds what was posted or null, every worker is
`CalcWorker.OK`, and the calculations run so far are exactly the null slots of
the queue, each recorded once. -/
def CalcPhase.Inv (start s : CalcPhase) : Prop :=
  s.calcPosition = start.calcPosition ∧ s.workers.length = start.workers.length ∧
    0 ≤ s.calcPosition ∧ s.calcPosition ≤ s.calcData.length ∧
    (∀ j : Nat, s.calcData.getD j none = start.calcData.getD j none ∨
      s.calcData.getD j none = none) ∧
    (∀ w ∈ s.workers, w.OK start.calcData s.calcData s.calcPosition) ∧
    (s.ran.map Prod.snd).Nodup ∧
    (∀ j : Nat, j ∈ s.ran.map Prod.snd ↔
      ((j : Int) < s.calcPosition ∧ s.calcData.getD j none = none))

/-! ## Image blit rows (`_renderImage`) -/

/-- A call `vspan(dstCur, srcCur, w, &closure)` of `_renderImage`, with the row
`y1` at which the loop makes it.  The two pointers are byte offsets from
`layer->pixels` and from `image_d->first`. -/
structure VSpanCall where
  y : Int
  dstCur : Int
  srcCur : Int
  w : Int
deriving DecidableEq, Repr

/-- The loop `do { vspan(dstCur, srcCur, w, &closure); dstCur += dstStride;
srcCur += srcStride; y1 += delta; } while (y1 < y2);` of `_renderImage`: the
calls made, in order.  The first argument bounds the number of iterations. -/
def imageLoop : Nat → Int → Int → Int → Int → Int → Int → Int → Int → List VSpanCall
  | 0, _, _, _, _, _, _, _, _ => []
  | fuel + 1, dstCur, srcCur, dstStride, srcStride, w, y1, y2, delta =>
    ⟨y1, dstCur, srcCur, w⟩ ::
      (if y1 + delta < y2 then
        imageLoop fuel (dstCur + dstStride) (srcCur + srcStride) dstStride srcStride w
          (y1 + delta) y2 delta
      else [])

/-- The function `_renderImage(ctx, dst, image, src)` for a context with the
given `offset` and `delta`: the calls of `vspan` it makes.  `dstStride` and
`bpp` are `layer->stride` and `layer->bpp`, `srcStride` and `bytesPerPixel`
those of the image. -/
def _renderImage (dstStride bpp srcStride bytesPerPixel : Int) (offset delta : Int)
    (dst src : Rect) : List VSpanCall :=
  let x := dst.x
  let w := dst.w
  let y1 := dst.y
  let y2 := dst.y + dst.h
  let dstCur := x * bpp
  let srcCur := src.x * bytesPerPixel
  if delta = 1 then
    imageLoop (max 1 (y2 - y1).toNat) (dstCur + y1 * dstStride) (srcCur + src.y * srcStride)
      dstStride srcStride w y1 y2 delta
  else
    let y1 := alignToDelta y1 offset delta
    if y1 ≥ y2 then []
    else
      imageLoop (y2 - y1).toNat (dstCur + y1 * dstStride)
        (srcCur + (src.y + y1 - dst.y) * srcStride) (dstStride * delta) (srcStride * delta)
        w y1 y2 delta

/-- The call that writes destination row `y` from source row
`src.y + (y - dst.y)`. -/
def rowCall (dstStride bpp srcStride bytesPerPixel : Int) (dst src : Rect) (y : Int) :
    VSpanCall :=
  ⟨y, dst.x * bpp + y * dstStride,
    src.x * bytesPerPixel + (src.y + (y - dst.y)) * srcStride, dst.w⟩

/-! ## Switching the engine mode (`setEngine`) -/

/-- What `setEngine` takes from outside the engine: whether the static
`threadPool` exists, which calls `threadPool->getThread(i)` return a thread,
`cpuInfo->numberOfProcessors`, whether `new(std::nothrow)
RasterPaintWorkerManager` succeeds, and the enum value
`PAINTER_ENGINE_RASTER_MT`. -/
structure ThreadEnv where
  threadPool : Bool
  getThread : Int → Bool
  numberOfProcessors : Int
  managerAllocOk : Bool
  PAINTER_ENGINE_RASTER_MT : Int

/-- The loop `for (i = 0; i < max; i++) { if ((threads[i] = getThread(i)) ==
NULL) break; }` from index `i` on: the value of `i` after the loop.  The first
argument bounds the number of iterations. -/
def acquireThreads (getThread : Int → Bool) (max : Int) : Nat → Int → Int
  | 0, i => i
  | fuel + 1, i =>
    if i < max then (if getThread i then acquireThreads getThread max fuel (i + 1) else i)
    else i

/-- The constructor `RasterPaintEngine(buffer, hints)` with the members of the
multithreaded mode, before the choice of the mode: `workerManager(NULL)` and a
default-constructed `ctx`. -/
def RasterPaintEngineMT.create (K : PaintEnv) (layer : RasterPaintLayer) : RasterPaintEngineMT :=
  { RasterPaintEngine.create K layer with
    ctx := RasterPaintContext.new, workerManager := none, rendered := [] }

/-- The function `setEngine(engine, cores)`.  Starting the multithreaded mode
builds the worker manager and one task per acquired thread; stopping it
flushes, releases the threads and deletes the worker manager. -/
def RasterPaintEngineMT.setEngine (T : ThreadEnv) (e : RasterPaintEngineMT)
    (engine cores : Int) : RasterPaintEngineMT :=
  let mt := decide (engine = T.PAINTER_ENGINE_RASTER_MT)
  if !T.threadPool then e
  else if e.workerManager.isSome = mt then e
  else if mt then
    let max := min (if cores > 0 then cores else T.numberOfProcessors) (RASTER_MAX_WORKERS : Int)
    if !T.managerAllocOk then { e with workerManager := none }
    else
      let max := if max < 2 then 2 else max
      let i := acquireThreads T.getThread max max.toNat 0
      if i ≤ 1 then { e with workerManager := none }
      else
        let count := i
        let workerManager : RasterPaintWorkerManager :=
          { numWorkers := count.toNat,
            tasks := (List.range count.toNat).map (fun (k : Nat) =>
              { RasterPaintTask.new with ctx := { RasterPaintContext.new with
                  id := (k : Int), offset := (k : Int), delta := count } }),
            cmdPosition := 0,
            cmdData := List.replicate RASTER_MAX_COMMANDS none,
            calcPosition := 0,
            calcData := List.replicate RASTER_MAX_CALCULATIONS none }
        { e with workerManager := some workerManager }
  else { e with workerManager := none }

/-- The workers of a worker manager are as `setEngine` builds them: between 2
and `RASTER_MAX_WORKERS` of them, worker `i` with `id` and `offset` equal to
`i` and `delta` equal to their number. -/
def RasterPaintWorkerManager.WorkersOK (m : RasterPaintWorkerManager) : Prop :=
  2 ≤ m.numWorkers ∧ m.numWorkers ≤ RASTER_MAX_WORKERS ∧ m.tasks.length = m.numWorkers ∧
    ∀ (i : Nat) (task : RasterPaintTask), m.tasks[i]? = some task →
      task.ctx.id = (i : Int) ∧ task.ctx.offset = (i : Int) ∧
        task.ctx.delta = (m.numWorkers : Int)

/-- The render contexts of the engine: its own `ctx` and the `ctx` of every
worker task. -/
def RasterPaintEngineMT.renderContexts (e : RasterPaintEngineMT) : List RasterPaintContext :=
  e.ctx :: (match e.workerManager with
    | none => []
    | some m => m.tasks.map (fun task => task.ctx))

/-- A fresh single-threaded engine on a 300 x 300 buffer. -/
def stEngine : RasterPaintEngineMT := RasterPaintEngineMT.create sampleEnv ⟨300, 300, 0⟩

/-- A thread pool that hands out three threads, on a machine with eight
processors. -/
def threeThreads : ThreadEnv :=
  { threadPool := true, getThread := fun i => decide (i < 3), numberOfProcessors := 8,
    managerAllocOk := true, PAINTER_ENGINE_RASTER_MT := 1 }

/-! ## Serializers and the pattern context -/

/-- What the serializers take from outside the engine: whether the engine
arena can allocate a pattern context, whether the `*_init` function of the
pattern succeeds, the results of the successive calls of
`workerManager->allocator.alloc` for commands (an address or `NULL`; `NULL`
once the list is used up), the result of that call for a calculation, and the
result of `_rasterizePath`. -/
structure SerializeEnv where
  pctxAllocOk : Bool
  patternInitOk : Bool
  cmdAllocs : List (Option Nat)
  calcAlloc : Option Nat
  rasterizeOk : Bool

/-- The test `sourceType == PAINTER_SOURCE_PATTERN`. -/
def Source.isPattern : Source → Bool
  | .pattern _ => true
  | _ => false

/-- The function `_getPatternRasterPaintContext()`: the pointer returned
(`none` is `NULL`) and the engine afterwards.  A successful `*_init` function
marks the context as initialised. -/
def RasterPaintEngineMT._getPatternRasterPaintContext (e : RasterPaintEngineMT)
    (O : SerializeEnv) : Option Nat × RasterPaintEngineMT :=
  let go (e1 : RasterPaintEngineMT) (pctx : Nat) : Option Nat × RasterPaintEngineMT :=
    let o := readObj e1.pctxObjs pctx
    if !o.initialized then
      if !O.patternInitOk then (none, e1)
      else (some pctx, { e1 with pctxObjs := e1.pctxObjs.set pctx { o with initialized := true } })
    else (some pctx, e1)
  match e.ctxPctx with
  | none =>
    if !O.pctxAllocOk then (none, e)
    else
      go { e with pctxObjs := e.pctxObjs ++ [{ refCount := 1, initialized := false }],
                  ctxPctx := some e.pctxObjs.length } e.pctxObjs.length
  | some pctx => go e pctx

/-- The function `_createCommand<T>(size)`, given the result `addr` of
`workerManager->allocator.alloc(size)`: the command keeps a reference to the
clip state, to the caps state and, for a pattern source, to the pattern
context.  The command object itself is not modelled beyond its address. -/
def RasterPaintEngineMT._createCommand (e : RasterPaintEngineMT) (addr : Option Nat) :
    Option Nat × RasterPaintEngineMT :=
  match addr with
  | none => (none, e)
  | some command =>
    let clip := e.clip
    let caps := e.caps
    let b1 := e.toRasterPaintEngine.setClip { clip with refCount := clip.refCount + 1 }
    let b2 := b1.setCaps { caps with refCount := caps.refCount + 1 }
    let b3 :=
      if caps.source.isPattern then
        match b2.ctxPctx with
        | some p =>
          let o := readObj b2.pctxObjs p
          { b2 with pctxObjs := b2.pctxObjs.set p { o with refCount := o.refCount + 1 } }
        | none => b2
      else b2
    (some command, { e with toRasterPaintEngine := b3 })

/-- The function `RasterPaintCmd::release()` on a command that
`_createCommand` has just built: `_releaseObjects()` gives back its references
to the current clip state, caps state and pattern context. -/
def RasterPaintEngineMT.releaseCommand (e : RasterPaintEngineMT) : RasterPaintEngineMT :=
  let b1 := e.toRasterPaintEngine._derefClipState e.ctxClipState
  let b2 := b1._derefCapsState e.ctxCapsState
  let b3 :=
    if e.caps.source.isPattern then
      match b2.ctxPctx with
      | some p =>
        let o := readObj b2.pctxObjs p
        if o.refCount - 1 = 0 then
          { b2 with pctxObjs := b2.pctxObjs.set p { refCount := 0, initialized := false } }
        else { b2 with pctxObjs := b2.pctxObjs.set p { o with refCount := o.refCount - 1 } }
      | none => b2
    else b2
  { e with toRasterPaintEngine := b3 }

/-- The loop `while (count > 0) { ... }` of the multithreaded branch of
`_serializeBoxes`: one command for every 128 boxes.  The first argument bounds
the number of iterations; the result is `none` when `_postCommand` fails. -/
def serializeBoxesLoop : Nat → RasterPaintEngineMT → List Box → List (Option Nat) →
    Option RasterPaintEngineMT
  | 0, e, _, _ => some e
  | fuel + 1, e, boxes, allocs =>
    if boxes.length > 0 then
      let n := min boxes.length 128
      match e._createCommand (allocs.headD none) with
      | (none, e1) => some e1
      | (some cmd, e1) =>
        match e1._postCommand cmd none with
        | none => none
        | some e2 => serializeBoxesLoop fuel e2 (boxes.drop n) allocs.tail
    else some e

/-- The function `_serializeBoxes(box, count)`.  The result is `none` when
`_postCommand` fails. -/
def RasterPaintEngineMT._serializeBoxes (e : RasterPaintEngineMT) (O : SerializeEnv)
    (boxes : List Box) : Option RasterPaintEngineMT :=
  let r : Bool × RasterPaintEngineMT :=
    if e.caps.source.isPattern then
      match e._getPatternRasterPaintContext O with
      | (none, e1) => (false, e1)
      | (some _, e1) => (true, e1)
    else (true, e)
  if !r.1 then some r.2
  else
    match r.2.workerManager with
    | none => some { r.2 with rendered := r.2.rendered ++ [.boxes boxes] }
    | some _ => serializeBoxesLoop boxes.length r.2 boxes O.cmdAllocs

/-- The constructor `Box(const Rect&)`. -/
def Box.ofRect (r : Rect) : Box := ⟨r.getX1, r.getY1, r.getX2, r.getY2⟩

/-- The function `_serializeGlyphSet(pt, glyphSet, clip)`; `clip = none` is the
null pointer. -/
def RasterPaintEngineMT._serializeGlyphSet (e : RasterPaintEngineMT) (O : SerializeEnv)
    (pt : Point) (glyphSet : Nat) (clip : Option Rect) : Option RasterPaintEngineMT :=
  let boundingBox :=
    match clip with
    | some c => e.clip.clipBox.intersect (Box.ofRect c)
    | none => e.clip.clipBox
  if clip.isSome && !boundingBox.isValid then some e
  else
    let r : Bool × RasterPaintEngineMT :=
      if e.caps.source.isPattern then
        match e._getPatternRasterPaintContext O with
        | (none, e1) => (false, e1)
        | (some _, e1) => (true, e1)
      else (true, e)
    if !r.1 then some r.2
    else
      match r.2.workerManager with
      | none => some { r.2 with rendered := r.2.rendered ++ [.glyphSet pt glyphSet boundingBox] }
      | some _ =>
        match r.2._createCommand (O.cmdAllocs.headD none) with
        | (none, e1) => some e1
        | (some cmd, e1) => e1._postCommand cmd none

/-- The function `_serializePath(path, stroke)`. -/
def RasterPaintEngineMT._serializePath (e : RasterPaintEngineMT) (O : SerializeEnv)
    (path : Nat) (stroke : Bool) : Option RasterPaintEngineMT :=
  let r : Bool × RasterPaintEngineMT :=
    if e.caps.source.isPattern then
      match e._getPatternRasterPaintContext O with
      | (none, e1) => (false, e1)
      | (some _, e1) => (true, e1)
    else (true, e)
  if !r.1 then some r.2
  else
    match r.2.workerManager with
    | none =>
      if O.rasterizeOk then some { r.2 with rendered := r.2.rendered ++ [.path path stroke] }
      else some r.2
    | some _ =>
      match r.2._createCommand (O.cmdAllocs.headD none) with
      | (none, e1) => some e1
      | (some cmd, e1) =>
        match O.calcAlloc with
        | none => some e1.releaseCommand
        | some clc => e1._postCommand cmd (some clc)

/-- The engine with two workers, painting with a pattern. -/
def patternEngine : RasterPaintEngineMT :=
  { mtEngine with
    toRasterPaintEngine := mtEngine.toRasterPaintEngine.setCaps
      { mtEngine.caps with source := .pattern ⟨7⟩ } }

/-- Outside conditions under which the pattern context cannot be allocated. -/
def noPctx : SerializeEnv :=
  { pctxAllocOk := false, patternInitOk := true, cmdAllocs := [some 100, some 101],
    calcAlloc := some 200, rasterizeOk := true }

/-! ## The scratch buffer of a render context (`getBuffer`) -/

/-- The value of a `sysint_t` expression whose mathematical value is `v`: signed
overflow is taken to wrap around in two's complement. -/
def wrapSysInt (t : Target) (v : Int) : Int :=
  (v + (wordMod t : Int) / 2) % (wordMod t : Int) - (wordMod t : Int) / 2

/-- The loop `while (size < capacity) capacity <<= 1;` of `getBuffer`: the value
of `capacity` after the loop, `none` when the loop is still running after the
number of iterations given by the first argument. -/
def growCapacity (t : Target) : Nat → Int → Int → Option Int
  | 0, _, _ => none
  | fuel + 1, size, capacity =>
    if size < capacity then growCapacity t fuel size (wrapSysInt t (capacity * 2))
    else some capacity

/-- The function `RasterPaintContext::getBuffer(size)`.  `allocOk` tells whether
`Memory::alloc(size)` succeeds.  The result is whether the pointer returned is
non-null (it is then the member `buffer`), and the context afterwards; `none`
when the loop does not end within 65 iterations. -/
def RasterPaintContext.getBuffer (t : Target) (ctx : RasterPaintContext) (size : Int)
    (allocOk : Bool) : Option (Bool × RasterPaintContext) :=
  if size > ctx.bufferSize then
    match growCapacity t 65 size (wrapSysInt t (BUFFER_STATIC_SIZE * 2)) with
    | none => none
    | some capacity =>
      if !allocOk then
        some (false, { ctx with buffer := none, bufferSize := BUFFER_STATIC_SIZE })
      else some (true, { ctx with buffer := some size, bufferSize := capacity })
  else some (true, ctx)

/-! ## Live allocations of the arena -/

/-- The size recorded in the header in front of the pointer `p`, read from the
block `b` (0 when no header was written there). -/
def recordedSize (t : Target) (b : Block) (p : Ptr) : Nat :=
  (b.headers.lookup (p.offset - sizeofHeader t)).getD 0

/-- The total size, headers included, of the live allocations of the block
`b`; `live` lists the pointers returned by `alloc` and not freed since. -/
def liveBytes (t : Target) (b : Block) (live : List Ptr) : Nat :=
  ((live.filter (fun p => decide (p.block = b.addr))).map (recordedSize t b)).sum

/-- The block after an allocation of `sz` bytes (header included) at its
cursor, as the label `allocFromBlocks:` leaves it. -/
def Block.allocated (b : Block) (sz : Nat) : Block :=
  { b with headers := (b.pos, sz) :: b.headers, pos := b.pos + sz, used := b.used + sz }

/-- The invariant of one block against the live pointers: `used <= pos <=
BLOCK_SIZE`, `used` is the total size of the live allocations of the block,
each of them starts with its header inside the block and ends at or before the
cursor, and any two of them occupy disjoint byte ranges. -/
def BlockOK (t : Target) (b : Block) (live : List Ptr) : Prop :=
  b.pos ≤ BLOCK_SIZE ∧ b.used ≤ b.pos ∧ b.used = liveBytes t b live ∧
    (∀ p ∈ live, p.block = b.addr →
      sizeofHeader t ≤ p.offset ∧ sizeofHeader t ≤ recordedSize t b p ∧
        p.offset - sizeofHeader t + recordedSize t b p ≤ b.pos) ∧
    (∀ p ∈ live, ∀ q ∈ live, p.block = b.addr → q.block = b.addr → p ≠ q →
      p.offset - sizeofHeader t + recordedSize t b p ≤ q.offset - sizeofHeader t ∨
        q.offset - sizeofHeader t + recordedSize t b q ≤ p.offset - sizeofHeader t)

/-- The invariant of the arena against the live pointers: a well-formed block
list, no pointer listed twice, every live pointer in a block of the list, and
every block `BlockOK`. -/
def ArenaInv (t : Target) (a : MemoryAllocator) (live : List Ptr) : Prop :=
  a.WF ∧ live.Nodup ∧ (∀ p ∈ live, ∃ b ∈ a.blocks, b.addr = p.block) ∧
    ∀ b ∈ a.blocks, BlockOK t b live

/-- The arena states reachable from the constructor by `alloc` (each request
with its header at most `BLOCK_SIZE`) and by `free` of a live pointer,
together with the pointers that are live: returned by `alloc` and not freed
since. -/
inductive ArenaReachable (t : Target) : MemoryAllocator → List Ptr → Prop
  | init : ArenaReachable t MemoryAllocator.init []
  | alloc (a : MemoryAllocator) (live : List Ptr) (size : Nat) (sysOk : Bool) (st : AllocStep) :
      ArenaReachable t a live → size + sizeofHeader t ≤ BLOCK_SIZE →
      a.alloc t size sysOk = some st →
      ArenaReachable t st.after (match st.ptr with
        | some p => p :: live
        | none => live)
  | free (a : MemoryAllocator) (live : List Ptr) (p : Ptr) :
      ArenaReachable t a live → p ∈ live → ArenaReachable t (a.free t p) (live.erase p)

/-- The arena of the 64-bit target after `p1 = alloc(100)`, `p2 = alloc(200)`
and `free(p1)`. -/
def twoAllocsOneFreed : MemoryAllocator :=
  ⟨[⟨0, 8000, 332, 216, [(116, 216), (0, 116)]⟩], 1⟩

/-! ## The command phase of the workers (`RasterPaintTask::run`) -/

/-- The enum constant `COMMAND_STATUS_WAIT`. -/
def COMMAND_STATUS_WAIT : Int := 0

/-- The enum constant `COMMAND_STATUS_READY`. -/
def COMMAND_STATUS_READY : Int := 1

/-- The enum constant `COMMAND_STATUS_SKIP`. -/
def COMMAND_STATUS_SKIP : Int := 2

/-- The members of `RasterPaintCmd` the scheduling loop reads and writes:
`status`, `refCount`, and whether `release()` has been called. -/
structure RasterPaintCmd where
  status : Int
  refCount : Nat
  released : Bool
deriving DecidableEq, Repr, Inhabited

/-- The state of one worker in the command phase: the command objects (a
pointer stored in `cmdData` is an index into this table), the task with its
cursor `cmdCurrent`, the calls `cmd->run(&ctx)` the worker has made, each
recorded as the queue position and the command pointer, and the local flag
`wait`. -/
structure CmdPhase where
  cmds : List RasterPaintCmd
  task : RasterPaintTask
  ran : List (Int × Nat)
  wait : Bool
deriving DecidableEq, Repr

/-- The statements `if (cmd->refCount.deref()) cmd->release();`. -/
def RasterPaintCmd.derefRelease (cmd : RasterPaintCmd) : RasterPaintCmd :=
  if cmd.refCount - 1 = 0 then { cmd with refCount := cmd.refCount - 1, released := true }
  else { cmd with refCount := cmd.refCount - 1 }

/-- One pass of the block `// Do command.` of `RasterPaintTask::run`, after
`wait = false`: nothing when `cmdCurrent` has reached `mgr->cmdPosition`;
otherwise the command under the cursor is run and passed when its status is
`COMMAND_STATUS_READY`, passed when it is `COMMAND_STATUS_SKIP`, and left
under the cursor with `wait = true` when it is `COMMAND_STATUS_WAIT`.  The
result is `none` when the cursor is outside `cmdData` or the slot does not
hold a pointer to a command. -/
def CmdPhase.step (mgr : RasterPaintWorkerManager) (s : CmdPhase) : Option CmdPhase :=
  let s := { s with wait := false }
  if s.task.cmdCurrent < mgr.cmdPosition then
    if s.task.cmdCurrent < 0 then none
    else
      match mgr.cmdData[s.task.cmdCurrent.toNat]? with
      | some (some ptr) =>
        match s.cmds[ptr]? with
        | some cmd =>
          if cmd.status = COMMAND_STATUS_READY then
            some { s with
              ran := s.ran ++ [(s.task.cmdCurrent, ptr)],
              cmds := s.cmds.set ptr cmd.derefRelease,
              task := { s.task with cmdCurrent := s.task.cmdCurrent + 1 } }
          else if cmd.status = COMMAND_STATUS_SKIP then
            some { s with
              task := { s.task with cmdCurrent := s.task.cmdCurrent + 1 },
              cmds := s.cmds.set ptr cmd.derefRelease }
          else if cmd.status = COMMAND_STATUS_WAIT then some { s with wait := true }
          else some s
        | none => none
      | _ => none
  else some s

/-- The status of the command under the cursor of the worker, when there is
one. -/
def CmdPhase.current (mgr : RasterPaintWorkerManager) (s : CmdPhase) : Option Int :=
  if s.task.cmdCurrent < mgr.cmdPosition ∧ 0 ≤ s.task.cmdCurrent then
    match mgr.cmdData[s.task.cmdCurrent.toNat]? with
    | some (some ptr) => (s.cmds[ptr]?).map (fun cmd => cmd.status)
    | _ => none
  else none

/-- A queue of three commands, the second one waiting for its calculation. -/
def threeCmds : RasterPaintWorkerManager :=
  { twoWorkers with cmdPosition := 3, cmdData := [some 0, some 1, some 2] }

/-- A worker at the start of `threeCmds`, with the command objects: ready,
waiting, ready. -/
def cmdStart : CmdPhase :=
  { cmds := [⟨1, 2, false⟩, ⟨0, 2, false⟩, ⟨1, 2, false⟩], task := RasterPaintTask.new,
    ran := [], wait := false }

/-- The queue is well formed for the worker: the cursor is not negative, the
posted part of the queue lies inside `cmdData`, and every posted slot holds a
pointer to a command object. -/
def CmdPhase.WellFormed (mgr : RasterPaintWorkerManager) (s : CmdPhase) : Prop :=
  0 ≤ s.task.cmdCurrent ∧
    ∀ i : Nat, (i : Int) < mgr.cmdPosition →
      ∃ ptr, mgr.cmdData[i]? = some (some ptr) ∧ ptr < s.cmds.length

/-! ## Scanline sweep of `_renderPath` under a region clip -/

/-- The loop `for (; y < y_end; y += delta, ...)` of the region-clip branch of
`_renderPath` while it stays inside the current band: the rows swept before
the loop ends (`y >= y_end`) or leaves the band (`y >= clipCur->y2`), and the
value of `y` at that point.  The first argument bounds the number of
iterations. -/
def bandRows : Nat → Int → Int → Int → Int → List Int × Int
  | 0, y, _, _, _ => ([], y)
  | fuel + 1, y, y_end, bandEnd, delta =>
    if y < y_end then
      if y ≥ bandEnd then ([], y)
      else
        let r := bandRows fuel (y + delta) y_end bandEnd delta
        (y :: r.1, r.2)
    else ([], y)

/-- The region-clip branch of `_renderPath` from the label
`sourceArgbClipAdvance:` (`sourcePatternClipAdvance:` runs the same code):
`clip` is the array from `clipCur` to `clipEnd`.  The result lists the calls
`ras->sweepScanline(scanline, y, clipCur, clipLen)`, each as the row `y` and
the `clipLen` rectangles from `clipCur` on.  The first argument bounds the
number of passes through the label. -/
def renderPathClipAdvance : Nat → Int → Int → Int → List Box → Int → Int →
    List (Int × List Box)
  | 0, _, _, _, _, _, _ => []
  | fuel + 1, id, offset, delta, clip, y, y_end =>
    match clip.dropWhile (fun b => decide (b.y2 ≤ y)) with
    | [] => []
    | clipCur :: rest =>
      let clipLen : Nat :=
        match rest with
        | clipTo :: _ => if clipCur.y1 = clipTo.y1 then 2 else 1
        | [] => 1
      let band := (clipCur :: rest).take clipLen
      let after := (clipCur :: rest).drop clipLen
      let skip : Int × Bool :=
        if y < clipCur.y1 then
          if id ≠ -1 then
            (alignToDelta clipCur.y1 offset delta,
              decide (alignToDelta clipCur.y1 offset delta ≥ clipCur.y2))
          else (clipCur.y1, false)
        else (y, false)
      if skip.2 then
        if after.isEmpty then [] else renderPathClipAdvance fuel id offset delta after skip.1 y_end
      else
        let r := bandRows (y_end - skip.1).toNat skip.1 y_end clipCur.y2 delta
        r.1.map (fun row => (row, band)) ++
          (if r.2 < y_end then
            if after.isEmpty then []
            else renderPathClipAdvance fuel id offset delta after r.2 y_end
          else [])

/-- The function `_renderPath(ctx, ras, textureBlit)` with a clip that is not
simple, for a solid or a pattern source: the calls of `sweepScanline` it makes
over the cell bounds `[y1, y2)` of the rasterizer. -/
def _renderPathClip (ctx : RasterPaintContext) (workRegion : Region) (y1 y2 : Int) :
    List (Int × List Box) :=
  let y := if ctx.id ≠ -1 then alignToDelta y1 ctx.offset ctx.delta else y1
  if ctx.id ≠ -1 ∧ y ≥ y2 then []
  else
    renderPathClipAdvance (workRegion.rects.length + 1) ctx.id ctx.offset ctx.delta
      workRegion.rects y y2

/-- The rectangles of the region whose band contains the row `y`. -/
def Region.bandAt (g : Region) (y : Int) : List Box :=
  g.rects.filter (fun b => decide (b.y1 ≤ y) && decide (y < b.y2))

/-- A region of one band with three rectangles. -/
def threeInBand : Region := ⟨[⟨0, 0, 10, 2⟩, ⟨20, 0, 30, 2⟩, ⟨40, 0, 50, 2⟩]⟩

/-! ## `fillRect(const RectD&)` and `fillRects(const RectD*, count)` -/

/-- Modelled from the spec: `Fog::RectD`, a rectangle with `double`
coordinates. -/
structure RectD where
  x : ℚ
  y : ℚ
  w : ℚ
  h : ℚ
deriving DecidableEq

/-- Modelled from the spec: `RectD::isValid()`, a rectangle of positive width
and height. -/
def RectD.isValid (r : RectD) : Bool := decide (0 < r.w) && decide (0 < r.h)

/-- The value `v & 0xFF` of an integer in two's complement. -/
def lowByte (v : Int) : Int := v % 256

/-- The value `v >> 8` of a signed integer (arithmetic shift). -/
def shiftRight8 (v : Int) : Int := v / 256

/-- What a drawing operation with `double` coordinates hands to the
serializers, in order. -/
inductive DrawCallD where
  /-- A call `_serializeBoxes(data, count)`. -/
  | boxes (bs : List Box)
  /-- A call `_serializePath(tmpPath, stroke)` after `tmpPath.clear()` and
  `tmpPath.addRect(r)` or `tmpPath.addRects(r, count)`. -/
  | path (rects : List RectD) (stroke : Bool)
deriving DecidableEq

/-- The function `fillRect(const RectD& r)`: the calls of the serializers it
makes. -/
def RasterPaintEngine.fillRectD (e : RasterPaintEngine) (r : RectD) : List DrawCallD :=
  if !r.isValid then []
  else
    let capsState := e.caps
    let usePath : List DrawCallD := [.path [r] false]
    if capsState.transformType < TRANSFORM_AFFINE then
      let clipState := e.clip
      let rx := iround ((r.x + capsState.transform.tx) * 256)
      if lowByte rx ≠ 128 then usePath
      else
        let ry := iround ((r.y + capsState.transform.ty) * 256)
        if lowByte ry ≠ 128 then usePath
        else
          let rw := iround (r.w * 256)
          if lowByte rw ≠ 128 then usePath
          else
            let rh := iround (r.h * 256)
            if lowByte rh ≠ 128 then usePath
            else
              let x1 := shiftRight8 rx
              let y1 := shiftRight8 ry
              let box : Box := ⟨x1, y1, x1 + shiftRight8 rw, y1 + shiftRight8 rh⟩
              if clipState.clipSimple then
                let box := Box.intersect box clipState.clipBox
                if !box.isValid then [] else [.boxes [box]]
              else
                let boxISect := Region.intersect ⟨[box]⟩ clipState.workRegion
                if boxISect.isEmpty then [] else [.boxes boxISect.rects]
    else usePath

/-- The function `fillRects(const RectD* r, count)`: the calls of the
serializers it makes.  After `if (count == 1) fillRect(r[0]);` the function
goes on to the path. -/
def RasterPaintEngine.fillRectsD (e : RasterPaintEngine) (rs : List RectD) : List DrawCallD :=
  match rs with
  | [] => []
  | r0 :: rest =>
    (if rest.isEmpty then e.fillRectD r0 else []) ++ [.path (r0 :: rest) false]

/-- The function `getStartCap()`. -/
def RasterPaintEngine.getStartCap (e : RasterPaintEngine) : Int :=
  e.caps.strokeParams.startCap

/-- The function `getEndCap()`. -/
def RasterPaintEngine.getEndCap (e : RasterPaintEngine) : Int :=
  e.caps.strokeParams.endCap

/-- The engine after `setStartCap(1)` on a fresh engine, with the copy-on-write
of the caps state succeeding. -/
def startCapEngine : RasterPaintEngine := freshEngine.setStartCap sampleEnv 1 true

/-! ## `drawRect(const Rect&)` -/

/-- Two boxes have no pixel in common. -/
def Box.Apart (a b : Box) : Prop := ∀ px py : Int, ¬ (a.Covers px py ∧ b.Covers px py)

/-- The pixel `(px, py)` lies on the one-pixel-wide border of the box: in the
box, and in its first or last column or its first or last row. -/
def Box.OnBorder (b : Box) (px py : Int) : Prop :=
  b.Covers px py ∧ (px = b.x1 ∨ px = b.x2 - 1 ∨ py = b.y1 ∨ py = b.y2 - 1)

/-- The rectangles `drawRect(const Rect& r)` stores in the temporary region
`box` on its integer path, for the translation `(tx, ty)`: the extents alone
for `r.w <= 2 || r.h <= 2`, else the top row, the left and right columns
between the first and the last row, and the bottom row. -/
def drawRectBoxes (r : Rect) (tx ty : Int) : List Box :=
  if r.w ≤ 2 ∨ r.h ≤ 2 then
    [⟨r.getX1 + tx, r.getY1 + ty, r.getX2 + tx, r.getY2 + ty⟩]
  else
    [⟨r.getX1 + tx, r.getY1 + ty, r.getX2 + tx, r.getY1 + 1 + ty⟩,
     ⟨r.getX1 + tx, r.getY1 + 1 + ty, r.getX1 + 1 + tx, r.getY2 - 1 + ty⟩,
     ⟨r.getX2 - 1 + tx, r.getY1 + 1 + ty, r.getX2 + tx, r.getY2 - 1 + ty⟩,
     ⟨r.getX1 + tx, r.getY2 - 1 + ty, r.getX2 + tx, r.getY2 + ty⟩]

/-- The function `drawRect(const Rect& r)`. -/
def RasterPaintEngine.drawRect (e : RasterPaintEngine) (r : Rect) : DrawCall :=
  if !r.isValid then .nothing
  else
    let clipState := e.clip
    let capsState := e.caps
    if capsState.transformType ≠ TRANSFORM_TRANSLATE_EXACT || !capsState.lineIsSimple then .vector
    else
      let tx := capsState.transformTranslateInt.x
      let ty := capsState.transformTranslateInt.y
      let box : Region := ⟨drawRectBoxes r tx ty⟩
      let boxISect :=
        if clipState.clipSimple then Region.translateAndClip box ⟨0, 0⟩ clipState.clipBox
        else Region.intersect box clipState.workRegion
      let len := boxISect.getLength
      if len ≠ 0 then .boxes boxISect.rects else .nothing

/-! ## Reachable clip states -/

/-- Every saved state of the save stack points at a clip state of the table. -/
def StackOK (e : RasterPaintEngine) : Prop :=
  ∀ s ∈ e.states, s.clipState < e.clipObjs.length

/-- From `e` to `e1` the clip table did not shrink and the save stack got no
new entry. -/
def StackKept (e e1 : RasterPaintEngine) : Prop :=
  e.clipObjs.length ≤ e1.clipObjs.length ∧ ∀ s ∈ e1.states, s ∈ e.states

/-- The engines reachable from the constructor on `layer` by the clip-mutating
operations, each with any outcome of its allocations, by `save()` and
`restore()`, by the creation and the release of a command (which take and give
back a reference to the current clip state), and by any step that leaves the
layer, the clip table, `ctx.clipState` and the save stack as they are (the
operations on the caps state and on the pattern context: matrix, source and
stroke setters). -/
inductive ClipReachable (K : PaintEnv) (layer : RasterPaintLayer) : RasterPaintEngine → Prop
  | create : ClipReachable K layer (RasterPaintEngine.create K layer)
  | setMetaVariables (e : RasterPaintEngine) (metaOrigin : Point) (metaRegion : Region)
      (useMetaRegion reset allocClip allocCaps : Bool) :
      ClipReachable K layer e →
      ClipReachable K layer
        (e.setMetaVariables K metaOrigin metaRegion useMetaRegion reset allocClip allocCaps)
  | setMetaOrigin (e : RasterPaintEngine) (pt : Point) (allocOk : Bool) :
      ClipReachable K layer e → ClipReachable K layer (e.setMetaOrigin K pt allocOk)
  | setUserOrigin (e : RasterPaintEngine) (pt : Point) (allocOk : Bool) :
      ClipReachable K layer e → ClipReachable K layer (e.setUserOrigin K pt allocOk)
  | translateMetaOrigin (e : RasterPaintEngine) (pt : Point) (allocOk : Bool) :
      ClipReachable K layer e → ClipReachable K layer (e.translateMetaOrigin K pt allocOk)
  | translateUserOrigin (e : RasterPaintEngine) (pt : Point) (allocOk : Bool) :
      ClipReachable K layer e → ClipReachable K layer (e.translateUserOrigin K pt allocOk)
  | setUserRegion (e : RasterPaintEngine) (r : Rect) (allocOk : Bool) :
      ClipReachable K layer e → ClipReachable K layer (e.setUserRegion K r allocOk)
  | setUserRegionR (e : RasterPaintEngine) (r : Region) (allocOk : Bool) :
      ClipReachable K layer e → ClipReachable K layer (e.setUserRegionR K r allocOk)
  | resetMetaVars (e : RasterPaintEngine) (allocOk : Bool) :
      ClipReachable K layer e → ClipReachable K layer (e.resetMetaVars K allocOk)
  | resetUserVars (e : RasterPaintEngine) (allocOk : Bool) :
      ClipReachable K layer e → ClipReachable K layer (e.resetUserVars K allocOk)
  | save (e : RasterPaintEngine) :
      ClipReachable K layer e → ClipReachable K layer e.save
  | restore (e : RasterPaintEngine) :
      ClipReachable K layer e → ClipReachable K layer e.restore
  | createCommand (m : RasterPaintEngineMT) (addr : Option Nat) :
      ClipReachable K layer m.toRasterPaintEngine →
      ClipReachable K layer (m._createCommand addr).2.toRasterPaintEngine
  | releaseCommand (m : RasterPaintEngineMT) :
      ClipReachable K layer m.toRasterPaintEngine →
      ClipReachable K layer m.releaseCommand.toRasterPaintEngine
  | capsOperation (e e1 : RasterPaintEngine) :
      ClipReachable K layer e → e1.main = e.main → e1.clipObjs = e.clipObjs →
      e1.ctxClipState = e.ctxClipState → e1.states = e.states → ClipReachable K layer e1

/-- The engine after `save()` and then `setUserRegion` with the two-rectangle
region `[10, 20) x [10, 20)` and `[30, 40) x [10, 20)` on a fresh engine: the
setter works on a copy of the clip state, the saved one stays on the stack. -/
def savedTwoRectEngine : RasterPaintEngine :=
  freshEngine.save.setUserRegionR sampleEnv ⟨[⟨10, 10, 20, 20⟩, ⟨30, 10, 40, 20⟩]⟩ true

/-! ## The function `_renderBoxes` -/

/-- The spans rendered by `_renderBoxes(ctx, box, count)` for a context with
the given `offset` and `delta`, each as the box and the row.  `source` is
`capsState->sourceType`.  For a pattern source, `pctx` tells whether `ctx->pctx`
is set (`if (!pctx) return;`), `direct` is the outcome of the test for the
branch that fetches without the scratch buffer (equal formats and a copying
operator), and `bufOk` tells whether `ctx->getBuffer(...)` returns a buffer
(`if (!pBuf) return;`).  `if (!count) return;` comes first. -/
def renderBoxesRows (source : Source) (pctx direct bufOk : Bool) (boxes : List Box)
    (offset delta : Int) : List (Box × Int) :=
  if boxes.length = 0 then []
  else
    match source with
    | .argb _ _ => renderBoxesLoop boxes offset delta
    | .pattern _ =>
      if !pctx then []
      else if direct then renderBoxesLoop boxes offset delta
      else if !bufOk then []
      else renderBoxesLoop boxes offset delta
    | .colorFilter _ => renderBoxesLoop boxes offset delta

/-! # Properties -/

/-! ## Row partitioning -/

/-- The C remainder of a division by a positive `delta` is above `-delta`. -/
theorem tmod_gt_neg (y delta : Int) (hd : 1 ≤ delta) : -delta < Int.tmod y delta := by
  obtain ⟨d, rfl⟩ := Int.eq_ofNat_of_zero_le (show (0:Int) ≤ delta by omega)
  cases y with
  | ofNat m =>
    have := Int.tmod_nonneg (↑d) (Int.ofNat_zero_le m)
    simp only [Int.ofNat_eq_coe] at *
    omega
  | negSucc m =>
    have h : Int.tmod (Int.negSucc m) (↑d) = -((↑((m + 1) % d) : Nat) : Int) := rfl
    rw [h]
    have : (m + 1) % d < d := Nat.mod_lt _ (by omega)
    omega

/-- The two lines `mody = y % delta; if (mody < 0) mody += delta;` compute the
mathematical residue of `y`. -/
theorem normalised_tmod (y delta : Int) (hd : 1 ≤ delta) :
    (if Int.tmod y delta < 0 then Int.tmod y delta + delta else Int.tmod y delta) = y % delta := by
  have h1 := tmod_gt_neg y delta hd
  have h2 := Int.tmod_lt_of_pos y (show 0 < delta by omega)
  have h3 := Int.tmod_add_tdiv y delta
  have key : ∀ m k : Int, 0 ≤ m → m < delta → m + delta * k = y → m = y % delta := by
    intro m k hm0 hm1 hk
    rw [← hk, Int.add_mul_emod_self_left, Int.emod_eq_of_lt hm0 hm1]
  split_ifs with h
  · exact key _ (Int.tdiv y delta - 1) (by omega) (by omega) (by rw [Int.mul_sub]; omega)
  · exact key _ (Int.tdiv y delta) (by omega) h2 h3

/-- The result of `alignToDelta` lies in `[y, y + delta)` and has residue `offset`. -/
theorem alignToDelta_spec (y offset delta : Int) (hd : 1 ≤ delta) (ho : 0 ≤ offset)
    (hod : offset < delta) :
    y ≤ alignToDelta y offset delta ∧ alignToDelta y offset delta < y + delta ∧
      alignToDelta y offset delta % delta = offset := by
  unfold alignToDelta
  simp only [normalised_tmod y delta hd]
  have h0 := Int.emod_nonneg y (show delta ≠ 0 by omega)
  have h1 := Int.emod_lt_of_pos y (show 0 < delta by omega)
  have h2 := Int.emod_add_ediv y delta
  have e1 : (y - y % delta + offset) % delta = offset := by
    have : y - y % delta + offset = offset + delta * (y / delta) := by omega
    rw [this, Int.add_mul_emod_self_left, Int.emod_eq_of_lt ho hod]
  split_ifs with h
  · refine ⟨by omega, by omega, ?_⟩
    rw [Int.add_emod_self]; exact e1
  · exact ⟨by omega, by omega, e1⟩

/-- The rows of the do-while loop, once the iteration bound covers the range:
the rows of `[y1, y2)` at a multiple of `delta` from `y1`. -/
theorem mem_rowLoop (fuel : Nat) (y1 y2 delta : Int) (hd : 1 ≤ delta) (h12 : y1 < y2)
    (hf : (y2 - y1).toNat ≤ fuel) (y : Int) :
    y ∈ rowLoop fuel y1 y2 delta ↔ y1 ≤ y ∧ y < y2 ∧ (y - y1) % delta = 0 := by
  induction fuel generalizing y1 with
  | zero => omega
  | succ n ih =>
    simp only [rowLoop, List.mem_cons]
    split_ifs with h
    · rw [ih (y1 + delta) h (by omega)]
      constructor
      · rintro (rfl | ⟨a, b, c⟩)
        · simp [h12]
        · refine ⟨by omega, b, ?_⟩
          have : y - y1 = (y - (y1 + delta)) + delta := by ring
          rw [this, Int.add_emod_self]; exact c
      · rintro ⟨a, b, c⟩
        rcases eq_or_lt_of_le a with e | l
        · exact Or.inl e.symm
        · right
          have hdvd : delta ∣ y - y1 := Int.dvd_of_emod_eq_zero c
          obtain ⟨k, hk⟩ := hdvd
          have hk1 : 1 ≤ k := by
            by_contra hc
            have : k ≤ 0 := by omega
            have : delta * k ≤ 0 := Int.mul_nonpos_of_nonneg_of_nonpos (by omega) this
            omega
          have : delta * 1 ≤ delta * k := Int.mul_le_mul_of_nonneg_left hk1 (by omega)
          refine ⟨by omega, b, ?_⟩
          have e : y - (y1 + delta) = delta * (k - 1) := by rw [Int.mul_sub]; omega
          rw [e]; exact Int.mul_emod_right _ _
    · simp only [List.not_mem_nil, or_false]
      constructor
      · rintro rfl; simp [h12]
      · rintro ⟨a, b, c⟩
        rcases eq_or_lt_of_le a with e | l
        · exact e.symm
        · exfalso
          obtain ⟨k, hk⟩ := Int.dvd_of_emod_eq_zero c
          have hk1 : 1 ≤ k := by
            by_contra hc
            have : k ≤ 0 := by omega
            have : delta * k ≤ 0 := Int.mul_nonpos_of_nonneg_of_nonpos (by omega) this
            omega
          have : delta * 1 ≤ delta * k := Int.mul_le_mul_of_nonneg_left hk1 (by omega)
          omega

/-- Two congruent integers differ by at least `delta` when they differ. -/
theorem congruent_gap (a z delta : Int) (hd : 1 ≤ delta) (hmod : z % delta = a % delta)
    (hlt : z < a) : z + delta ≤ a := by
  have h0 : (z - a) % delta = 0 := Int.emod_eq_emod_iff_emod_sub_eq_zero.mp hmod
  obtain ⟨k, hk⟩ := Int.dvd_of_emod_eq_zero h0
  have hk1 : k ≤ -1 := by
    by_contra hc
    have : 0 ≤ delta * k := Int.mul_nonneg (by omega) (by omega)
    omega
  have : delta * k ≤ delta * (-1) := Int.mul_le_mul_of_nonneg_left hk1 (by omega)
  omega

/-- The rows of a box visited under the context `(offset, delta)` are the rows
of `[y1, y2)` with residue `offset`. -/
theorem mem_boxRows (y1 y2 offset delta : Int) (hd : 1 ≤ delta) (ho : 0 ≤ offset)
    (hod : offset < delta) (y : Int) :
    y ∈ boxRows y1 y2 offset delta ↔ y1 ≤ y ∧ y < y2 ∧ y % delta = offset := by
  unfold boxRows
  by_cases h1 : delta = 1
  · subst h1
    have ho0 : offset = 0 := by omega
    subst ho0
    simp only [ne_eq, not_true_eq_false, ite_false, Int.emod_one, and_true]
    split_ifs with h
    · simp; omega
    · rw [mem_rowLoop _ _ _ _ (by omega) (by omega) (le_refl _)]
      simp
  · obtain ⟨a, b, c⟩ := alignToDelta_spec y1 offset delta hd ho hod
    simp only [ne_eq, h1, not_false_eq_true, ite_true]
    have hmod : ∀ z, (z - alignToDelta y1 offset delta) % delta = 0 ↔ z % delta = offset := by
      intro z
      rw [← Int.emod_eq_emod_iff_emod_sub_eq_zero, c]
    have hmin : ∀ z, y1 ≤ z → z % delta = offset → alignToDelta y1 offset delta ≤ z := by
      intro z hz hzm
      by_contra hc
      have := congruent_gap (alignToDelta y1 offset delta) z delta hd (by rw [hzm, c]) (by omega)
      omega
    split_ifs with h
    · simp only [List.not_mem_nil, false_iff, not_and]
      intro h3 h4 h5
      have := hmin y h3 h5
      omega
    · rw [mem_rowLoop _ _ _ _ hd (by omega) (le_refl _), hmod]
      constructor
      · rintro ⟨p, q, r⟩; exact ⟨by omega, q, r⟩
      · rintro ⟨p, q, r⟩
        exact ⟨hmin y p r, q, r⟩

/-- The spans of the box loop of `_renderBoxes`: the rows of `boxRows` for each
box of positive width. -/
theorem mem_renderBoxesLoop (boxes : List Box) (offset delta : Int) (b : Box) (y : Int) :
    (b, y) ∈ renderBoxesLoop boxes offset delta ↔
      b ∈ boxes ∧ 0 < b.getWidth ∧ y ∈ boxRows b.y1 b.y2 offset delta := by
  simp only [renderBoxesLoop, List.mem_flatMap]
  constructor
  · rintro ⟨x, hx, hm⟩
    by_cases hw : x.getWidth ≤ 0
    · rw [if_pos hw] at hm
      exact absurd hm (List.not_mem_nil _)
    · rw [if_neg hw, List.mem_map] at hm
      obtain ⟨z, hz, he⟩ := hm
      obtain ⟨rfl, rfl⟩ := Prod.mk.inj he
      exact ⟨hx, by omega, hz⟩
  · rintro ⟨hb, hw, hy⟩
    refine ⟨b, hb, ?_⟩
    rw [if_neg (by omega), List.mem_map]
    exact ⟨y, hy, rfl⟩

/-- Every span of `_renderBoxes` is a span of its box loop. -/
theorem renderBoxesRows_sub (source : Source) (pctx direct bufOk : Bool) (boxes : List Box)
    (offset delta : Int) (x : Box × Int)
    (h : x ∈ renderBoxesRows source pctx direct bufOk boxes offset delta) :
    x ∈ renderBoxesLoop boxes offset delta := by
  unfold renderBoxesRows at h
  by_cases h0 : boxes.length = 0
  · rw [if_pos h0] at h
    exact absurd h (List.not_mem_nil _)
  · rw [if_neg h0] at h
    cases source with
    | argb a p => exact h
    | colorFilter f => exact h
    | pattern p =>
      simp only at h
      split_ifs at h
      · exact absurd h (List.not_mem_nil _)
      · exact h
      · exact absurd h (List.not_mem_nil _)
      · exact h

/-- When `_renderBoxes` does not return at `!pctx` or `!pBuf`, its spans are
those of its box loop. -/
theorem renderBoxesRows_run (source : Source) (pctx direct bufOk : Bool) (boxes : List Box)
    (offset delta : Int)
    (hrun : source.isPattern = true → pctx = true ∧ (direct = true ∨ bufOk = true)) :
    renderBoxesRows source pctx direct bufOk boxes offset delta =
      renderBoxesLoop boxes offset delta := by
  unfold renderBoxesRows
  by_cases h0 : boxes.length = 0
  · rw [if_pos h0, List.length_eq_zero.mp h0]
    rfl
  · rw [if_neg h0]
    cases source with
    | argb a p => rfl
    | colorFilter f => rfl
    | pattern p =>
      obtain ⟨h1, h2⟩ := hrun rfl
      subst h1
      rcases h2 with h2 | h2
      · subst h2; rfl
      · subst h2
        cases direct <;> rfl

/-- C1: for every list of boxes (so for every row range `[y1, y2)` of a box of
positive width), every source type and every worker count `N >= 1`, the spans
rendered by `_renderBoxes` under the `N` worker contexts `(offset i, delta N)`,
`0 <= i < N`, are pairwise disjoint, and together they are exactly the rows `y`
with `y1 <= y < y2` of each box of positive width.  For a pattern source the
cover needs every worker to get past the two early returns of the pattern
branch (`!pctx`, and `!pBuf` outside the direct branch). -/
theorem renderBoxes_rows_partition (source : Source) (pctx direct bufOk : Int → Bool)
    (boxes : List Box) (N : Int) (hN : 1 ≤ N)
    (hrun : source.isPattern = true → ∀ i : Int, 0 ≤ i → i < N →
      pctx i = true ∧ (direct i = true ∨ bufOk i = true)) :
    (∀ i j : Int, 0 ≤ i → i < N → 0 ≤ j → j < N → i ≠ j →
        List.Disjoint (renderBoxesRows source (pctx i) (direct i) (bufOk i) boxes i N)
          (renderBoxesRows source (pctx j) (direct j) (bufOk j) boxes j N)) ∧
      (∀ (b : Box) (y : Int),
        (∃ i : Int, 0 ≤ i ∧ i < N ∧
            (b, y) ∈ renderBoxesRows source (pctx i) (direct i) (bufOk i) boxes i N) ↔
          (b ∈ boxes ∧ 0 < b.getWidth ∧ b.y1 ≤ y ∧ y < b.y2)) := by
  constructor
  · intro i j hi hiN hj hjN hij x hxi hxj
    obtain ⟨b, y⟩ := x
    have h1 := (mem_renderBoxesLoop boxes i N b y).mp (renderBoxesRows_sub _ _ _ _ _ _ _ _ hxi)
    have h2 := (mem_renderBoxesLoop boxes j N b y).mp (renderBoxesRows_sub _ _ _ _ _ _ _ _ hxj)
    have h3 := (mem_boxRows _ _ _ _ hN hi hiN y).mp h1.2.2
    have h4 := (mem_boxRows _ _ _ _ hN hj hjN y).mp h2.2.2
    omega
  · intro b y
    constructor
    · rintro ⟨i, hi, hiN, hy⟩
      have h1 := (mem_renderBoxesLoop boxes i N b y).mp (renderBoxesRows_sub _ _ _ _ _ _ _ _ hy)
      have h3 := (mem_boxRows _ _ _ _ hN hi hiN y).mp h1.2.2
      exact ⟨h1.1, h1.2.1, h3.1, h3.2.1⟩
    · rintro ⟨hb, hw, h1, h2⟩
      have hi : 0 ≤ y % N := Int.emod_nonneg _ (by omega)
      have hiN : y % N < N := Int.emod_lt_of_pos _ (by omega)
      refine ⟨y % N, hi, hiN, ?_⟩
      rw [renderBoxesRows_run source _ _ _ boxes _ _ (fun hs => hrun hs (y % N) hi hiN),
        mem_renderBoxesLoop]
      exact ⟨hb, hw, (mem_boxRows _ _ _ _ hN hi hiN y).mpr ⟨h1, h2, rfl⟩⟩

/-- C1 at one box with the rows `[-7, 6)` and four workers, for a pattern
source rendered through the scratch buffer: the spans of the workers are
pairwise disjoint and cover the rows `-7 .. 5` of the box. -/
theorem renderBoxes_rows_partition_witness :
    renderBoxesRows (.pattern ⟨0⟩) true false true [⟨0, -7, 5, 6⟩] 1 4 =
        [(⟨0, -7, 5, 6⟩, -7), (⟨0, -7, 5, 6⟩, -3), (⟨0, -7, 5, 6⟩, 1), (⟨0, -7, 5, 6⟩, 5)] ∧
      ((∀ i j : Int, 0 ≤ i → i < 4 → 0 ≤ j → j < 4 → i ≠ j →
          List.Disjoint (renderBoxesRows (.pattern ⟨0⟩) true false true [⟨0, -7, 5, 6⟩] i 4)
            (renderBoxesRows (.pattern ⟨0⟩) true false true [⟨0, -7, 5, 6⟩] j 4)) ∧
        (∀ (b : Box) (y : Int),
          (∃ i : Int, 0 ≤ i ∧ i < 4 ∧
              (b, y) ∈ renderBoxesRows (.pattern ⟨0⟩) true false true [⟨0, -7, 5, 6⟩] i 4) ↔
            (b ∈ [(⟨0, -7, 5, 6⟩ : Box)] ∧ 0 < b.getWidth ∧ b.y1 ≤ y ∧ y < b.y2))) :=
  ⟨by decide,
    renderBoxes_rows_partition (.pattern ⟨0⟩) (fun _ => true) (fun _ => false) (fun _ => true)
      [⟨0, -7, 5, 6⟩] 4 (by decide) (fun _ _ _ _ => ⟨rfl, Or.inr rfl⟩)⟩

/-! ## Object tables -/

/-- Reading back what was written through a valid pointer. -/
theorem readObj_set_eq {α : Type} [Inhabited α] (l : List α) (i : Nat) (v : α)
    (h : i < l.length) : readObj (l.set i v) i = v := by
  simp [readObj, List.getD_eq_getElem?_getD, h]

/-- A write through one pointer leaves the other objects alone. -/
theorem readObj_set_ne {α : Type} [Inhabited α] (l : List α) (i j : Nat) (v : α)
    (h : i ≠ j) : readObj (l.set i v) j = readObj l j := by
  simp [readObj, List.getD_eq_getElem?_getD, List.getElem?_set_ne h]

/-- The object placed at a fresh address. -/
theorem readObj_append_length {α : Type} [Inhabited α] (l : List α) (x : α) :
    readObj (l ++ [x]) l.length = x := by
  simp [readObj, List.getD_eq_getElem?_getD]

/-- An allocation leaves the other objects alone. -/
theorem readObj_append_ne {α : Type} [Inhabited α] (l : List α) (x : α) (q : Nat)
    (h : q ≠ l.length) : readObj (l ++ [x]) q = readObj l q := by
  unfold readObj
  rcases Nat.lt_or_gt_of_ne h with h1 | h1
  · simp [List.getD_eq_getElem?_getD, List.getElem?_append_left h1]
  · rw [List.getD_eq_default _ _ (by simp; omega), List.getD_eq_default _ _ (by omega)]

/-! ## Copy-on-write (`_detachClipState`, `_detachCapsState`) -/

/-- The copy constructor of the clip state copies every field but `refCount`. -/
theorem clip_copy_eq (c : RasterPaintClipState) :
    RasterPaintClipState.copy c = { c with refCount := 1 } := by
  cases c; rfl

/-- The copy constructor of the caps state copies every field but `refCount`,
the payload of the source included. -/
theorem caps_copy_eq (c : RasterPaintCapsState) :
    RasterPaintCapsState.copy c = { c with refCount := 1 } := by
  cases c with
  | mk rc op src fm aa ii gi ls tt ro sp tr ap ts ti =>
    cases src <;> rfl

/-- A shared clip state is detached to a fresh copy when the allocation succeeds. -/
theorem detachClip_shared (e : RasterPaintEngine) (hp : e.ctxClipState < e.clipObjs.length)
    (hrc : 1 ≤ e.clip.refCount) (hne : e.clip.refCount ≠ 1) :
    ∃ p e1, e._detachClipState true = (some p, e1) ∧ ClipDetached e e1 p := by
  refine ⟨e.clipObjs.length,
    RasterPaintEngine._derefClipState
      { e with clipObjs := e.clipObjs ++ [RasterPaintClipState.copy e.clip],
               ctxClipState := e.clipObjs.length } e.ctxClipState, ?_, ?_⟩
  · simp [RasterPaintEngine._detachClipState, hne]
  · have hlen : e.ctxClipState < (e.clipObjs ++ [RasterPaintClipState.copy e.clip]).length := by
      simp; omega
    have hold : readObj (e.clipObjs ++ [RasterPaintClipState.copy e.clip]) e.ctxClipState
        = e.clip := by
      rw [readObj_append_ne _ _ _ (by omega)]; rfl
    refine ⟨by omega, rfl, ?_, ?_, by omega, ?_, rfl, rfl, rfl, rfl, rfl, rfl⟩
    · simp only [RasterPaintEngine._derefClipState]
      rw [readObj_set_ne _ _ _ _ (by omega), readObj_append_length, clip_copy_eq]
    · simp only [RasterPaintEngine._derefClipState]
      rw [readObj_set_eq _ _ _ hlen, hold]
    · intro q hq1 hq2
      simp only [RasterPaintEngine._derefClipState]
      rw [readObj_set_ne _ _ _ _ (fun h => hq2 h.symm), readObj_append_ne _ _ _ hq1]

/-- A shared caps state is detached to a fresh copy when the allocation succeeds. -/
theorem detachCaps_shared (e : RasterPaintEngine) (hp : e.ctxCapsState < e.capsObjs.length)
    (hrc : 1 ≤ e.caps.refCount) (hne : e.caps.refCount ≠ 1) :
    ∃ p e1, e._detachCapsState true = (some p, e1) ∧ CapsDetached e e1 p := by
  refine ⟨e.capsObjs.length,
    RasterPaintEngine._derefCapsState
      { e with capsObjs := e.capsObjs ++ [RasterPaintCapsState.copy e.caps],
               ctxCapsState := e.capsObjs.length } e.ctxCapsState, ?_, ?_⟩
  · simp [RasterPaintEngine._detachCapsState, hne]
  · have hlen : e.ctxCapsState < (e.capsObjs ++ [RasterPaintCapsState.copy e.caps]).length := by
      simp; omega
    have hold : readObj (e.capsObjs ++ [RasterPaintCapsState.copy e.caps]) e.ctxCapsState
        = e.caps := by
      rw [readObj_append_ne _ _ _ (by omega)]; rfl
    refine ⟨by omega, rfl, ?_, ?_, by omega, ?_, rfl, rfl, rfl, rfl, rfl, rfl⟩
    · simp only [RasterPaintEngine._derefCapsState]
      rw [readObj_set_ne _ _ _ _ (by omega), readObj_append_length, caps_copy_eq]
    · simp only [RasterPaintEngine._derefCapsState]
      rw [readObj_set_eq _ _ _ hlen, hold]
    · intro q hq1 hq2
      simp only [RasterPaintEngine._derefCapsState]
      rw [readObj_set_ne _ _ _ _ (fun h => hq2 h.symm), readObj_append_ne _ _ _ hq1]

/-- C10: `_detachClipState` and `_detachCapsState` on a live state object (its
pointer valid, `refCount >= 1`).  With `refCount == 1` the same pointer is
returned and the engine is unchanged.  Otherwise, when the allocation
succeeds, the context points at a new object with `refCount` 1 and every other
field equal to the old object, and the old object lost exactly one reference;
when it fails, `NULL` is returned and the engine (context pointers and all
reference counts) is unchanged. -/
theorem detach_contract (e : RasterPaintEngine)
    (hclip : e.ctxClipState < e.clipObjs.length) (hcaps : e.ctxCapsState < e.capsObjs.length)
    (hrcClip : 1 ≤ e.clip.refCount) (hrcCaps : 1 ≤ e.caps.refCount) :
    (e.clip.refCount = 1 → ∀ ok, e._detachClipState ok = (some e.ctxClipState, e)) ∧
    (e.clip.refCount ≠ 1 →
      (∃ p e1, e._detachClipState true = (some p, e1) ∧ ClipDetached e e1 p) ∧
        e._detachClipState false = (none, e)) ∧
    (e.caps.refCount = 1 → ∀ ok, e._detachCapsState ok = (some e.ctxCapsState, e)) ∧
    (e.caps.refCount ≠ 1 →
      (∃ p e1, e._detachCapsState true = (some p, e1) ∧ CapsDetached e e1 p) ∧
        e._detachCapsState false = (none, e)) := by
  refine ⟨?_, ?_, ?_, ?_⟩
  · intro h ok
    simp [RasterPaintEngine._detachClipState, h]
  · intro h
    exact ⟨detachClip_shared e hclip hrcClip h, by simp [RasterPaintEngine._detachClipState, h]⟩
  · intro h ok
    simp [RasterPaintEngine._detachCapsState, h]
  · intro h
    exact ⟨detachCaps_shared e hcaps hrcCaps h, by simp [RasterPaintEngine._detachCapsState, h]⟩

/-- C10 at a fresh engine after `save()`: both state objects are shared
(`refCount` 2), so the copying branch applies. -/
theorem detach_contract_witness :
    (freshEngine.save.ctxClipState < freshEngine.save.clipObjs.length ∧
        freshEngine.save.ctxCapsState < freshEngine.save.capsObjs.length ∧
        1 ≤ freshEngine.save.clip.refCount ∧ 1 ≤ freshEngine.save.caps.refCount ∧
        freshEngine.save.clip.refCount ≠ 1 ∧ freshEngine.save.caps.refCount ≠ 1) ∧
      ((freshEngine.save.clip.refCount = 1 →
          ∀ ok, freshEngine.save._detachClipState ok
            = (some freshEngine.save.ctxClipState, freshEngine.save)) ∧
        (freshEngine.save.clip.refCount ≠ 1 →
          (∃ p e1, freshEngine.save._detachClipState true = (some p, e1) ∧
              ClipDetached freshEngine.save e1 p) ∧
            freshEngine.save._detachClipState false = (none, freshEngine.save)) ∧
        (freshEngine.save.caps.refCount = 1 →
          ∀ ok, freshEngine.save._detachCapsState ok
            = (some freshEngine.save.ctxCapsState, freshEngine.save)) ∧
        (freshEngine.save.caps.refCount ≠ 1 →
          (∃ p e1, freshEngine.save._detachCapsState true = (some p, e1) ∧
              CapsDetached freshEngine.save e1 p) ∧
            freshEngine.save._detachCapsState false = (none, freshEngine.save))) :=
  ⟨⟨by decide, by decide, by decide, by decide, by decide, by decide⟩,
    detach_contract freshEngine.save (by decide) (by decide) (by decide) (by decide)⟩

/-! ## Save / restore and the shared caps state -/

/-- The integer part of one half. -/
theorem floor_half : ⌊(1 / 2 : ℚ)⌋ = 0 := by
  rw [Int.floor_eq_iff]; norm_num

/-- Rounding an integer-valued `double` gives the integer. -/
theorem iround_intCast (n : Int) : iround (n : ℚ) = n := by
  unfold iround
  split_ifs with h
  · have : -(n : ℚ) + 1 / 2 = ((-n : Int) : ℚ) + 1 / 2 := by push_cast; ring
    rw [this, Int.floor_int_add, floor_half]; omega
  · rw [Int.floor_int_add, floor_half]; omega

/-- Rounding of `0.0`. -/
theorem iround_zero : iround 0 = 0 := by simpa using iround_intCast 0

/-- Rounding of `5.0`. -/
theorem iround_five : iround 5 = 5 := by simpa using iround_intCast 5

/-- Rounding of `1280.0`. -/
theorem iround_1280 : iround 1280 = 1280 := by simpa using iround_intCast 1280

/-- The engine after `translate(5, 0)` and `resetMatrix()`: the matrix is the
identity again, `transformTranslateInt` still holds `(5, 0)`. -/
theorem resetEngine_eq : resetEngine =
    { main := ⟨300, 300, 0⟩,
      clipObjs := [⟨1, ⟨0, 0⟩, ⟨0, 0⟩, ⟨0, 0⟩, ⟨[]⟩, ⟨[]⟩, ⟨[]⟩, ⟨0, 0, 300, 300⟩,
        false, false, false, true⟩],
      capsObjs := [⟨1, 1, .argb 0xFF000000 0xFF000000, 0, 1, 1, 1, true, 0, ⟨0, 1⟩,
        ⟨1, 0, 0, 0, 4, [], 0⟩, ⟨1, 0, 0, 1, 0, 0⟩, .one, ⟨0, 0⟩, ⟨5, 0⟩⟩],
      pctxObjs := [], ctxClipState := 0, ctxCapsState := 0, ctxPctx := none, states := [] } := by
  simp [resetEngine, freshEngine, sampleEnv, RasterPaintEngine.create,
    RasterPaintClipState.new, RasterPaintCapsState.new,
    RasterPaintEngine._setClipDefaults, RasterPaintEngine._setCapsDefaults,
    RasterPaintEngine.setClip, RasterPaintEngine.setCaps, RasterPaintEngine.clip,
    RasterPaintEngine.caps, readObj, RasterPaintEngine.translate, RasterPaintEngine.resetMatrix,
    RasterPaintEngine._detachCapsState, rasterBeforeMatrixOp, rasterAfterMatrixOp,
    RasterPaintEngine._updateTransform, Matrix.translate, Matrix.identity, iround_zero,
    iround_five, iround_1280, TRANSFORM_TRANSLATE_EXACT, TRANSFORM_AFFINE, lowByteZero]

/-- The engine after `save()` and `setUserOrigin(Point(1, 0))` on `resetEngine`:
the clip state was detached to a new object, the caps state shared with the
save point was written in place. -/
theorem savedOrigin_eq : (resetEngine.save).setUserOrigin sampleEnv ⟨1, 0⟩ true =
    { main := ⟨300, 300, 0⟩,
      clipObjs := [⟨1, ⟨0, 0⟩, ⟨0, 0⟩, ⟨0, 0⟩, ⟨[]⟩, ⟨[]⟩, ⟨[]⟩, ⟨0, 0, 300, 300⟩,
          false, false, false, true⟩,
        ⟨1, ⟨0, 0⟩, ⟨1, 0⟩, ⟨1, 0⟩, ⟨[]⟩, ⟨[]⟩, ⟨[]⟩, ⟨0, 0, 300, 300⟩,
          false, false, false, true⟩],
      capsObjs := [⟨2, 1, .argb 0xFF000000 0xFF000000, 0, 1, 1, 1, true, 0, ⟨0, 1⟩,
        ⟨1, 0, 0, 0, 4, [], 0⟩, ⟨1, 0, 0, 1, 0, 0⟩, .one, ⟨0, 0⟩, ⟨0, 0⟩⟩],
      pctxObjs := [], ctxClipState := 1, ctxCapsState := 0, ctxPctx := none,
      states := [⟨0, 0, none⟩] } := by
  rw [resetEngine_eq]
  simp [sampleEnv, RasterPaintEngine.save, RasterPaintEngine.setUserOrigin,
    RasterPaintEngine._detachClipState, RasterPaintEngine._derefClipState,
    RasterPaintClipState.copy, RasterPaintEngine._updateWorkRegion, Point.add,
    RasterPaintEngine.setClip, RasterPaintEngine.setCaps, RasterPaintEngine.clip,
    RasterPaintEngine.caps, readObj, RasterPaintEngine._updateTransform, iround_zero,
    TRANSFORM_TRANSLATE_EXACT, TRANSFORM_AFFINE, lowByteZero]

/-- C2, evaluated on the code: after `translate(5, 0)`, `resetMatrix()` and
`save()`, the caps state captured by the save has `refCount` 2 and
`transformTranslateInt = (5, 0)`; `setUserOrigin(Point(1, 0))` then runs
`_updateWorkRegion` -> `_updateTransform(true)`, which writes through
`ctx.capsState` without detaching it: the captured object, still with
`refCount` 2, now has `transformTranslateInt = (0, 0)`. -/
theorem save_setUserOrigin_writes_saved_caps :
    (resetEngine.save).states = [⟨0, 0, none⟩] ∧
      (readObj (resetEngine.save).capsObjs 0).refCount = 2 ∧
      (readObj (resetEngine.save).capsObjs 0).transformTranslateInt = ⟨5, 0⟩ ∧
      (readObj ((resetEngine.save).setUserOrigin sampleEnv ⟨1, 0⟩ true).capsObjs 0).refCount
        = 2 ∧
      (readObj ((resetEngine.save).setUserOrigin sampleEnv ⟨1, 0⟩ true).capsObjs
        0).transformTranslateInt = ⟨0, 0⟩ := by
  rw [savedOrigin_eq, resetEngine_eq]
  decide

/-- C3, evaluated on the code: `save()`, `setUserOrigin(Point(1, 0))`,
`restore()` on the engine left by `translate(5, 0)` and `resetMatrix()` brings
back the save stack depth and the clip state, but the current caps state has
`transformTranslateInt = (0, 0)` where it had `(5, 0)` at the time of the
save. -/
theorem save_setUserOrigin_restore_changes_caps :
    resetEngine.caps.transformTranslateInt = ⟨5, 0⟩ ∧
      (((resetEngine.save).setUserOrigin sampleEnv ⟨1, 0⟩ true).restore).states.length
        = resetEngine.states.length ∧
      (((resetEngine.save).setUserOrigin sampleEnv ⟨1, 0⟩ true).restore).clip
        = resetEngine.clip ∧
      (((resetEngine.save).setUserOrigin sampleEnv ⟨1, 0⟩ true).restore).caps.transformTranslateInt
        = ⟨0, 0⟩ := by
  rw [savedOrigin_eq, resetEngine_eq]
  decide

/-! ## Integer fast paths -/

/-- A box is valid exactly when it has a pixel. -/
theorem box_isValid_iff (b : Box) : b.isValid = true ↔ ∃ px py, b.Covers px py := by
  simp only [Box.isValid, Box.Covers, Bool.and_eq_true, decide_eq_true_eq]
  constructor
  · rintro ⟨h1, h2⟩
    exact ⟨b.x1, b.y1, le_refl _, h1, le_refl _, h2⟩
  · rintro ⟨px, py, h1, h2, h3, h4⟩
    exact ⟨by omega, by omega⟩

/-- The pixels of `Box::intersect` are the common pixels. -/
theorem box_intersect_covers (a b : Box) (px py : Int) :
    (a.intersect b).Covers px py ↔ a.Covers px py ∧ b.Covers px py := by
  simp only [Box.intersect, Box.Covers, max_le_iff, lt_min_iff]
  tauto

/-- An intersection lies inside its second argument. -/
theorem box_intersect_inside_right (a b : Box) : (a.intersect b).Inside b := by
  simp only [Box.intersect, Box.Inside]
  exact ⟨le_max_right _ _, min_le_right _ _, le_max_right _ _, min_le_right _ _⟩

/-- Inclusion of boxes is transitive. -/
theorem box_inside_trans {a b c : Box} (h1 : a.Inside b) (h2 : b.Inside c) : a.Inside c := by
  simp only [Box.Inside] at *
  omega

/-- The bounding box contains the start box and every box of the list. -/
theorem boundingBox_spec (bs : List Box) (acc : Box) :
    acc.Inside (boundingBox acc bs) ∧ ∀ b ∈ bs, b.Inside (boundingBox acc bs) := by
  induction bs generalizing acc with
  | nil => simp [boundingBox, Box.Inside]
  | cons x xs ih =>
    simp only [boundingBox]
    obtain ⟨h1, h2⟩ := ih ⟨min acc.x1 x.x1, min acc.y1 x.y1, max acc.x2 x.x2, max acc.y2 x.y2⟩
    have ha : acc.Inside ⟨min acc.x1 x.x1, min acc.y1 x.y1, max acc.x2 x.x2, max acc.y2 x.y2⟩ := by
      simp [Box.Inside]
    have hx : x.Inside ⟨min acc.x1 x.x1, min acc.y1 x.y1, max acc.x2 x.x2, max acc.y2 x.y2⟩ := by
      simp [Box.Inside]
    refine ⟨box_inside_trans ha h1, ?_⟩
    intro b hb
    rcases List.mem_cons.mp hb with rfl | hb
    · exact box_inside_trans hx h1
    · exact h2 b hb

/-- The extents of a region contain each of its rectangles. -/
theorem extents_spec (g : Region) : ∀ b ∈ g.rects, b.Inside g.extents := by
  intro b hb
  unfold Region.extents
  cases hg : g.rects with
  | nil => rw [hg] at hb; simp at hb
  | cons x xs =>
    simp only
    rw [hg] at hb
    rcases List.mem_cons.mp hb with rfl | hb
    · exact (boundingBox_spec xs b).1
    · exact (boundingBox_spec xs x).2 b hb

/-- The rectangles of `Region::intersect`. -/
theorem mem_region_intersect (a b : Region) (x : Box) :
    x ∈ (Region.intersect a b).rects ↔
      ∃ p ∈ a.rects, ∃ q ∈ b.rects, x = p.intersect q ∧ x.isValid = true := by
  simp only [Region.intersect, List.mem_flatMap, List.mem_filter, List.mem_map]
  constructor
  · rintro ⟨p, hp, ⟨q, hq, rfl⟩, hv⟩
    exact ⟨p, hp, q, hq, rfl, hv⟩
  · rintro ⟨p, hp, q, hq, rfl, hv⟩
    exact ⟨p, hp, ⟨q, hq, rfl⟩, hv⟩

/-- The pixels of `Region::intersect` are the common pixels. -/
theorem region_intersect_covers (a b : Region) (px py : Int) :
    CoversAny (Region.intersect a b).rects px py ↔
      CoversAny a.rects px py ∧ CoversAny b.rects px py := by
  simp only [CoversAny, mem_region_intersect]
  constructor
  · rintro ⟨x, ⟨p, hp, q, hq, rfl, _⟩, hc⟩
    rw [box_intersect_covers] at hc
    exact ⟨⟨p, hp, hc.1⟩, ⟨q, hq, hc.2⟩⟩
  · rintro ⟨⟨p, hp, hcp⟩, ⟨q, hq, hcq⟩⟩
    have hc : (p.intersect q).Covers px py := (box_intersect_covers p q px py).mpr ⟨hcp, hcq⟩
    exact ⟨p.intersect q, ⟨p, hp, q, hq, rfl, (box_isValid_iff _).mpr ⟨px, py, hc⟩⟩, hc⟩

/-- The two outcomes of `fillRect` on its integer path: nothing is passed and
no pixel of the translated rectangle passes the clip, or a non-empty list of
valid boxes inside `clipBox` is passed that covers exactly those pixels. -/
theorem fillRect_cases (e : RasterPaintEngine) (r : Rect)
    (hr : r.isValid = true)
    (ht : e.caps.transformType = TRANSFORM_TRANSLATE_EXACT)
    (hinv : e.clip.clipSimple = false → e.clip.clipBox = e.clip.workRegion.extents) :
    (e.fillRect r = .nothing ∧
        ∀ px py, ¬ ((r.moved e.caps.transformTranslateInt).Covers px py ∧ e.InClip px py)) ∨
      (∃ bs, bs ≠ [] ∧ e.fillRect r = .boxes bs ∧
        (∀ px py, CoversAny bs px py ↔
          (r.moved e.caps.transformTranslateInt).Covers px py ∧ e.InClip px py) ∧
        ∀ b ∈ bs, b.isValid = true ∧ b.Inside e.clip.clipBox) := by
  have hbox : (⟨r.getX1 + e.caps.transformTranslateInt.x, r.getY1 + e.caps.transformTranslateInt.y,
      r.getX2 + e.caps.transformTranslateInt.x, r.getY2 + e.caps.transformTranslateInt.y⟩ : Box)
      = r.moved e.caps.transformTranslateInt := rfl
  unfold RasterPaintEngine.fillRect
  simp only [hr, ht, ne_eq, not_true_eq_false, ite_false, Bool.not_true, Bool.false_eq_true, hbox]
  cases hs : e.clip.clipSimple with
  | true =>
    simp only [ite_true]
    have hin : ∀ px py, e.InClip px py ↔ e.clip.clipBox.Covers px py := by
      intro px py; simp [RasterPaintEngine.InClip, hs]
    cases hv : ((r.moved e.caps.transformTranslateInt).intersect e.clip.clipBox).isValid with
    | false =>
      left
      refine ⟨by simp, ?_⟩
      intro px py hc
      rw [hin, ← box_intersect_covers] at hc
      have := (box_isValid_iff _).mpr ⟨px, py, hc⟩
      rw [hv] at this; exact Bool.noConfusion this
    | true =>
      right
      refine ⟨[(r.moved e.caps.transformTranslateInt).intersect e.clip.clipBox], by simp,
        by simp, ?_, ?_⟩
      · intro px py
        simp [CoversAny, hin, box_intersect_covers]
      · intro b hb
        rw [List.mem_singleton] at hb
        subst hb
        exact ⟨hv, box_intersect_inside_right _ _⟩
  | false =>
    simp only [Bool.false_eq_true, ite_false]
    have hin : ∀ px py, e.InClip px py ↔ CoversAny e.clip.workRegion.rects px py := by
      intro px py; simp [RasterPaintEngine.InClip, hs]
    have hcov := region_intersect_covers ⟨[r.moved e.caps.transformTranslateInt]⟩ e.clip.workRegion
    cases hl : (Region.intersect ⟨[r.moved e.caps.transformTranslateInt]⟩ e.clip.workRegion).rects with
    | nil =>
      left
      refine ⟨by simp [Region.isEmpty, hl], ?_⟩
      intro px py hc
      have := (hcov px py).mpr ⟨⟨_, List.mem_singleton.mpr rfl, hc.1⟩, (hin px py).mp hc.2⟩
      rw [hl] at this
      simp [CoversAny] at this
    | cons x xs =>
      right
      refine ⟨x :: xs, by simp, by simp [Region.isEmpty, hl], ?_, ?_⟩
      · intro px py
        rw [← hl, hcov, hin]
        simp [CoversAny]
      · intro b hb
        rw [← hl, mem_region_intersect] at hb
        obtain ⟨p, _, q, hq, rfl, hv⟩ := hb
        refine ⟨hv, box_inside_trans (box_intersect_inside_right p q) ?_⟩
        rw [hinv hs]
        exact extents_spec _ q hq
/-- C4: for every valid `Rect r`, under an exact-translate transform (and with
`clipBox` the extents of `workRegion` when the clip is not simple, as
`_updateWorkRegion` leaves it): when no pixel of `r` translated by
`transformTranslateInt` passes the clip (`clipBox` when `clipSimple`,
`workRegion` otherwise), `fillRect(r)` returns without calling
`_serializeBoxes`; otherwise it passes boxes whose pixels are exactly the
pixels of the translated `r` that pass the clip, and every box passed is valid
and lies inside `clipBox`. -/
theorem fillRect_exact_translate (e : RasterPaintEngine) (r : Rect)
    (hr : r.isValid = true)
    (ht : e.caps.transformType = TRANSFORM_TRANSLATE_EXACT)
    (hinv : e.clip.clipSimple = false → e.clip.clipBox = e.clip.workRegion.extents) :
    ((∀ px py, ¬ ((r.moved e.caps.transformTranslateInt).Covers px py ∧ e.InClip px py)) →
        e.fillRect r = .nothing) ∧
      ((∃ px py, (r.moved e.caps.transformTranslateInt).Covers px py ∧ e.InClip px py) →
        ∃ bs, e.fillRect r = .boxes bs ∧
          (∀ px py, CoversAny bs px py ↔
            (r.moved e.caps.transformTranslateInt).Covers px py ∧ e.InClip px py) ∧
          ∀ b ∈ bs, b.isValid = true ∧ b.Inside e.clip.clipBox) := by
  rcases fillRect_cases e r hr ht hinv with ⟨h1, h2⟩ | ⟨bs, hne, h1, h2, h3⟩
  · refine ⟨fun _ => h1, ?_⟩
    rintro ⟨px, py, h⟩
    exact absurd h (h2 px py)
  · refine ⟨?_, fun _ => ⟨bs, h1, h2, h3⟩⟩
    intro hempty
    exfalso
    cases bs with
    | nil => exact hne rfl
    | cons b rest =>
      obtain ⟨px, py, hc⟩ := (box_isValid_iff b).mp (h3 b (by simp)).1
      exact hempty px py ((h2 px py).mp ⟨b, by simp, hc⟩)

/-- C4 at the engine clipped to two rectangles (a clip that is not simple),
filling `Rect(0, 0, 300, 300)`. -/
theorem fillRect_exact_translate_witness :
    ((⟨0, 0, 300, 300⟩ : Rect).isValid = true ∧
        twoRectEngine.caps.transformType = TRANSFORM_TRANSLATE_EXACT ∧
        twoRectEngine.clip.clipSimple = false ∧
        (twoRectEngine.clip.clipSimple = false →
          twoRectEngine.clip.clipBox = twoRectEngine.clip.workRegion.extents)) ∧
      (((∀ px py, ¬ (((⟨0, 0, 300, 300⟩ : Rect).moved
            twoRectEngine.caps.transformTranslateInt).Covers px py ∧
              twoRectEngine.InClip px py)) →
          twoRectEngine.fillRect ⟨0, 0, 300, 300⟩ = .nothing) ∧
        ((∃ px py, ((⟨0, 0, 300, 300⟩ : Rect).moved
            twoRectEngine.caps.transformTranslateInt).Covers px py ∧
              twoRectEngine.InClip px py) →
          ∃ bs, twoRectEngine.fillRect ⟨0, 0, 300, 300⟩ = .boxes bs ∧
            (∀ px py, CoversAny bs px py ↔
              ((⟨0, 0, 300, 300⟩ : Rect).moved twoRectEngine.caps.transformTranslateInt).Covers
                px py ∧ twoRectEngine.InClip px py) ∧
            ∀ b ∈ bs, b.isValid = true ∧ b.Inside twoRectEngine.clip.clipBox)) :=
  ⟨⟨by decide, by decide, by decide, by decide⟩,
    fillRect_exact_translate twoRectEngine ⟨0, 0, 300, 300⟩ (by decide) (by decide) (by decide)⟩

/-- C5, evaluated on the code: with the user clip `Rect(20, 20, 10, 10)` and the
identity transform, `fillRegion` of the region `[0, 300) x [0, 300)` hands
`_serializeBoxes` the argument itself, neither translated nor clipped (the
clipped `regionISect` is computed and then left unused), whereas `fillRects`
on the same rectangle hands over the clipped box `[20, 30) x [20, 30)`. -/
theorem fillRegion_ignores_clip :
    clippedEngine.caps.transformType = TRANSFORM_TRANSLATE_EXACT ∧
      clippedEngine.clip.clipBox = ⟨20, 20, 30, 30⟩ ∧
      clippedEngine.fillRegion ⟨[⟨0, 0, 300, 300⟩]⟩ = .boxes [⟨0, 0, 300, 300⟩] ∧
      ¬ Box.Inside ⟨0, 0, 300, 300⟩ clippedEngine.clip.clipBox ∧
      clippedEngine.fillRects [⟨0, 0, 300, 300⟩] = .boxes [⟨20, 20, 30, 30⟩] := by
  refine ⟨by decide, by decide, by decide, ?_, by decide⟩
  have h : clippedEngine.clip.clipBox = ⟨20, 20, 30, 30⟩ := by decide
  rw [h]
  simp [Box.Inside]

/-- C6, evaluated on the code: with the clip box `[20, 30) x [20, 30)` and the
identity transform, `blitImage(Point(10, 25), image)` for a 15 x 2 image starts
left of the clip box; the branch `d < 0` sets `dstx = 0` instead of the left
edge of the clip box, so the destination passed to `_serializeImage` is
`Rect(0, 25, 5, 2)`, which lies outside the clip box. -/
theorem blitImage_leaves_clipBox :
    clippedEngine.caps.transformType = TRANSFORM_TRANSLATE_EXACT ∧
      clippedEngine.clip.clipBox = ⟨20, 20, 30, 30⟩ ∧
      clippedEngine.blitImage ⟨10, 25⟩ ⟨15, 2⟩ none = .image ⟨0, 25, 5, 2⟩ ⟨10, 0, 5, 2⟩ ∧
      ¬ (clippedEngine.clip.clipBox.x1 ≤ (0 : Int)) := by
  decide

/-! ## Arena allocator -/
/-- The header takes room. -/
theorem sizeofHeader_pos (t : Target) : 0 < sizeofHeader t := by cases t <;> decide
/-- The header has at most 16 bytes. -/
theorem sizeofHeader_le (t : Target) : sizeofHeader t ≤ 16 := by cases t <;> decide
/-- A `sysuint_t` has at least 32 bits. -/
theorem wordMod_big (t : Target) : 4294967296 ≤ wordMod t := by cases t <;> decide

/-- Small sums do not wrap. -/
theorem uadd_small (t : Target) (a b : Nat) (h : a + b < 4294967296) : uadd t a b = a + b := by
  have := wordMod_big t
  exact Nat.mod_eq_of_lt (by omega)

/-- A difference of small values that stays non-negative does not wrap. -/
theorem usub_small (t : Target) (a b : Nat) (ha : a < 4294967296) (hb : b ≤ a) :
    usub t a b = a - b := by
  have := wordMod_big t
  unfold usub
  rw [Nat.mod_eq_of_lt (show a < wordMod t by omega), Nat.mod_eq_of_lt (show b < wordMod t by omega)]
  have : a + wordMod t - b = (a - b) + wordMod t := by omega
  rw [this, Nat.add_mod_right, Nat.mod_eq_of_lt (by omega)]

/-- The search finds nothing exactly when every block is in use. -/
theorem findFree_none (bs : List Block) : findFree bs = none ↔ ∀ b ∈ bs, b.used ≠ 0 := by
  induction bs with
  | nil => simp [findFree]
  | cons b rest ih =>
    simp only [findFree, List.mem_cons, forall_eq_or_imp]
    by_cases hb : b.used = 0
    · simp [hb]
    · simp only [hb, ite_false, ne_eq, not_false_eq_true, true_and]
      rw [← ih]
      cases findFree rest with
      | none => simp
      | some v => obtain ⟨pre, cur, post⟩ := v; simp

/-- The search returns the first block with `used == 0`. -/
theorem findFree_some (bs pre post : List Block) (cur : Block) :
    findFree bs = some (pre, cur, post) ↔
      bs = pre ++ cur :: post ∧ (∀ b ∈ pre, b.used ≠ 0) ∧ cur.used = 0 := by
  induction bs generalizing pre with
  | nil => simp [findFree]
  | cons b rest ih =>
    simp only [findFree]
    by_cases hb : b.used = 0
    · simp only [hb, ite_true, Option.some.injEq, Prod.mk.injEq]
      constructor
      · rintro ⟨rfl, rfl, rfl⟩
        simp [hb]
      · rintro ⟨h1, h2, h3⟩
        cases pre with
        | nil => simp at h1; simp [h1]
        | cons x xs =>
          simp at h1
          have := h2 x (by simp)
          rw [← h1.1] at this
          exact absurd hb this
    · simp only [hb, ite_false]
      cases hf : findFree rest with
      | none =>
        constructor
        · intro h; cases h
        rintro ⟨h1, h2, h3⟩
        exfalso
        cases pre with
        | nil => simp at h1; rw [h1.1] at hb; exact hb h3
        | cons x xs =>
          simp at h1
          have := (ih xs).mpr ⟨h1.2, fun b hb' => h2 b (by simp [hb']), h3⟩
          rw [hf] at this; cases this
      | some v =>
        obtain ⟨pre', cur', post'⟩ := v
        simp only [Option.some.injEq, Prod.mk.injEq]
        constructor
        · rintro ⟨rfl, rfl, rfl⟩
          obtain ⟨h1, h2, h3⟩ := (ih pre').mp hf
          refine ⟨by simp [h1], ?_, h3⟩
          intro x hx
          rcases List.mem_cons.mp hx with rfl | hx
          · exact hb
          · exact h2 x hx
        · rintro ⟨h1, h2, h3⟩
          cases pre with
          | nil => simp at h1; rw [h1.1] at hb; exact absurd h3 hb
          | cons x xs =>
            simp at h1
            have := (ih xs).mpr ⟨h1.2, fun b hb' => h2 b (by simp [hb']), h3⟩
            rw [hf] at this
            simp at this
            simp [h1.1, this]

/-- The cases of `alloc` on a well-formed block list, for a request that passes
the size assertion: when `Memory::alloc` is called, what a new block looks
like, what a refusal of the system leaves, the allocation at the cursor of the
head block, and the reuse of the first block with `used == 0`. -/
theorem alloc_cases (t : Target) (a : MemoryAllocator) (size : Nat) (sysOk : Bool)
    (hwf : a.WF) (hsize : size + sizeofHeader t ≤ BLOCK_SIZE) :
    ∃ st, a.alloc t size sysOk = some st ∧
      (st.sysRequested = true ↔
        (headShort a (size + sizeofHeader t) ∧ ∀ b ∈ a.blocks, b.used ≠ 0)) ∧
      (st.sysRequested = true → sysOk = true →
        st.ptr = some ⟨a.sysNext, sizeofHeader t⟩ ∧
        st.after = ⟨⟨a.sysNext, BLOCK_SIZE, size + sizeofHeader t, size + sizeofHeader t,
          [(0, size + sizeofHeader t)]⟩ :: a.blocks, a.sysNext + 1⟩) ∧
      (st.sysRequested = true → sysOk = false → st.ptr = none ∧ st.after = a) ∧
      (¬ headShort a (size + sizeofHeader t) →
        ∃ b rest, a.blocks = b :: rest ∧ st.ptr = some ⟨b.addr, b.pos + sizeofHeader t⟩ ∧
          st.after = ⟨{ b with
            headers := (b.pos, size + sizeofHeader t) :: b.headers,
            pos := b.pos + (size + sizeofHeader t),
            used := b.used + (size + sizeofHeader t) } :: rest, a.sysNext⟩) ∧
      (headShort a (size + sizeofHeader t) →
        ∀ pre cur post, a.blocks = pre ++ cur :: post → (∀ b ∈ pre, b.used ≠ 0) → cur.used = 0 →
          st.ptr = some ⟨cur.addr, sizeofHeader t⟩ ∧
          st.after = ⟨{ cur with
            headers := (0, size + sizeofHeader t) :: cur.headers,
            pos := size + sizeofHeader t,
            used := size + sizeofHeader t } :: (pre ++ post), a.sysNext⟩) := by
  have hB : BLOCK_SIZE = 8000 := rfl
  have hneed : uadd t size (sizeofHeader t) = size + sizeofHeader t :=
    uadd_small t _ _ (by omega)
  have hz : uadd t 0 (size + sizeofHeader t) = size + sizeofHeader t := by
    rw [uadd_small t _ _ (by omega)]; omega
  unfold MemoryAllocator.alloc
  simp only [hneed, hsize, not_true_eq_false, ite_false]
  -- the test on the head block
  have hslow : (match a.blocks with
      | [] => true
      | b :: _ => decide (usub t b.size b.pos < size + sizeofHeader t)) = true
      ↔ headShort a (size + sizeofHeader t) := by
    unfold headShort
    cases hb : a.blocks with
    | nil => simp
    | cons b rest =>
      have hbwf := hwf.2 b (by rw [hb]; simp)
      simp only [decide_eq_true_eq]
      rw [usub_small t _ _ (by omega) (by omega)]
  by_cases hs : headShort a (size + sizeofHeader t)
  · rw [if_pos (hslow.mpr hs)]
    cases hf : findFree a.blocks with
    | none =>
      have hall := (findFree_none a.blocks).mp hf
      cases sysOk with
      | true =>
        refine ⟨_, rfl, ?_, ?_, ?_, ?_, ?_⟩
        · simp only [allocFromBlocks, true_iff]
          exact ⟨hs, hall⟩
        · intro _ _
          simp [allocFromBlocks, hz]
        · intro _ h; cases h
        · intro h; exact absurd hs h
        · intro _ pre cur post hbl _ hc
          exact absurd hc (hall cur (by rw [hbl]; simp))
      | false =>
        refine ⟨_, rfl, ?_, ?_, ?_, ?_, ?_⟩
        · simp only [true_iff]
          exact ⟨hs, hall⟩
        · intro _ h; cases h
        · intro _ _; simp
        · intro h; exact absurd hs h
        · intro _ pre cur post hbl _ hc
          exact absurd hc (hall cur (by rw [hbl]; simp))
    | some v =>
      obtain ⟨pre, cur, post⟩ := v
      obtain ⟨h1, h2, h3⟩ := (findFree_some _ _ _ _).mp hf
      refine ⟨_, rfl, ?_, ?_, ?_, ?_, ?_⟩
      · simp only [allocFromBlocks, Bool.false_eq_true, false_iff, not_and, not_forall]
        intro _
        exact ⟨cur, by rw [h1]; simp, by simp [h3]⟩
      · intro h; simp [allocFromBlocks] at h
      · intro h; simp [allocFromBlocks] at h
      · intro h; exact absurd hs h
      · intro _ pre2 cur2 post2 hbl hp2 hc2
        have := (findFree_some _ _ _ _).mpr ⟨hbl, hp2, hc2⟩
        rw [hf] at this
        simp only [Option.some.injEq, Prod.mk.injEq] at this
        obtain ⟨rfl, rfl, rfl⟩ := this
        simp [allocFromBlocks, hz, h3]
  · rw [if_neg (fun h => hs (hslow.mp h))]
    refine ⟨_, rfl, ?_, ?_, ?_, ?_, ?_⟩
    · cases hb : a.blocks <;> simp [allocFromBlocks, hs]
    · intro h; cases hb : a.blocks <;> simp [allocFromBlocks, hb] at h
    · intro h; cases hb : a.blocks <;> simp [allocFromBlocks, hb] at h
    · intro _
      cases hb : a.blocks with
      | nil => simp [headShort, hb] at hs
      | cons b rest =>
        have hbwf := hwf.2 b (by rw [hb]; simp)
        have hfit : size + sizeofHeader t ≤ b.size - b.pos := by
          simp [headShort, hb] at hs; exact hs
        refine ⟨b, rest, rfl, by simp [allocFromBlocks], ?_⟩
        simp only [allocFromBlocks]
        rw [uadd_small t _ _ (by omega), uadd_small t _ _ (by omega)]
    · intro h; exact absurd h hs

/-- C8: for a request that passes the size assertion, on a well-formed block
list, `alloc` calls `Memory::alloc` for a new block if and only if (the list
is empty or the head block has less than request + header bytes behind its
cursor) and no block of the list has `used == 0`.  Otherwise it allocates at
the cursor of the head block when the head has room, and else from the first
block with `used == 0`, moved to the head of the list with its cursor reset
to 0.  A new block, when the system grants it, is put at the head; when the
system refuses, `NULL` is returned and nothing changes. -/
theorem alloc_decision (t : Target) (a : MemoryAllocator) (size : Nat) (sysOk : Bool)
    (hwf : a.WF) (hsize : size + sizeofHeader t ≤ BLOCK_SIZE) :
    ∃ st, a.alloc t size sysOk = some st ∧
      (st.sysRequested = true ↔
        (headShort a (size + sizeofHeader t) ∧ ∀ b ∈ a.blocks, b.used ≠ 0)) ∧
      (st.sysRequested = true → sysOk = true →
        st.ptr = some ⟨a.sysNext, sizeofHeader t⟩ ∧
        st.after = ⟨⟨a.sysNext, BLOCK_SIZE, size + sizeofHeader t, size + sizeofHeader t,
          [(0, size + sizeofHeader t)]⟩ :: a.blocks, a.sysNext + 1⟩) ∧
      (st.sysRequested = true → sysOk = false → st.ptr = none ∧ st.after = a) ∧
      (¬ headShort a (size + sizeofHeader t) →
        ∃ b rest, a.blocks = b :: rest ∧ st.ptr = some ⟨b.addr, b.pos + sizeofHeader t⟩ ∧
          st.after = ⟨{ b with
            headers := (b.pos, size + sizeofHeader t) :: b.headers,
            pos := b.pos + (size + sizeofHeader t),
            used := b.used + (size + sizeofHeader t) } :: rest, a.sysNext⟩) ∧
      (headShort a (size + sizeofHeader t) →
        ∀ pre cur post, a.blocks = pre ++ cur :: post → (∀ b ∈ pre, b.used ≠ 0) → cur.used = 0 →
          st.ptr = some ⟨cur.addr, sizeofHeader t⟩ ∧
          st.after = ⟨{ cur with
            headers := (0, size + sizeofHeader t) :: cur.headers,
            pos := size + sizeofHeader t,
            used := size + sizeofHeader t } :: (pre ++ post), a.sysNext⟩) :=
  alloc_cases t a size sysOk hwf hsize

/-- A successful `alloc` leaves the block it allocated from at the head of the
list, in use, with the returned region ending at its cursor; the block list
stays well formed. -/
theorem alloc_shape (t : Target) (a : MemoryAllocator) (size : Nat) (sysOk : Bool)
    (hwf : a.WF) (hsize : size + sizeofHeader t ≤ BLOCK_SIZE) (st : AllocStep)
    (hst : a.alloc t size sysOk = some st) (p : Ptr) (hp : st.ptr = some p) :
    ∃ H tl, st.after.blocks = H :: tl ∧ H.addr = p.block ∧ 0 < H.used ∧
      p.offset + size = H.pos ∧ sizeofHeader t ≤ p.offset ∧ st.after.WF := by
  have hB : BLOCK_SIZE = 8000 := rfl
  have hh := sizeofHeader_pos t
  obtain ⟨st', hst', hreq, hfresh, hfail, hfast, hreuse⟩ := alloc_cases t a size sysOk hwf hsize
  rw [hst] at hst'
  obtain rfl : st = st' := Option.some.inj hst'
  by_cases hs : headShort a (size + sizeofHeader t)
  · cases hf : findFree a.blocks with
    | none =>
      have hall := (findFree_none a.blocks).mp hf
      have hr : st.sysRequested = true := hreq.mpr ⟨hs, hall⟩
      cases sysOk with
      | false =>
        have := (hfail hr rfl).1
        rw [hp] at this; cases this
      | true =>
        obtain ⟨h1, h2⟩ := hfresh hr rfl
        rw [hp] at h1
        obtain rfl : p = ⟨a.sysNext, sizeofHeader t⟩ := Option.some.inj h1
        rw [h2]
        refine ⟨_, _, rfl, rfl, by simp only; omega, by simp only; omega, le_refl _, ?_, ?_⟩
        · simp only [List.map_cons, List.nodup_cons]
          refine ⟨?_, hwf.1⟩
          intro hmem
          obtain ⟨b, hb, hba⟩ := List.mem_map.mp hmem
          have := (hwf.2 b hb).1
          omega
        · intro b hb
          rcases List.mem_cons.mp hb with rfl | hb
          · simp; omega
          · have := hwf.2 b hb
            simp only; omega
    | some v =>
      obtain ⟨pre, cur, post⟩ := v
      obtain ⟨h1, h2, h3⟩ := (findFree_some _ _ _ _).mp hf
      obtain ⟨hq1, hq2⟩ := hreuse hs pre cur post h1 h2 h3
      rw [hp] at hq1
      obtain rfl : p = ⟨cur.addr, sizeofHeader t⟩ := Option.some.inj hq1
      have hcur := hwf.2 cur (by rw [h1]; simp)
      rw [hq2]
      refine ⟨_, _, rfl, rfl, by simp only; omega, by simp only; omega, le_refl _, ?_, ?_⟩
      · have hperm : List.Perm (cur :: (pre ++ post)) (pre ++ cur :: post) :=
          (List.perm_middle).symm
        have hnd : ((cur :: (pre ++ post)).map Block.addr).Nodup := by
          rw [(hperm.map Block.addr).nodup_iff, ← h1]; exact hwf.1
        simpa using hnd
      · intro b hb
        rcases List.mem_cons.mp hb with rfl | hb
        · simp only; omega
        · exact hwf.2 b (by rw [h1]; simp only [List.mem_append, List.mem_cons] at hb ⊢; tauto)
  · obtain ⟨b, rest, hbl, hq1, hq2⟩ := hfast hs
    rw [hp] at hq1
    obtain rfl : p = ⟨b.addr, b.pos + sizeofHeader t⟩ := Option.some.inj hq1
    have hb := hwf.2 b (by rw [hbl]; simp)
    have hfit : size + sizeofHeader t ≤ b.size - b.pos := by
      simp [headShort, hbl] at hs; exact hs
    rw [hq2]
    refine ⟨_, _, rfl, rfl, by simp only; omega, by simp only; omega, by simp, ?_, ?_⟩
    · have := hwf.1
      rw [hbl] at this
      simpa using this
    · intro x hx
      rcases List.mem_cons.mp hx with rfl | hx
      · simp only; omega
      · exact hwf.2 x (by rw [hbl]; simp [hx])

/-- With system memory available `alloc` returns a pointer. -/
theorem alloc_returns_ptr (t : Target) (a : MemoryAllocator) (size : Nat)
    (hwf : a.WF) (hsize : size + sizeofHeader t ≤ BLOCK_SIZE) :
    ∃ st p, a.alloc t size true = some st ∧ st.ptr = some p := by
  obtain ⟨st, hst, hreq, hfresh, _, hfast, hreuse⟩ := alloc_cases t a size true hwf hsize
  refine ⟨st, ?_⟩
  by_cases hs : headShort a (size + sizeofHeader t)
  · cases hf : findFree a.blocks with
    | none =>
      have hall := (findFree_none a.blocks).mp hf
      exact ⟨_, hst, (hfresh (hreq.mpr ⟨hs, hall⟩) rfl).1⟩
    | some v =>
      obtain ⟨pre, cur, post⟩ := v
      obtain ⟨h1, h2, h3⟩ := (findFree_some _ _ _ _).mp hf
      exact ⟨_, hst, (hreuse hs pre cur post h1 h2 h3).1⟩
  · obtain ⟨b, rest, _, hq1, _⟩ := hfast hs
    exact ⟨_, hst, hq1⟩

/-- C9, amended: for every request with `size + sizeof(Header) <= BLOCK_SIZE`, on
a well-formed block list, the assertion of `alloc` holds and, with system
memory available, `alloc` returns a pointer into a block of the list such that
the header and the `size` bytes behind the pointer lie inside the `BLOCK_SIZE`
bytes of that block. -/
theorem alloc_within_block (t : Target) (a : MemoryAllocator) (size : Nat)
    (hwf : a.WF) (hsize : size + sizeofHeader t ≤ BLOCK_SIZE) :
    (∀ sysOk, (a.alloc t size sysOk).isSome = true) ∧
      ∃ st p b, a.alloc t size true = some st ∧ st.ptr = some p ∧
        b ∈ st.after.blocks ∧ b.addr = p.block ∧ b.size = BLOCK_SIZE ∧
        sizeofHeader t ≤ p.offset ∧ p.offset + size ≤ b.size := by
  constructor
  · intro sysOk
    obtain ⟨st, hst, _⟩ := alloc_cases t a size sysOk hwf hsize
    rw [hst]; rfl
  · obtain ⟨st, p, hst, hp⟩ := alloc_returns_ptr t a size hwf hsize
    obtain ⟨H, tl, hbl, haddr, _, hoff, hhdr, hwf'⟩ := alloc_shape t a size true hwf hsize st hst p hp
    have hH := hwf'.2 H (by rw [hbl]; simp)
    exact ⟨st, p, H, hst, hp, by rw [hbl]; simp, haddr, hH.2.1, hhdr, by omega⟩

/-- The new allocator is well formed. -/
theorem init_wf : MemoryAllocator.init.WF := by
  simp [MemoryAllocator.init, MemoryAllocator.WF]

/-- C9, amended, at a request of 7984 bytes on a new allocator. -/
theorem alloc_within_block_witness :
    (MemoryAllocator.init.WF ∧ 7984 + sizeofHeader .lp64 ≤ BLOCK_SIZE) ∧
      ((∀ sysOk, (MemoryAllocator.init.alloc .lp64 7984 sysOk).isSome = true) ∧
        ∃ st p b, MemoryAllocator.init.alloc .lp64 7984 true = some st ∧ st.ptr = some p ∧
          b ∈ st.after.blocks ∧ b.addr = p.block ∧ b.size = BLOCK_SIZE ∧
          sizeofHeader .lp64 ≤ p.offset ∧ p.offset + 7984 ≤ b.size) :=
  ⟨⟨init_wf, by decide⟩, alloc_within_block .lp64 MemoryAllocator.init 7984 init_wf (by decide)⟩

/-- C9 as stated fails: a request of 8000 bytes does not exceed `BLOCK_SIZE`, but
`FOG_ASSERT(size <= BLOCK_SIZE)` is checked after the header was added and
fails, on both targets. -/
theorem alloc_assert_fails_at_block_size :
    8000 ≤ BLOCK_SIZE ∧ MemoryAllocator.init.alloc .lp64 8000 true = none ∧
      MemoryAllocator.init.alloc .ilp32 8000 true = none := by
  decide

/-- The final state of a run is the final state of its tail. -/
theorem lastState_cons (a : MemoryAllocator) (st : AllocStep) (sts : List AllocStep) :
    lastState a (st :: sts) = lastState st.after sts := by
  cases sts with
  | nil => simp [lastState]
  | cons x xs => simp only [lastState, List.getLast?_cons_cons]; rfl

/-- A run that succeeds splits into its first call and the rest. -/
theorem allocSeq_cons (t : Target) (a : MemoryAllocator) (q : Nat × Bool)
    (rest : List (Nat × Bool)) (steps : List AllocStep)
    (h : allocSeq t a (q :: rest) = some steps) :
    ∃ st sts, a.alloc t q.1 q.2 = some st ∧ allocSeq t st.after rest = some sts ∧
      steps = st :: sts := by
  obtain ⟨s, o⟩ := q
  simp only [allocSeq] at h
  cases h1 : a.alloc t s o with
  | none => rw [h1] at h; cases h
  | some st =>
    rw [h1] at h
    simp only at h
    cases h2 : allocSeq t st.after rest with
    | none => rw [h2] at h; cases h
    | some sts =>
      rw [h2] at h
      exact ⟨st, sts, rfl, h2, (Option.some.inj h).symm⟩

/-- A run of allocations that all return pointers into the block `B`, started
with `B` at the head and in use, takes the fast path every time. -/
theorem same_block_run (t : Target) (B : Nat) (reqs : List (Nat × Bool)) :
    ∀ (a : MemoryAllocator) (steps : List AllocStep) (H : Block) (tl : List Block),
      a.WF → a.blocks = H :: tl → H.addr = B → 0 < H.used →
      (∀ q ∈ reqs, q.1 + sizeofHeader t ≤ BLOCK_SIZE) →
      allocSeq t a reqs = some steps →
      (∀ st ∈ steps, ∃ p, st.ptr = some p ∧ p.block = B) →
      ∃ H1, (lastState a steps).blocks = H1 :: tl ∧ H1.addr = B ∧
        H1.pos = H.pos + needSum t (reqs.map Prod.fst) ∧ (lastState a steps).WF := by
  induction reqs with
  | nil =>
    intro a steps H tl hwf hbl hB hu _ hrun _
    simp only [allocSeq, Option.some.injEq] at hrun
    subst hrun
    exact ⟨H, by simp [lastState, hbl], hB, by simp [needSum], by simpa [lastState] using hwf⟩
  | cons q rest ih =>
    intro a steps H tl hwf hbl hB hu hsz hrun hsame
    obtain ⟨st, sts, hst, hsts, rfl⟩ := allocSeq_cons t a q rest steps hrun
    have hq := hsz q (by simp)
    obtain ⟨p, hp, hpB⟩ := hsame st (by simp)
    obtain ⟨st', hst', hreq, hfresh, hfail, hfast, hreuse⟩ :=
      alloc_cases t a q.1 q.2 hwf hq
    rw [hst] at hst'
    obtain rfl : st = st' := Option.some.inj hst'
    have hHwf := hwf.2 H (by rw [hbl]; simp)
    have hfastpath : ¬ headShort a (q.1 + sizeofHeader t) := by
      intro hs
      cases hf : findFree a.blocks with
      | none =>
        have hall := (findFree_none a.blocks).mp hf
        have hr : st.sysRequested = true := hreq.mpr ⟨hs, hall⟩
        cases ho : q.2 with
        | false =>
          have := (hfail hr ho).1
          rw [hp] at this; cases this
        | true =>
          have := (hfresh hr ho).1
          rw [hp] at this
          have h2 : p.block = a.sysNext := by rw [Option.some.inj this]
          omega
      | some v =>
        obtain ⟨pre, cur, post⟩ := v
        obtain ⟨h1, h2, h3⟩ := (findFree_some _ _ _ _).mp hf
        have := (hreuse hs pre cur post h1 h2 h3).1
        rw [hp] at this
        have hc : p.block = cur.addr := by rw [Option.some.inj this]
        rw [hbl] at h1
        cases pre with
        | nil =>
          simp only [List.nil_append, List.cons.injEq] at h1
          rw [← h1.1] at h3; omega
        | cons x xs =>
          simp only [List.cons_append, List.cons.injEq] at h1
          have hnd := hwf.1
          rw [hbl] at hnd
          simp only [List.map_cons, List.nodup_cons] at hnd
          apply hnd.1
          rw [h1.2]
          exact List.mem_map.mpr ⟨cur, by simp, by omega⟩
    obtain ⟨b, rest', hbl', hq1, hq2⟩ := hfast hfastpath
    rw [hbl] at hbl'
    simp only [List.cons.injEq] at hbl'
    obtain ⟨rfl, rfl⟩ := hbl'
    obtain ⟨_, _, _, _, _, _, _, hwf'⟩ := alloc_shape t a q.1 q.2 hwf hq st hst p hp
    have hsame' : ∀ s ∈ sts, ∃ p, s.ptr = some p ∧ p.block = B :=
      fun s hs => hsame s (by simp [hs])
    obtain ⟨H1, h1, h2, h3, h4⟩ := ih st.after sts
      { H with headers := (H.pos, q.1 + sizeofHeader t) :: H.headers,
               pos := H.pos + (q.1 + sizeofHeader t),
               used := H.used + (q.1 + sizeofHeader t) } tl hwf' (by rw [hq2]) hB
      (by simp only; omega) (fun x hx => hsz x (by simp [hx])) hsts hsame'
    refine ⟨H1, by rw [lastState_cons]; exact h1, h2, ?_, by rw [lastState_cons]; exact h4⟩
    rw [h3]
    simp only [needSum, List.map_cons, List.sum_cons]
    omega

/-- The bytes taken by a list of requests, one request at a time. -/
theorem needSum_cons (t : Target) (s : Nat) (rest : List Nat) :
    needSum t (s :: rest) = (s + sizeofHeader t) + needSum t rest := by
  simp [needSum]

/-- While the requests fit behind the cursor of the head block, every one of
them is served from the head block and the system is not asked. -/
theorem fast_run (t : Target) (reqs : List (Nat × Bool)) :
    ∀ (a : MemoryAllocator) (H : Block) (tl : List Block),
      a.WF → a.blocks = H :: tl → H.pos + needSum t (reqs.map Prod.fst) ≤ BLOCK_SIZE →
      ∃ steps, allocSeq t a reqs = some steps ∧
        ∀ st ∈ steps, st.sysRequested = false ∧ ∃ p, st.ptr = some p ∧ p.block = H.addr := by
  induction reqs with
  | nil =>
    intro a H tl _ _ _
    exact ⟨[], rfl, by simp⟩
  | cons q rest ih =>
    intro a H tl hwf hbl hsum
    rw [List.map_cons, needSum_cons] at hsum
    have hq : q.1 + sizeofHeader t ≤ BLOCK_SIZE := by omega
    have hHwf := hwf.2 H (by rw [hbl]; simp)
    obtain ⟨st, hst, hreq, _, _, hfast, _⟩ := alloc_cases t a q.1 q.2 hwf hq
    have hfastpath : ¬ headShort a (q.1 + sizeofHeader t) := by
      simp only [headShort, hbl]; omega
    obtain ⟨b, rest', hbl', hq1, hq2⟩ := hfast hfastpath
    rw [hbl] at hbl'
    simp only [List.cons.injEq] at hbl'
    obtain ⟨rfl, rfl⟩ := hbl'
    obtain ⟨_, _, _, _, _, _, _, hwf'⟩ := alloc_shape t a q.1 q.2 hwf hq st hst _ hq1
    obtain ⟨sts, hsts, hall⟩ := ih st.after
      { H with headers := (H.pos, q.1 + sizeofHeader t) :: H.headers,
               pos := H.pos + (q.1 + sizeofHeader t),
               used := H.used + (q.1 + sizeofHeader t) } tl hwf' (by rw [hq2])
      (by simp only; omega)
    refine ⟨st :: sts, ?_, ?_⟩
    · obtain ⟨s, o⟩ := q
      simp only [allocSeq]
      simp only at hst
      rw [hst]
      simp only
      rw [hsts]
    · intro x hx
      rcases List.mem_cons.mp hx with rfl | hx
      · refine ⟨?_, _, hq1, rfl⟩
        cases hr : x.sysRequested with
        | false => rfl
        | true => exact absurd (hreq.mp hr).1 hfastpath
      · exact hall x hx

/-- Freeing pointers into the block `B` changes nothing but the `used` counter
of `B`. -/
theorem freeAll_blocks (t : Target) (B : Nat) (steps : List AllocStep) :
    ∀ a : MemoryAllocator, (∀ st ∈ steps, ∀ p, st.ptr = some p → p.block = B) →
      ∃ f : Block → Block,
        (∀ b, (f b).addr = b.addr ∧ (f b).size = b.size ∧ (f b).pos = b.pos ∧
          (b.addr ≠ B → f b = b)) ∧
        (freeAll t a steps).blocks = a.blocks.map f ∧ (freeAll t a steps).sysNext = a.sysNext := by
  induction steps with
  | nil =>
    intro a _
    exact ⟨id, by simp, by simp [freeAll], rfl⟩
  | cons st sts ih =>
    intro a hB
    have hrest : ∀ s ∈ sts, ∀ p, s.ptr = some p → p.block = B :=
      fun s hs => hB s (by simp [hs])
    cases hp : st.ptr with
    | none =>
      obtain ⟨f, hf, h1, h2⟩ := ih a hrest
      refine ⟨f, hf, ?_, ?_⟩
      · simpa [freeAll, hp] using h1
      · simpa [freeAll, hp] using h2
    | some p =>
      have hpB := hB st (by simp) p hp
      obtain ⟨f, hf, h1, h2⟩ := ih (a.free t p) hrest
      refine ⟨fun b => f (if b.addr = p.block then
          match b.headers.lookup (p.offset - sizeofHeader t) with
          | some sz => { b with used := usub t b.used sz }
          | none => b
        else b), ?_, ?_, ?_⟩
      · intro b
        have hg : ∀ x : Block,
            (if x.addr = p.block then
              match x.headers.lookup (p.offset - sizeofHeader t) with
              | some sz => { x with used := usub t x.used sz }
              | none => x
            else x).addr = x.addr ∧
            (if x.addr = p.block then
              match x.headers.lookup (p.offset - sizeofHeader t) with
              | some sz => { x with used := usub t x.used sz }
              | none => x
            else x).size = x.size ∧
            (if x.addr = p.block then
              match x.headers.lookup (p.offset - sizeofHeader t) with
              | some sz => { x with used := usub t x.used sz }
              | none => x
            else x).pos = x.pos ∧
            (x.addr ≠ B → (if x.addr = p.block then
              match x.headers.lookup (p.offset - sizeofHeader t) with
              | some sz => { x with used := usub t x.used sz }
              | none => x
            else x) = x) := by
          intro x
          by_cases hx : x.addr = p.block
          · rw [if_pos hx]
            refine ⟨?_, ?_, ?_, fun h => absurd (hx.trans hpB) h⟩ <;>
              cases x.headers.lookup (p.offset - sizeofHeader t) <;> rfl
          · rw [if_neg hx]
            exact ⟨rfl, rfl, rfl, fun _ => rfl⟩
        obtain ⟨g1, g2, g3, g4⟩ := hg b
        obtain ⟨f1, f2, f3, f4⟩ := hf (if b.addr = p.block then
              match b.headers.lookup (p.offset - sizeofHeader t) with
              | some sz => { b with used := usub t b.used sz }
              | none => b
            else b)
        refine ⟨f1.trans g1, f2.trans g2, f3.trans g3, ?_⟩
        intro h
        simp only
        rw [g4 h]
        exact (hf b).2.2.2 h
      · have : freeAll t a (st :: sts) = freeAll t (a.free t p) sts := by
          simp [freeAll, hp]
        rw [this, h1]
        simp [MemoryAllocator.free, List.map_map, Function.comp_def]
      · have : freeAll t a (st :: sts) = freeAll t (a.free t p) sts := by
          simp [freeAll, hp]
        rw [this, h2]
        rfl

/-- The reuse of a vacated block, with the pointers of the run given by
existence. -/
theorem block_reuse_core (t : Target) (a0 : MemoryAllocator)
    (reqs : List (Nat × Bool)) (steps : List AllocStep) (B : Nat)
    (hwf : a0.WF)
    (hsz : ∀ q ∈ reqs, q.1 + sizeofHeader t ≤ BLOCK_SIZE)
    (hrun : allocSeq t a0 reqs = some steps)
    (hsame : ∀ st ∈ steps, ∃ p, st.ptr = some p ∧ p.block = B)
    (hfreed : ∀ b ∈ (freeAll t (lastState a0 steps) steps).blocks, b.addr = B → b.used = 0)
    (hfull : ∀ q ∈ reqs.head?,
      headShort (freeAll t (lastState a0 steps) steps) (q.1 + sizeofHeader t))
    (reqs2 : List (Nat × Bool)) (hsizes : reqs2.map Prod.fst = reqs.map Prod.fst) :
    ∃ steps2, allocSeq t (freeAll t (lastState a0 steps) steps) reqs2 = some steps2 ∧
      ∀ st ∈ steps2, st.sysRequested = false ∧ ∃ p, st.ptr = some p ∧ p.block = B := by
  have hB : BLOCK_SIZE = 8000 := rfl
  cases reqs with
  | nil =>
    have : reqs2 = [] := by simpa using hsizes
    subst this
    exact ⟨[], rfl, by simp⟩
  | cons q rest =>
    cases reqs2 with
    | nil => simp at hsizes
    | cons q2 rest2 =>
      simp only [List.map_cons, List.cons.injEq] at hsizes
      obtain ⟨hq2, hrest2⟩ := hsizes
      obtain ⟨st, sts, hst, hsts, rfl⟩ := allocSeq_cons t a0 q rest steps hrun
      have hq := hsz q (by simp)
      obtain ⟨p, hp, hpB⟩ := hsame st (by simp)
      obtain ⟨H, tl, hbl, hHa, hHu, hoff, hhdr, hwf1⟩ :=
        alloc_shape t a0 q.1 q.2 hwf hq st hst p hp
      obtain ⟨H1, h1bl, h1a, h1pos, hwfa1⟩ := same_block_run t B rest st.after sts H tl hwf1 hbl
        (hHa.trans hpB) hHu (fun x hx => hsz x (by simp [hx])) hsts
        (fun s hs => hsame s (by simp [hs]))
      rw [lastState_cons] at hfreed hfull ⊢
      obtain ⟨f, hf, hfbl, hfnext⟩ := freeAll_blocks t B (st :: sts) (lastState st.after sts)
        (fun s hs p' hp' => by
          obtain ⟨p'', hp'', hB''⟩ := hsame s hs
          rw [hp'] at hp''
          rw [Option.some.inj hp'']; exact hB'')
      have hH1wf := hwfa1.2 H1 (by rw [h1bl]; simp)
      -- the allocator after the frees is well formed again
      have hwf2 : (freeAll t (lastState st.after sts) (st :: sts)).WF := by
        refine ⟨?_, ?_⟩
        · rw [hfbl, List.map_map]
          have : (Block.addr ∘ f) = Block.addr := by
            funext b; exact (hf b).1
          rw [this]; exact hwfa1.1
        · intro b' hb'
          have hb'' := hb'
          rw [hfbl] at hb''
          obtain ⟨b, hb, rfl⟩ := List.mem_map.mp hb''
          have hbwf := hwfa1.2 b hb
          obtain ⟨e1, e2, e3, e4⟩ := hf b
          rw [hfnext, e1, e2, e3]
          refine ⟨hbwf.1, hbwf.2.1, hbwf.2.2.1, ?_⟩
          by_cases hbB : b.addr = B
          · rw [hfreed (f b) hb' (e1.trans hbB)]; omega
          · rw [e4 hbB]; exact hbwf.2.2.2
      have hbl2 : (freeAll t (lastState st.after sts) (st :: sts)).blocks
          = f H1 :: tl.map f := by
        rw [hfbl, h1bl]; rfl
      obtain ⟨e1, e2, e3, _⟩ := hf H1
      have hused : (f H1).used = 0 :=
        hfreed (f H1) (by rw [hbl2]; simp) (e1.trans h1a)
      have hs := hfull q (by simp)
      have hq2' : q2.1 + sizeofHeader t ≤ BLOCK_SIZE := by rw [hq2]; exact hq
      obtain ⟨st2, hst2, hreq, _, _, _, hreuse⟩ :=
        alloc_cases t _ q2.1 q2.2 hwf2 hq2'
      rw [hq2] at hreq hreuse
      obtain ⟨hptr, hafter⟩ := hreuse hs [] (f H1) (tl.map f) (by rw [hbl2]; rfl)
        (by simp) hused
      have hnoreq : st2.sysRequested = false := by
        cases hr : st2.sysRequested with
        | false => rfl
        | true =>
          have := (hreq.mp hr).2 (f H1) (by rw [hbl2]; simp)
          exact absurd hused this
      obtain ⟨_, _, _, _, _, _, _, hwf3⟩ := alloc_shape t _ q2.1 q2.2 hwf2 hq2' st2 hst2 _ hptr
      obtain ⟨sts2, hsts2, hall⟩ := fast_run t rest2 st2.after
        { f H1 with headers := (0, q.1 + sizeofHeader t) :: (f H1).headers,
                    pos := q.1 + sizeofHeader t,
                    used := q.1 + sizeofHeader t } ([] ++ tl.map f) hwf3 (by rw [hafter])
        (by simp only; rw [hrest2]; omega)
      refine ⟨st2 :: sts2, ?_, ?_⟩
      · obtain ⟨s2, o2⟩ := q2
        simp only [allocSeq]
        simp only at hst2
        rw [hst2]
        simp only
        rw [hsts2]
      · intro x hx
        rcases List.mem_cons.mp hx with rfl | hx
        · exact ⟨hnoreq, _, hptr, e1.trans h1a⟩
        · obtain ⟨g1, p', g2, g3⟩ := hall x hx
          exact ⟨g1, p', g2, g3.trans (e1.trans h1a)⟩

/-- C7, amended: a run of allocations on a well-formed allocator, each within
the size precondition, all served from the one block `B`; after all of them
were freed the `used` counter of `B` is back to 0.  If the first request of
the run does not fit behind the cursor of the head block (so that `alloc`
takes the reuse path and resets the cursor), then repeating the run, whatever
the system would answer, is served from `B` without a request to the system. -/
theorem block_reuse_when_cursor_resets (t : Target) (a0 : MemoryAllocator)
    (reqs : List (Nat × Bool)) (steps : List AllocStep) (B : Nat)
    (hwf : a0.WF)
    (hsz : ∀ q ∈ reqs, q.1 + sizeofHeader t ≤ BLOCK_SIZE)
    (hrun : allocSeq t a0 reqs = some steps)
    (hsame : ∀ st ∈ steps, st.ptr.map Ptr.block = some B)
    (hfreed : ∀ b ∈ (freeAll t (lastState a0 steps) steps).blocks, b.addr = B → b.used = 0)
    (hfull : ∀ q ∈ reqs.head?,
      headShort (freeAll t (lastState a0 steps) steps) (q.1 + sizeofHeader t))
    (reqs2 : List (Nat × Bool)) (hsizes : reqs2.map Prod.fst = reqs.map Prod.fst) :
    ∃ steps2, allocSeq t (freeAll t (lastState a0 steps) steps) reqs2 = some steps2 ∧
      ∀ st ∈ steps2, st.sysRequested = false ∧ st.ptr.map Ptr.block = some B := by
  have hsame' : ∀ st ∈ steps, ∃ p, st.ptr = some p ∧ p.block = B := by
    intro st hst
    have := hsame st hst
    cases hp : st.ptr with
    | none => rw [hp] at this; cases this
    | some p => rw [hp] at this; exact ⟨p, rfl, Option.some.inj this⟩
  obtain ⟨steps2, h1, h2⟩ :=
    block_reuse_core t a0 reqs steps B hwf hsz hrun hsame' hfreed hfull reqs2 hsizes
  refine ⟨steps2, h1, ?_⟩
  intro st hst
  obtain ⟨g1, p, g2, g3⟩ := h2 st hst
  exact ⟨g1, by rw [g2, Option.map_some', g3]⟩

/-- C7, amended, at two requests of 3984 bytes that fill a block: the repeated
run is served without the system even when the system has no memory. -/
theorem block_reuse_when_cursor_resets_witness :
    (MemoryAllocator.init.WF ∧
        (∀ q ∈ fullRequests, q.1 + sizeofHeader .lp64 ≤ BLOCK_SIZE) ∧
        allocSeq .lp64 MemoryAllocator.init fullRequests = some fullRound ∧
        (∀ st ∈ fullRound, st.ptr.map Ptr.block = some 0) ∧
        (∀ b ∈ (freeAll .lp64 (lastState MemoryAllocator.init fullRound) fullRound).blocks,
          b.addr = 0 → b.used = 0) ∧
        (∀ q ∈ fullRequests.head?,
          headShort (freeAll .lp64 (lastState MemoryAllocator.init fullRound) fullRound)
            (q.1 + sizeofHeader .lp64)) ∧
        [(3984, false), (3984, false)].map Prod.fst = fullRequests.map Prod.fst) ∧
      ∃ steps2,
        allocSeq .lp64 (freeAll .lp64 (lastState MemoryAllocator.init fullRound) fullRound)
          [(3984, false), (3984, false)] = some steps2 ∧
        ∀ st ∈ steps2, st.sysRequested = false ∧ st.ptr.map Ptr.block = some 0 :=
  ⟨⟨init_wf, by decide, by decide, by decide, by decide, by decide, by decide⟩,
    block_reuse_when_cursor_resets .lp64 MemoryAllocator.init fullRequests fullRound 0 init_wf
      (by decide) (by decide) (by decide) (by decide) (by decide)
      [(3984, false), (3984, false)] (by decide)⟩

/-- C7 as stated fails: the requests of 984 and 5984 bytes are served from one
block of a new allocator; after both are freed the block has `used == 0` but
its cursor still stands at 7000.  In the repeated run the first request fits
behind the cursor, so the cursor is not reset, and the second request makes
`alloc` ask the system for a new block. -/
theorem reuse_requests_new_block :
    allocSeq .lp64 MemoryAllocator.init splitRequests = some splitRound ∧
      splitRound.map (fun st => st.ptr.map Ptr.block) = [some 0, some 0] ∧
      splitFreed.blocks.map Block.used = [0] ∧
      splitFreed.blocks.map Block.pos = [7000] ∧
      (allocSeq .lp64 splitFreed splitRequests).map (List.map AllocStep.sysRequested)
        = some [false, true] := by
  decide

/-- C8 at the allocator `splitFreed` (one block, `used == 0`, 1000 bytes behind
the cursor) and a request of 5984 bytes: the reuse path. -/
theorem alloc_decision_witness :
    (splitFreed.WF ∧ 5984 + sizeofHeader .lp64 ≤ BLOCK_SIZE) ∧
      ∃ st, splitFreed.alloc .lp64 5984 true = some st ∧ st.sysRequested = false :=
  ⟨⟨by decide, by decide⟩, by
    obtain ⟨st, h1, h2, _⟩ := alloc_decision .lp64 splitFreed 5984 true (by decide) (by decide)
    refine ⟨st, h1, ?_⟩
    cases hr : st.sysRequested with
    | false => rfl
    | true =>
      have := (h2.mp hr).2
      exact absurd this (by decide)⟩

/-! ## The clip invariant (`_updateWorkRegion`, `_setClipDefaults`) -/

/-- The bounding box of a list lies inside every box that contains the start
box and the list. -/
theorem boundingBox_least (bs : List Box) (acc other : Box) (hacc : acc.Inside other)
    (hbs : ∀ b ∈ bs, b.Inside other) : (boundingBox acc bs).Inside other := by
  induction bs generalizing acc with
  | nil => simpa [boundingBox] using hacc
  | cons x xs ih =>
    simp only [boundingBox]
    apply ih
    · have hx := hbs x (by simp)
      simp only [Box.Inside] at hacc hx ⊢
      simp only [le_min_iff, max_le_iff]
      omega
    · intro b hb
      exact hbs b (by simp [hb])

/-- The extents of a region are the bounding box of its rectangles. -/
theorem extents_isBoundingBox (g : Region) : IsBoundingBox g.extents g.rects := by
  refine ⟨?_, extents_spec g, ?_⟩
  · intro h
    simp [Region.extents, h]
  · intro hne other hall
    unfold Region.extents
    cases hg : g.rects with
    | nil => exact absurd hg hne
    | cons x xs =>
      simp only
      rw [hg] at hall
      exact boundingBox_least xs x other (hall x (by simp)) (fun b hb => hall b (by simp [hb]))

/-- The clip invariant does not look at the reference count. -/
theorem clipOK_refCount (layer : RasterPaintLayer) (c : RasterPaintClipState) (n : Nat) :
    ClipOK layer { c with refCount := n } ↔ ClipOK layer c := Iff.rfl

/-- The rectangles of `translateAndClip` lie inside the clip box. -/
theorem translateAndClip_inside (src : Region) (pt : Point) (box : Box) :
    ∀ b ∈ (Region.translateAndClip src pt box).rects, b.Inside box := by
  intro b hb
  simp only [Region.translateAndClip, List.mem_filter, List.mem_map] at hb
  obtain ⟨⟨x, _, rfl⟩, _⟩ := hb
  exact box_intersect_inside_right _ _

/-- The rectangles of `intersectAndClip` lie inside the clip box. -/
theorem intersectAndClip_inside (a b : Region) (box : Box) :
    ∀ x ∈ (Region.intersectAndClip a b box).rects, x.Inside box := by
  intro x hx
  simp only [Region.intersectAndClip, List.mem_filter, List.mem_map] at hx
  obtain ⟨⟨y, _, rfl⟩, _⟩ := hx
  exact box_intersect_inside_right _ _

/-- The extents of a region whose rectangles lie inside a box with non-negative
corner lie inside that box. -/
theorem extents_inside (g : Region) (w h : Int) (hw : 0 ≤ w) (hh : 0 ≤ h)
    (hall : ∀ b ∈ g.rects, b.Inside ⟨0, 0, w, h⟩) : g.extents.Inside ⟨0, 0, w, h⟩ := by
  obtain ⟨h1, _, h3⟩ := extents_isBoundingBox g
  by_cases hg : g.rects = []
  · rw [h1 hg]
    simp only [Box.Inside]
    omega
  · exact h3 hg _ hall

/-- What `_resetPatternRasterPaintContext` leaves alone. -/
theorem resetPattern_frame (e : RasterPaintEngine) :
    (e._resetPatternRasterPaintContext).clipObjs = e.clipObjs ∧
      (e._resetPatternRasterPaintContext).capsObjs = e.capsObjs ∧
      (e._resetPatternRasterPaintContext).ctxClipState = e.ctxClipState ∧
      (e._resetPatternRasterPaintContext).ctxCapsState = e.ctxCapsState ∧
      (e._resetPatternRasterPaintContext).main = e.main ∧
      (e._resetPatternRasterPaintContext).states = e.states := by
  unfold RasterPaintEngine._resetPatternRasterPaintContext
  cases e.ctxPctx with
  | none => exact ⟨rfl, rfl, rfl, rfl, rfl, rfl⟩
  | some p =>
    simp only
    split_ifs <;> exact ⟨rfl, rfl, rfl, rfl, rfl, rfl⟩

/-- What `_updateTransform` leaves alone: it writes one caps state, through
`ctx.capsState`, and may release the pattern context. -/
theorem updateTransform_frame (K : PaintEnv) (e : RasterPaintEngine) (b : Bool) :
    (e._updateTransform K b).clipObjs = e.clipObjs ∧
      (∃ c, (e._updateTransform K b).capsObjs = e.capsObjs.set e.ctxCapsState c) ∧
      (e._updateTransform K b).ctxClipState = e.ctxClipState ∧
      (e._updateTransform K b).ctxCapsState = e.ctxCapsState ∧
      (e._updateTransform K b).main = e.main ∧
      (e._updateTransform K b).states = e.states := by
  unfold RasterPaintEngine._updateTransform
  simp only
  generalize hc : RasterPaintEngine.setCaps e _ = e1
  have h1 : e1.clipObjs = e.clipObjs ∧ (∃ c, e1.capsObjs = e.capsObjs.set e.ctxCapsState c) ∧
      e1.ctxClipState = e.ctxClipState ∧ e1.ctxCapsState = e.ctxCapsState ∧
      e1.main = e.main ∧ e1.states = e.states := by
    rw [← hc]
    exact ⟨rfl, ⟨_, rfl⟩, rfl, rfl, rfl, rfl⟩
  obtain ⟨r1, r2, r3, r4, r5, r6⟩ := resetPattern_frame e1
  cases e1.ctxPctx with
  | none => exact h1
  | some p =>
    simp only
    split_ifs
    · rw [r1, r2, r3, r4, r5, r6]; exact h1
    · exact h1

/-- The clip state written by `_updateWorkRegion` satisfies the clip invariant,
whatever the clip state it started from. -/
theorem updateWorkRegion_clip (K : PaintEnv) (e : RasterPaintEngine)
    (hw : 0 ≤ e.main.width) (hh : 0 ≤ e.main.height) :
    ∃ c, ClipOK e.main c ∧ (e._updateWorkRegion K).clipObjs = e.clipObjs.set e.ctxClipState c ∧
      (e._updateWorkRegion K).ctxClipState = e.ctxClipState ∧
      (e._updateWorkRegion K).main = e.main ∧ (e._updateWorkRegion K).states = e.states := by
  have hfin : ∀ (c : RasterPaintClipState) (P : Prop) [Decidable P], ClipOK e.main c →
      ∃ c', ClipOK e.main c' ∧
        (if P then (e.setClip c)._updateTransform K true else e.setClip c).clipObjs
          = e.clipObjs.set e.ctxClipState c' ∧
        (if P then (e.setClip c)._updateTransform K true else e.setClip c).ctxClipState
          = e.ctxClipState ∧
        (if P then (e.setClip c)._updateTransform K true else e.setClip c).main = e.main ∧
        (if P then (e.setClip c)._updateTransform K true else e.setClip c).states
          = e.states := by
    intro c P _ hc
    refine ⟨c, hc, ?_⟩
    by_cases hP : P
    · obtain ⟨h1, _, h3, _, h5, h6⟩ := updateTransform_frame K (e.setClip c) true
      simp only [hP, ite_true]
      exact ⟨h1, h3, h5, h6⟩
    · simp only [hP, ite_false]
      exact ⟨rfl, rfl, rfl, rfl⟩
  unfold RasterPaintEngine._updateWorkRegion
  simp only
  generalize e.clip = c0
  cases hm : c0.metaRegionUsed <;> cases hu : c0.userRegionUsed <;>
    simp only [Bool.or_false, Bool.or_true, Bool.or_self, Bool.false_eq_true, ite_false,
      ite_true, Bool.false_and, Bool.true_and, decide_eq_true_eq] <;>
    apply hfin
  · -- no region in use
    exact ⟨fun _ => ⟨rfl, rfl⟩, fun h => absurd ⟨rfl, rfl⟩ h⟩
  · -- user region only
    refine ⟨fun h => by simp at h, fun _ => ⟨extents_isBoundingBox _, by simp, ?_⟩⟩
    exact extents_inside _ _ _ hw hh (translateAndClip_inside _ _ _)
  · -- meta region only
    refine ⟨fun h => by simp at h, fun _ => ⟨extents_isBoundingBox _, by simp, ?_⟩⟩
    exact extents_inside _ _ _ hw hh (translateAndClip_inside _ _ _)
  · -- both
    refine ⟨fun h => by simp at h, fun _ => ⟨extents_isBoundingBox _, by simp, ?_⟩⟩
    exact extents_inside _ _ _ hw hh (intersectAndClip_inside _ _ _)

/-- The invariant of the whole table gives the invariant of the other objects. -/
theorem othersOK_of_inv (e : RasterPaintEngine) (h : EngineClipInv e) : OthersOK e :=
  ⟨h.1, fun _ c hc _ => h.2 c (List.mem_iff_getElem?.mpr ⟨_, hc⟩)⟩

/-- Writes through `ctx.clipState`, and changes outside the clip table, keep the
other clip states as they are. -/
theorem othersOK_step (e e1 : RasterPaintEngine) (h : OthersOK e) (hm : e1.main = e.main)
    (hp : e1.ctxClipState = e.ctxClipState)
    (ho : e1.clipObjs = e.clipObjs ∨ ∃ c, e1.clipObjs = e.clipObjs.set e.ctxClipState c) :
    OthersOK e1 := by
  rcases ho with ho | ⟨c, ho⟩
  · exact ⟨by rw [hp, ho]; exact h.1, fun i c hc hi => by
      rw [hm]; rw [ho] at hc; rw [hp] at hi; exact h.2 i c hc hi⟩
  · refine ⟨by rw [hp, ho, List.length_set]; exact h.1, fun i x hx hi => ?_⟩
    rw [hm]; rw [hp] at hi
    rw [ho, List.getElem?_set_ne (fun hh => hi hh.symm)] at hx
    exact h.2 i x hx hi

/-- Once the object behind `ctx.clipState` satisfies the invariant, the whole
table does. -/
theorem inv_of_othersOK (e e1 : RasterPaintEngine) (h : OthersOK e) (hm : e1.main = e.main)
    (hp : e1.ctxClipState = e.ctxClipState) (c : RasterPaintClipState) (hc : ClipOK e.main c)
    (ho : e1.clipObjs = e.clipObjs.set e.ctxClipState c) : EngineClipInv e1 := by
  refine ⟨by rw [hp, ho, List.length_set]; exact h.1, fun x hx => ?_⟩
  rw [hm]
  obtain ⟨i, hi⟩ := List.mem_iff_getElem?.mp hx
  rw [ho, List.getElem?_set] at hi
  by_cases hic : e.ctxClipState = i
  · rw [if_pos hic, if_pos h.1] at hi
    rw [← Option.some.inj hi]; exact hc
  · rw [if_neg hic] at hi
    exact h.2 i x hi (fun hh => hic hh.symm)

/-- Dropping a reference to a clip state keeps the invariant of the other
objects. -/
theorem othersOK_derefClip (e : RasterPaintEngine) (p : Nat) (h : OthersOK e) :
    OthersOK (e._derefClipState p) := by
  refine ⟨by simp only [RasterPaintEngine._derefClipState, List.length_set]; exact h.1,
    fun i c hc hi => ?_⟩
  simp only [RasterPaintEngine._derefClipState] at hc hi ⊢
  rw [List.getElem?_set] at hc
  by_cases hpi : p = i
  · rw [if_pos hpi] at hc
    by_cases hpl : p < e.clipObjs.length
    · rw [if_pos hpl] at hc
      rw [← Option.some.inj hc, clipOK_refCount]
      have hget : e.clipObjs[i]? = some (readObj e.clipObjs p) := by
        subst hpi
        simp [readObj, List.getD_eq_getElem?_getD, List.getElem?_eq_getElem hpl]
      exact h.2 i _ hget hi
    · rw [if_neg hpl] at hc; cases hc
  · rw [if_neg hpi] at hc
    exact h.2 i c hc hi

/-- Dropping a reference to a clip state keeps the clip invariant. -/
theorem inv_derefClip (e : RasterPaintEngine) (p : Nat) (h : EngineClipInv e) :
    EngineClipInv (e._derefClipState p) := by
  refine ⟨by simp only [RasterPaintEngine._derefClipState, List.length_set]; exact h.1,
    fun c hc => ?_⟩
  simp only [RasterPaintEngine._derefClipState] at hc ⊢
  by_cases hpl : p < e.clipObjs.length
  · rcases List.mem_or_eq_of_mem_set hc with hc | rfl
    · exact h.2 c hc
    · rw [clipOK_refCount]
      apply h.2
      simp only [readObj, List.getD_eq_getElem?_getD, List.getElem?_eq_getElem hpl,
        Option.getD_some]
      exact List.getElem_mem hpl
  · rw [List.set_eq_of_length_le (by omega)] at hc
    exact h.2 c hc

/-- The copy-on-write of the clip state keeps the clip invariant. -/
theorem inv_detachClip (e : RasterPaintEngine) (ok : Bool) (h : EngineClipInv e) :
    EngineClipInv (e._detachClipState ok).2 := by
  unfold RasterPaintEngine._detachClipState
  split_ifs with h1 h2
  · exact h
  · exact h
  · simp only
    apply inv_derefClip
    refine ⟨by simp, fun c hc => ?_⟩
    simp only [List.mem_append, List.mem_singleton] at hc
    rcases hc with hc | rfl
    · exact h.2 c hc
    · rw [clip_copy_eq, clipOK_refCount]
      apply h.2
      simp only [RasterPaintEngine.clip, readObj, List.getD_eq_getElem?_getD,
        List.getElem?_eq_getElem h.1, Option.getD_some]
      exact List.getElem_mem h.1

/-- The copy-on-write of the clip state keeps the layer. -/
theorem detachClip_main (e : RasterPaintEngine) (ok : Bool) :
    (e._detachClipState ok).2.main = e.main := by
  unfold RasterPaintEngine._detachClipState
  split_ifs <;> rfl

/-- What the copy-on-write of the caps state leaves alone. -/
theorem detachCaps_frame (e : RasterPaintEngine) (ok : Bool) :
    (e._detachCapsState ok).2.main = e.main ∧
      (e._detachCapsState ok).2.clipObjs = e.clipObjs ∧
      (e._detachCapsState ok).2.ctxClipState = e.ctxClipState := by
  unfold RasterPaintEngine._detachCapsState
  split_ifs <;> exact ⟨rfl, rfl, rfl⟩

/-- After `_updateWorkRegion` the whole clip table satisfies the invariant, if
the objects other than the current one did before. -/
theorem inv_updateWorkRegion (K : PaintEnv) (e : RasterPaintEngine) (h : OthersOK e)
    (hw : 0 ≤ e.main.width) (hh : 0 ≤ e.main.height) :
    EngineClipInv (e._updateWorkRegion K) ∧ (e._updateWorkRegion K).main = e.main := by
  obtain ⟨c, hc, h1, h2, h3, _⟩ := updateWorkRegion_clip K e hw hh
  exact ⟨inv_of_othersOK e _ h h3 h2 c hc h1, h3⟩

/-- A write through `ctx.clipState` followed by `_updateWorkRegion` keeps the
clip invariant. -/
theorem inv_set_update (K : PaintEnv) (e : RasterPaintEngine) (c : RasterPaintClipState)
    (h : EngineClipInv e) (hw : 0 ≤ e.main.width) (hh : 0 ≤ e.main.height) :
    EngineClipInv ((e.setClip c)._updateWorkRegion K) ∧
      ((e.setClip c)._updateWorkRegion K).main = e.main :=
  inv_updateWorkRegion K (e.setClip c)
    (othersOK_step e _ (othersOK_of_inv e h) rfl rfl (Or.inr ⟨c, rfl⟩)) hw hh

/-- The common shape of the clip setters: detach, write, `_updateWorkRegion`. -/
theorem inv_detach_update (K : PaintEnv) (e : RasterPaintEngine) (ok : Bool)
    (f : RasterPaintClipState → RasterPaintClipState)
    (h : EngineClipInv e) (hw : 0 ≤ e.main.width) (hh : 0 ≤ e.main.height) :
    EngineClipInv (match e._detachClipState ok with
      | (none, e1) => e1
      | (some _, e1) => (e1.setClip (f e1.clip))._updateWorkRegion K) ∧
    (match e._detachClipState ok with
      | (none, e1) => e1
      | (some _, e1) => (e1.setClip (f e1.clip))._updateWorkRegion K).main = e.main := by
  have h1 := inv_detachClip e ok h
  have h2 := detachClip_main e ok
  cases hd : e._detachClipState ok with
  | mk r e1 =>
    rw [hd] at h1 h2
    simp only at h1 h2
    cases r with
    | none => exact ⟨h1, h2⟩
    | some p =>
      have h3 := inv_set_update K e1 (f e1.clip) h1 (by rw [h2]; exact hw) (by rw [h2]; exact hh)
      exact ⟨h3.1, h3.2.trans h2⟩

/-- Releasing one saved state keeps the invariant of the other clip states and
the layer. -/
theorem othersOK_releaseStoredState (e : RasterPaintEngine) (s : RasterPaintStoredState)
    (h : OthersOK e) :
    OthersOK (e.releaseStoredState s) ∧ (e.releaseStoredState s).main = e.main := by
  have h1 := othersOK_derefClip e s.clipState h
  have h2 : OthersOK ((e._derefClipState s.clipState)._derefCapsState s.capsState) :=
    othersOK_step _ _ h1 rfl rfl (Or.inl rfl)
  unfold RasterPaintEngine.releaseStoredState
  cases s.pctx with
  | none => exact ⟨h2, rfl⟩
  | some p =>
    simp only
    split_ifs
    · exact ⟨othersOK_step _ _ h2 rfl rfl (Or.inl rfl), rfl⟩
    · exact ⟨othersOK_step _ _ h2 rfl rfl (Or.inl rfl), rfl⟩

/-- The function `_deleteStates` keeps the invariant of the other clip states
and the layer. -/
theorem othersOK_deleteStates (e : RasterPaintEngine) (h : OthersOK e) :
    OthersOK e._deleteStates ∧ e._deleteStates.main = e.main := by
  have key : ∀ (l : List RasterPaintStoredState) (acc : RasterPaintEngine), OthersOK acc →
      OthersOK (l.foldl RasterPaintEngine.releaseStoredState acc) ∧
        (l.foldl RasterPaintEngine.releaseStoredState acc).main = acc.main := by
    intro l
    induction l with
    | nil => intro acc hacc; exact ⟨hacc, rfl⟩
    | cons s rest ih =>
      intro acc hacc
      obtain ⟨r1, r2⟩ := othersOK_releaseStoredState acc s hacc
      obtain ⟨r3, r4⟩ := ih _ r1
      exact ⟨r3, r4.trans r2⟩
  unfold RasterPaintEngine._deleteStates
  split_ifs
  · exact ⟨h, rfl⟩
  · obtain ⟨r1, r2⟩ := key e.states e h
    exact ⟨othersOK_step _ _ r1 rfl rfl (Or.inl rfl), r2⟩

/-- The function `setMetaVariables` keeps the clip invariant. -/
theorem inv_setMetaVariables (K : PaintEnv) (e : RasterPaintEngine) (metaOrigin : Point)
    (metaRegion : Region) (useMetaRegion reset allocClip allocCaps : Bool)
    (h : EngineClipInv e) (hw : 0 ≤ e.main.width) (hh : 0 ≤ e.main.height) :
    EngineClipInv (e.setMetaVariables K metaOrigin metaRegion useMetaRegion reset
      allocClip allocCaps) ∧
    (e.setMetaVariables K metaOrigin metaRegion useMetaRegion reset
      allocClip allocCaps).main = e.main := by
  unfold RasterPaintEngine.setMetaVariables
  have h1 := inv_detachClip e allocClip h
  have h2 := detachClip_main e allocClip
  cases hd : e._detachClipState allocClip with
  | mk r e1 =>
    rw [hd] at h1 h2
    simp only at h1 h2
    cases r with
    | none => exact ⟨h1, h2⟩
    | some p =>
      simp only
      have hw1 : 0 ≤ e1.main.width := by rw [h2]; exact hw
      have hh1 : 0 ≤ e1.main.height := by rw [h2]; exact hh
      cases reset with
      | false =>
        have h3 := fun c => inv_set_update K e1 c h1 hw1 hh1
        exact ⟨(h3 _).1, (h3 _).2.trans h2⟩
      | true =>
        simp only [ite_true]
        have s1 : ∀ c, OthersOK (e1.setClip c) ∧ (e1.setClip c).main = e1.main := fun c =>
          ⟨othersOK_step e1 _ (othersOK_of_inv e1 h1) rfl rfl (Or.inr ⟨c, rfl⟩), rfl⟩
        generalize hg2 : RasterPaintEngine.setClip e1 _ = e2
        obtain ⟨s2, m2⟩ : OthersOK e2 ∧ e2.main = e1.main := hg2 ▸ s1 _
        obtain ⟨s3, m3⟩ := othersOK_deleteStates e2 s2
        generalize e2._deleteStates = a1 at s3 m3 ⊢
        have s4 : ∀ c, OthersOK (a1.setClip c) ∧ (a1.setClip c).main = a1.main := fun c =>
          ⟨othersOK_step a1 _ s3 rfl rfl (Or.inr ⟨c, rfl⟩), rfl⟩
        generalize hg3 : RasterPaintEngine.setClip a1 _ = a2
        obtain ⟨s5, m5⟩ : OthersOK a2 ∧ a2.main = a1.main := hg3 ▸ s4 _
        obtain ⟨f1, f2, f3⟩ := detachCaps_frame a2 allocCaps
        cases hd2 : a2._detachCapsState allocCaps with
        | mk r2 a3 =>
          rw [hd2] at f1 f2 f3
          simp only at f1 f2 f3
          have s6 : OthersOK a3 := othersOK_step a2 a3 s5 f1 f3 (Or.inl f2)
          have m6 : a3.main = e.main := by rw [f1, m5, m3, m2, h2]
          cases r2 with
          | none =>
            have h3 := inv_updateWorkRegion K a3 s6 (by rw [m6]; exact hw) (by rw [m6]; exact hh)
            exact ⟨h3.1, h3.2.trans m6⟩
          | some q =>
            simp only
            have s7 : OthersOK (a3._setCapsDefaults K) :=
              othersOK_step a3 _ s6 rfl rfl (Or.inl rfl)
            have m7 : (a3._setCapsDefaults K).main = e.main := m6
            have h3 := inv_updateWorkRegion K _ s7 (by rw [m7]; exact hw) (by rw [m7]; exact hh)
            exact ⟨h3.1, h3.2.trans m7⟩

/-- The engine built by the constructor satisfies the clip invariant. -/
theorem inv_create (K : PaintEnv) (layer : RasterPaintLayer) :
    EngineClipInv (RasterPaintEngine.create K layer) := by
  refine ⟨by simp [RasterPaintEngine.create, RasterPaintEngine._setClipDefaults,
    RasterPaintEngine._setCapsDefaults, RasterPaintEngine.setClip, RasterPaintEngine.setCaps], ?_⟩
  intro c hc
  simp only [RasterPaintEngine.create, RasterPaintEngine._setClipDefaults,
    RasterPaintEngine._setCapsDefaults, RasterPaintEngine.setClip, RasterPaintEngine.setCaps,
    RasterPaintEngine.clip, readObj, List.set_cons_zero, List.mem_singleton,
    List.getD_cons_zero] at hc
  subst hc
  exact ⟨fun _ => ⟨rfl, rfl⟩, fun h => absurd ⟨rfl, rfl⟩ h⟩

/-- Every clip-mutating operation keeps the clip invariant and the layer. -/
theorem inv_setMetaOrigin (K : PaintEnv) (e : RasterPaintEngine) (pt : Point) (ok : Bool)
    (h : EngineClipInv e) (hw : 0 ≤ e.main.width) (hh : 0 ≤ e.main.height) :
    EngineClipInv (e.setMetaOrigin K pt ok) ∧ (e.setMetaOrigin K pt ok).main = e.main := by
  unfold RasterPaintEngine.setMetaOrigin
  split
  · exact ⟨h, rfl⟩
  · exact inv_detach_update K e ok (fun c => { c with metaOrigin := pt }) h hw hh

/-- The function `setUserOrigin` keeps the clip invariant and the layer. -/
theorem inv_setUserOrigin (K : PaintEnv) (e : RasterPaintEngine) (pt : Point) (ok : Bool)
    (h : EngineClipInv e) (hw : 0 ≤ e.main.width) (hh : 0 ≤ e.main.height) :
    EngineClipInv (e.setUserOrigin K pt ok) ∧ (e.setUserOrigin K pt ok).main = e.main := by
  unfold RasterPaintEngine.setUserOrigin
  split
  · exact ⟨h, rfl⟩
  · exact inv_detach_update K e ok (fun c => { c with userOrigin := pt }) h hw hh

/-- The function `translateMetaOrigin` keeps the clip invariant and the layer. -/
theorem inv_translateMetaOrigin (K : PaintEnv) (e : RasterPaintEngine) (pt : Point) (ok : Bool)
    (h : EngineClipInv e) (hw : 0 ≤ e.main.width) (hh : 0 ≤ e.main.height) :
    EngineClipInv (e.translateMetaOrigin K pt ok) ∧
      (e.translateMetaOrigin K pt ok).main = e.main := by
  unfold RasterPaintEngine.translateMetaOrigin
  split
  · exact ⟨h, rfl⟩
  · exact inv_detach_update K e ok (fun c => { c with metaOrigin := c.metaOrigin.add pt }) h hw hh

/-- The function `translateUserOrigin` keeps the clip invariant and the layer. -/
theorem inv_translateUserOrigin (K : PaintEnv) (e : RasterPaintEngine) (pt : Point) (ok : Bool)
    (h : EngineClipInv e) (hw : 0 ≤ e.main.width) (hh : 0 ≤ e.main.height) :
    EngineClipInv (e.translateUserOrigin K pt ok) ∧
      (e.translateUserOrigin K pt ok).main = e.main := by
  unfold RasterPaintEngine.translateUserOrigin
  split
  · exact ⟨h, rfl⟩
  · exact inv_detach_update K e ok (fun c => { c with userOrigin := c.userOrigin.add pt }) h hw hh

/-- The function `setUserRegion(const Rect&)` keeps the clip invariant and the layer. -/
theorem inv_setUserRegion (K : PaintEnv) (e : RasterPaintEngine) (r : Rect) (ok : Bool)
    (h : EngineClipInv e) (hw : 0 ≤ e.main.width) (hh : 0 ≤ e.main.height) :
    EngineClipInv (e.setUserRegion K r ok) ∧ (e.setUserRegion K r ok).main = e.main :=
  inv_detach_update K e ok
    (fun c => { c with userRegion := Region.ofRect r, userRegionUsed := true }) h hw hh

/-- The function `setUserRegion(const Region&)` keeps the clip invariant and the layer. -/
theorem inv_setUserRegionR (K : PaintEnv) (e : RasterPaintEngine) (r : Region) (ok : Bool)
    (h : EngineClipInv e) (hw : 0 ≤ e.main.width) (hh : 0 ≤ e.main.height) :
    EngineClipInv (e.setUserRegionR K r ok) ∧ (e.setUserRegionR K r ok).main = e.main :=
  inv_detach_update K e ok (fun c => { c with userRegion := r, userRegionUsed := true }) h hw hh

/-- The function `resetMetaVars` keeps the clip invariant and the layer. -/
theorem inv_resetMetaVars (K : PaintEnv) (e : RasterPaintEngine) (ok : Bool)
    (h : EngineClipInv e) (hw : 0 ≤ e.main.width) (hh : 0 ≤ e.main.height) :
    EngineClipInv (e.resetMetaVars K ok) ∧ (e.resetMetaVars K ok).main = e.main :=
  inv_detach_update K e ok
    (fun c => { c with metaOrigin := ⟨0, 0⟩, metaRegion := ⟨[]⟩, metaRegionUsed := false }) h hw hh

/-- The function `resetUserVars` keeps the clip invariant and the layer. -/
theorem inv_resetUserVars (K : PaintEnv) (e : RasterPaintEngine) (ok : Bool)
    (h : EngineClipInv e) (hw : 0 ≤ e.main.width) (hh : 0 ≤ e.main.height) :
    EngineClipInv (e.resetUserVars K ok) ∧ (e.resetUserVars K ok).main = e.main :=
  inv_detach_update K e ok
    (fun c => { c with userOrigin := ⟨0, 0⟩, userRegion := ⟨[]⟩, userRegionUsed := false }) h hw hh

/-- The current clip state of an engine with the clip invariant satisfies it. -/
theorem clipOK_current (e : RasterPaintEngine) (h : EngineClipInv e) : ClipOK e.main e.clip := by
  apply h.2
  simp only [RasterPaintEngine.clip, readObj, List.getD_eq_getElem?_getD,
    List.getElem?_eq_getElem h.1, Option.getD_some]
  exact List.getElem_mem h.1

/-! ## The save stack and the clip table -/

/-- Saved clip pointers stay valid when the table does not shrink and the stack
gets no new entry. -/
theorem stackOK_of_kept {e e1 : RasterPaintEngine} (h : StackOK e) (k : StackKept e e1) :
    StackOK e1 :=
  fun s hs => lt_of_lt_of_le (h s (k.2 s hs)) k.1

/-- An engine keeps its own table and stack. -/
theorem stackKept_refl (e : RasterPaintEngine) : StackKept e e :=
  ⟨le_refl _, fun _ h => h⟩

/-- Keeping the table and the stack composes. -/
theorem stackKept_trans {a b c : RasterPaintEngine} (h1 : StackKept a b) (h2 : StackKept b c) :
    StackKept a c :=
  ⟨le_trans h1.1 h2.1, fun s hs => h1.2 s (h2.2 s hs)⟩

/-- A step that keeps the length of the clip table and the stack. -/
theorem stackKept_of_eq (e e1 : RasterPaintEngine)
    (hl : e1.clipObjs.length = e.clipObjs.length) (hs : e1.states = e.states) :
    StackKept e e1 :=
  ⟨by rw [hl], fun s h => by rw [hs] at h; exact h⟩

/-- The copy-on-write of the clip state keeps the table and the stack. -/
theorem stackKept_detachClip (e : RasterPaintEngine) (ok : Bool) :
    StackKept e (e._detachClipState ok).2 := by
  unfold RasterPaintEngine._detachClipState
  split_ifs
  · exact stackKept_refl e
  · exact stackKept_refl e
  · refine ⟨?_, fun s h => h⟩
    simp [RasterPaintEngine._derefClipState]

/-- The copy-on-write of the caps state keeps the clip table and the stack. -/
theorem stackKept_detachCaps (e : RasterPaintEngine) (ok : Bool) :
    StackKept e (e._detachCapsState ok).2 := by
  unfold RasterPaintEngine._detachCapsState
  split_ifs
  · exact stackKept_refl e
  · exact stackKept_refl e
  · exact ⟨le_refl _, fun s h => h⟩

/-- The function `_updateWorkRegion` keeps the length of the clip table and the
stack. -/
theorem stackKept_updateWorkRegion (K : PaintEnv) (e : RasterPaintEngine) :
    StackKept e (e._updateWorkRegion K) := by
  have hfin : ∀ (c : RasterPaintClipState) (P : Prop) [Decidable P],
      StackKept e (if P then (e.setClip c)._updateTransform K true else e.setClip c) := by
    intro c P _
    by_cases hP : P
    · obtain ⟨h1, _, _, _, _, h6⟩ := updateTransform_frame K (e.setClip c) true
      simp only [hP, ite_true]
      exact stackKept_of_eq _ _ (by rw [h1]; simp [RasterPaintEngine.setClip]) (by rw [h6]; rfl)
    · simp only [hP, ite_false]
      exact stackKept_of_eq _ _ (by simp [RasterPaintEngine.setClip]) rfl
  unfold RasterPaintEngine._updateWorkRegion
  exact hfin _ _

/-- Releasing a saved state keeps the length of the clip table. -/
theorem releaseStoredState_length (e : RasterPaintEngine) (s : RasterPaintStoredState) :
    (e.releaseStoredState s).clipObjs.length = e.clipObjs.length := by
  unfold RasterPaintEngine.releaseStoredState
  cases s.pctx with
  | none => simp [RasterPaintEngine._derefClipState, RasterPaintEngine._derefCapsState]
  | some p =>
    simp only
    split_ifs <;> simp [RasterPaintEngine._derefClipState, RasterPaintEngine._derefCapsState]

/-- The function `_deleteStates` keeps the length of the clip table and leaves
no new entry on the stack. -/
theorem stackKept_deleteStates (e : RasterPaintEngine) : StackKept e e._deleteStates := by
  have key : ∀ (l : List RasterPaintStoredState) (acc : RasterPaintEngine),
      (l.foldl RasterPaintEngine.releaseStoredState acc).clipObjs.length
        = acc.clipObjs.length := by
    intro l
    induction l with
    | nil => intro acc; rfl
    | cons s rest ih =>
      intro acc
      rw [List.foldl_cons, ih, releaseStoredState_length]
  unfold RasterPaintEngine._deleteStates
  split_ifs
  · exact stackKept_refl e
  · refine ⟨?_, fun s h => absurd h (List.not_mem_nil _)⟩
    show e.clipObjs.length ≤
      (List.foldl RasterPaintEngine.releaseStoredState e e.states).clipObjs.length
    rw [key]

/-- The common shape of the clip setters keeps the table and the stack. -/
theorem stackKept_detach_update (K : PaintEnv) (e : RasterPaintEngine) (ok : Bool)
    (f : RasterPaintClipState → RasterPaintClipState) :
    StackKept e (match e._detachClipState ok with
      | (none, e1) => e1
      | (some _, e1) => (e1.setClip (f e1.clip))._updateWorkRegion K) := by
  have h1 := stackKept_detachClip e ok
  cases hd : e._detachClipState ok with
  | mk r e1 =>
    rw [hd] at h1
    simp only at h1
    cases r with
    | none => exact h1
    | some p =>
      simp only
      exact stackKept_trans h1 (stackKept_trans
        (stackKept_of_eq e1 (e1.setClip (f e1.clip)) (by simp [RasterPaintEngine.setClip]) rfl)
        (stackKept_updateWorkRegion K _))

/-- The function `setMetaVariables` keeps the table and leaves no new entry on
the stack. -/
theorem stackKept_setMetaVariables (K : PaintEnv) (e : RasterPaintEngine) (metaOrigin : Point)
    (metaRegion : Region) (useMetaRegion reset allocClip allocCaps : Bool) :
    StackKept e (e.setMetaVariables K metaOrigin metaRegion useMetaRegion reset
      allocClip allocCaps) := by
  unfold RasterPaintEngine.setMetaVariables
  have h1 := stackKept_detachClip e allocClip
  have S : ∀ (a : RasterPaintEngine) (c : RasterPaintClipState), StackKept a (a.setClip c) :=
    fun a c => stackKept_of_eq a (a.setClip c) (by simp [RasterPaintEngine.setClip]) rfl
  cases hd : e._detachClipState allocClip with
  | mk r e1 =>
    rw [hd] at h1
    simp only at h1
    cases r with
    | none => exact h1
    | some p =>
      simp only
      refine stackKept_trans h1 ?_
      cases reset with
      | false =>
        exact stackKept_trans (S e1 _) (stackKept_updateWorkRegion K _)
      | true =>
        simp only [ite_true]
        refine stackKept_trans ?_ (stackKept_updateWorkRegion K _)
        generalize hg2 : RasterPaintEngine.setClip e1 _ = e2
        have k2 : StackKept e1 e2 := hg2 ▸ S e1 _
        have k3 := stackKept_deleteStates e2
        generalize e2._deleteStates = a1 at k3 ⊢
        generalize hg3 : RasterPaintEngine.setClip a1 _ = a2
        have k4 : StackKept a1 a2 := hg3 ▸ S a1 _
        have k5 := stackKept_detachCaps a2 allocCaps
        refine stackKept_trans k2 (stackKept_trans k3 (stackKept_trans k4 ?_))
        cases hd2 : a2._detachCapsState allocCaps with
        | mk r2 a3 =>
          rw [hd2] at k5
          simp only at k5
          cases r2 with
          | none => exact k5
          | some q =>
            exact stackKept_trans k5 (stackKept_of_eq a3 (a3._setCapsDefaults K) rfl rfl)

/-- The function `setMetaOrigin` keeps the table and the stack. -/
theorem stackKept_setMetaOrigin (K : PaintEnv) (e : RasterPaintEngine) (pt : Point) (ok : Bool) :
    StackKept e (e.setMetaOrigin K pt ok) := by
  unfold RasterPaintEngine.setMetaOrigin
  split
  · exact stackKept_refl e
  · exact stackKept_detach_update K e ok (fun c => { c with metaOrigin := pt })

/-- The function `setUserOrigin` keeps the table and the stack. -/
theorem stackKept_setUserOrigin (K : PaintEnv) (e : RasterPaintEngine) (pt : Point) (ok : Bool) :
    StackKept e (e.setUserOrigin K pt ok) := by
  unfold RasterPaintEngine.setUserOrigin
  split
  · exact stackKept_refl e
  · exact stackKept_detach_update K e ok (fun c => { c with userOrigin := pt })

/-- The function `translateMetaOrigin` keeps the table and the stack. -/
theorem stackKept_translateMetaOrigin (K : PaintEnv) (e : RasterPaintEngine) (pt : Point)
    (ok : Bool) : StackKept e (e.translateMetaOrigin K pt ok) := by
  unfold RasterPaintEngine.translateMetaOrigin
  split
  · exact stackKept_refl e
  · exact stackKept_detach_update K e ok (fun c => { c with metaOrigin := c.metaOrigin.add pt })

/-- The function `translateUserOrigin` keeps the table and the stack. -/
theorem stackKept_translateUserOrigin (K : PaintEnv) (e : RasterPaintEngine) (pt : Point)
    (ok : Bool) : StackKept e (e.translateUserOrigin K pt ok) := by
  unfold RasterPaintEngine.translateUserOrigin
  split
  · exact stackKept_refl e
  · exact stackKept_detach_update K e ok (fun c => { c with userOrigin := c.userOrigin.add pt })

/-- The function `setUserRegion(const Rect&)` keeps the table and the stack. -/
theorem stackKept_setUserRegion (K : PaintEnv) (e : RasterPaintEngine) (r : Rect) (ok : Bool) :
    StackKept e (e.setUserRegion K r ok) :=
  stackKept_detach_update K e ok
    (fun c => { c with userRegion := Region.ofRect r, userRegionUsed := true })

/-- The function `setUserRegion(const Region&)` keeps the table and the stack. -/
theorem stackKept_setUserRegionR (K : PaintEnv) (e : RasterPaintEngine) (r : Region)
    (ok : Bool) : StackKept e (e.setUserRegionR K r ok) :=
  stackKept_detach_update K e ok (fun c => { c with userRegion := r, userRegionUsed := true })

/-- The function `resetMetaVars` keeps the table and the stack. -/
theorem stackKept_resetMetaVars (K : PaintEnv) (e : RasterPaintEngine) (ok : Bool) :
    StackKept e (e.resetMetaVars K ok) :=
  stackKept_detach_update K e ok
    (fun c => { c with metaOrigin := ⟨0, 0⟩, metaRegion := ⟨[]⟩, metaRegionUsed := false })

/-- The function `resetUserVars` keeps the table and the stack. -/
theorem stackKept_resetUserVars (K : PaintEnv) (e : RasterPaintEngine) (ok : Bool) :
    StackKept e (e.resetUserVars K ok) :=
  stackKept_detach_update K e ok
    (fun c => { c with userOrigin := ⟨0, 0⟩, userRegion := ⟨[]⟩, userRegionUsed := false })

/-- The clip invariant carries over to an engine with the same layer and clip
table and a valid clip pointer. -/
theorem inv_transfer (e e1 : RasterPaintEngine) (h : EngineClipInv e) (hm : e1.main = e.main)
    (ho : e1.clipObjs = e.clipObjs) (hp : e1.ctxClipState < e1.clipObjs.length) :
    EngineClipInv e1 :=
  ⟨hp, fun c hc => by rw [hm]; rw [ho] at hc; exact h.2 c hc⟩

/-- What `save()` does to the clip side: one more reference on the current
clip state, and a new stack entry that points at it. -/
theorem save_frame (e : RasterPaintEngine) :
    ∃ x : Option Nat,
      e.save.clipObjs = e.clipObjs.set e.ctxClipState
        { e.clip with refCount := e.clip.refCount + 1 } ∧
      e.save.ctxClipState = e.ctxClipState ∧ e.save.main = e.main ∧
      e.save.states = e.states ++ [⟨e.ctxClipState, e.ctxCapsState, x⟩] := by
  unfold RasterPaintEngine.save
  cases e.ctxPctx with
  | none => exact ⟨none, rfl, rfl, rfl, rfl⟩
  | some p =>
    simp only
    split_ifs
    · exact ⟨some p, rfl, rfl, rfl, rfl⟩
    · exact ⟨none, rfl, rfl, rfl, rfl⟩

/-- The function `save()` keeps the clip invariant, the validity of the saved
clip pointers and the layer. -/
theorem inv_save (e : RasterPaintEngine) (h : EngineClipInv e) (hs : StackOK e) :
    EngineClipInv e.save ∧ StackOK e.save ∧ e.save.main = e.main := by
  obtain ⟨x, h1, h2, h3, h4⟩ := save_frame e
  have hi : EngineClipInv e.save :=
    inv_of_othersOK e _ (othersOK_of_inv e h) h3 h2 _
      ((clipOK_refCount e.main e.clip _).mpr (clipOK_current e h)) h1
  refine ⟨hi, ?_, h3⟩
  intro s hm
  rw [h4, List.mem_append, List.mem_singleton] at hm
  rw [h1, List.length_set]
  rcases hm with hm | rfl
  · exact hs s hm
  · exact h.1

/-- What `restore()` does to the clip side for a stack with the top `s`: the
current clip state loses a reference, the context points at the saved clip
state, and the top is taken off the stack. -/
theorem restore_frame (e : RasterPaintEngine) (s : RasterPaintStoredState)
    (hs : e.states.getLast? = some s) :
    e.restore.clipObjs = (e._derefClipState e.ctxClipState).clipObjs ∧
      e.restore.ctxClipState = s.clipState ∧ e.restore.main = e.main ∧
      e.restore.states = e.states.dropLast := by
  unfold RasterPaintEngine.restore
  rw [hs]
  simp only
  cases hq : e.ctxPctx with
  | none => simp [RasterPaintEngine._derefClipState, RasterPaintEngine._derefCapsState, hq]
  | some p =>
    simp only [RasterPaintEngine._derefClipState, RasterPaintEngine._derefCapsState, hq]
    split_ifs <;> simp

/-- The function `restore()` keeps the clip invariant, the validity of the
saved clip pointers and the layer. -/
theorem inv_restore (e : RasterPaintEngine) (h : EngineClipInv e) (hs : StackOK e) :
    EngineClipInv e.restore ∧ StackOK e.restore ∧ e.restore.main = e.main := by
  cases hl : e.states.getLast? with
  | none =>
    have he : e.restore = e := by
      unfold RasterPaintEngine.restore
      rw [hl]
    rw [he]
    exact ⟨h, hs, rfl⟩
  | some s =>
    obtain ⟨h1, h2, h3, h4⟩ := restore_frame e s hl
    have hmem : s ∈ e.states := List.mem_of_getLast?_eq_some hl
    have hlen : e.restore.clipObjs.length = e.clipObjs.length := by
      rw [h1]; simp [RasterPaintEngine._derefClipState]
    have hd := inv_derefClip e e.ctxClipState h
    refine ⟨?_, ?_, h3⟩
    · exact inv_transfer (e._derefClipState e.ctxClipState) _ hd h3 h1
        (by rw [h2, hlen]; exact hs s hmem)
    · intro t ht
      rw [h4] at ht
      rw [hlen]
      exact hs t (List.mem_of_mem_dropLast ht)

/-- The function `_createCommand` keeps the clip invariant, the validity of the
saved clip pointers and the layer: the command takes a reference on the
current clip state. -/
theorem inv_createCommand (e : RasterPaintEngineMT) (addr : Option Nat)
    (h : EngineClipInv e.toRasterPaintEngine) (hs : StackOK e.toRasterPaintEngine) :
    EngineClipInv (e._createCommand addr).2.toRasterPaintEngine ∧
      StackOK (e._createCommand addr).2.toRasterPaintEngine ∧
      (e._createCommand addr).2.main = e.main := by
  cases addr with
  | none => exact ⟨h, hs, rfl⟩
  | some command =>
    have hf : (e._createCommand (some command)).2.clipObjs = e.clipObjs.set e.ctxClipState
          { e.clip with refCount := e.clip.refCount + 1 } ∧
        (e._createCommand (some command)).2.ctxClipState = e.ctxClipState ∧
        (e._createCommand (some command)).2.main = e.main ∧
        (e._createCommand (some command)).2.states = e.states := by
      simp only [RasterPaintEngineMT._createCommand]
      split_ifs
      · cases hq : e.ctxPctx with
        | none => simp [RasterPaintEngine.setCaps, RasterPaintEngine.setClip, hq]
        | some p => simp [RasterPaintEngine.setCaps, RasterPaintEngine.setClip, hq]
      · exact ⟨rfl, rfl, rfl, rfl⟩
    obtain ⟨h1, h2, h3, h4⟩ := hf
    have hi : EngineClipInv (e._createCommand (some command)).2.toRasterPaintEngine :=
      inv_of_othersOK e.toRasterPaintEngine _ (othersOK_of_inv _ h) h3 h2 _
        ((clipOK_refCount e.main e.toRasterPaintEngine.clip _).mpr (clipOK_current _ h)) h1
    refine ⟨hi, ?_, h3⟩
    intro s hm
    have hm2 : s ∈ e.states := h4 ▸ hm
    have hl : (e._createCommand (some command)).2.clipObjs.length = e.clipObjs.length := by
      rw [h1, List.length_set]
    exact hl ▸ hs s hm2

/-- The release of a command keeps the clip invariant, the validity of the
saved clip pointers and the layer: the clip state loses a reference. -/
theorem inv_releaseCommand (e : RasterPaintEngineMT)
    (h : EngineClipInv e.toRasterPaintEngine) (hs : StackOK e.toRasterPaintEngine) :
    EngineClipInv e.releaseCommand.toRasterPaintEngine ∧
      StackOK e.releaseCommand.toRasterPaintEngine ∧
      e.releaseCommand.main = e.main := by
  have hf : e.releaseCommand.clipObjs
        = (e.toRasterPaintEngine._derefClipState e.ctxClipState).clipObjs ∧
      e.releaseCommand.ctxClipState = e.ctxClipState ∧
      e.releaseCommand.main = e.main ∧ e.releaseCommand.states = e.states := by
    simp only [RasterPaintEngineMT.releaseCommand]
    split_ifs
    · cases hq : e.ctxPctx with
      | none => simp [RasterPaintEngine._derefClipState, RasterPaintEngine._derefCapsState, hq]
      | some p =>
        simp only [RasterPaintEngine._derefClipState, RasterPaintEngine._derefCapsState, hq]
        split_ifs <;> simp
    · exact ⟨rfl, rfl, rfl, rfl⟩
  obtain ⟨h1, h2, h3, h4⟩ := hf
  have hlen : e.releaseCommand.clipObjs.length = e.clipObjs.length := by
    rw [h1]; simp [RasterPaintEngine._derefClipState]
  have hd := inv_derefClip e.toRasterPaintEngine e.ctxClipState h
  refine ⟨inv_transfer _ _ hd h3 h1 (by rw [h2, hlen]; exact h.1), ?_, h3⟩
  intro s hm
  have hm2 : s ∈ e.states := h4 ▸ hm
  exact hlen ▸ hs s hm2

/-- Every engine reachable by the clip operations, `save()`, `restore()` and
the commands has the layer it was built on, the clip invariant, and valid
saved clip pointers. -/
theorem clipReachable_inv (K : PaintEnv) (layer : RasterPaintLayer) (e : RasterPaintEngine)
    (hr : ClipReachable K layer e) (hw : 0 ≤ layer.width) (hh : 0 ≤ layer.height) :
    e.main = layer ∧ EngineClipInv e ∧ StackOK e := by
  induction hr with
  | create =>
    exact ⟨rfl, inv_create K layer, fun s hs => absurd hs (List.not_mem_nil _)⟩
  | setMetaVariables e o r u x a b _ ih =>
    have h := inv_setMetaVariables K e o r u x a b ih.2.1 (ih.1 ▸ hw) (ih.1 ▸ hh)
    exact ⟨h.2.trans ih.1, h.1,
      stackOK_of_kept ih.2.2 (stackKept_setMetaVariables K e o r u x a b)⟩
  | setMetaOrigin e pt ok _ ih =>
    have h := inv_setMetaOrigin K e pt ok ih.2.1 (ih.1 ▸ hw) (ih.1 ▸ hh)
    exact ⟨h.2.trans ih.1, h.1, stackOK_of_kept ih.2.2 (stackKept_setMetaOrigin K e pt ok)⟩
  | setUserOrigin e pt ok _ ih =>
    have h := inv_setUserOrigin K e pt ok ih.2.1 (ih.1 ▸ hw) (ih.1 ▸ hh)
    exact ⟨h.2.trans ih.1, h.1, stackOK_of_kept ih.2.2 (stackKept_setUserOrigin K e pt ok)⟩
  | translateMetaOrigin e pt ok _ ih =>
    have h := inv_translateMetaOrigin K e pt ok ih.2.1 (ih.1 ▸ hw) (ih.1 ▸ hh)
    exact ⟨h.2.trans ih.1, h.1,
      stackOK_of_kept ih.2.2 (stackKept_translateMetaOrigin K e pt ok)⟩
  | translateUserOrigin e pt ok _ ih =>
    have h := inv_translateUserOrigin K e pt ok ih.2.1 (ih.1 ▸ hw) (ih.1 ▸ hh)
    exact ⟨h.2.trans ih.1, h.1,
      stackOK_of_kept ih.2.2 (stackKept_translateUserOrigin K e pt ok)⟩
  | setUserRegion e r ok _ ih =>
    have h := inv_setUserRegion K e r ok ih.2.1 (ih.1 ▸ hw) (ih.1 ▸ hh)
    exact ⟨h.2.trans ih.1, h.1, stackOK_of_kept ih.2.2 (stackKept_setUserRegion K e r ok)⟩
  | setUserRegionR e r ok _ ih =>
    have h := inv_setUserRegionR K e r ok ih.2.1 (ih.1 ▸ hw) (ih.1 ▸ hh)
    exact ⟨h.2.trans ih.1, h.1, stackOK_of_kept ih.2.2 (stackKept_setUserRegionR K e r ok)⟩
  | resetMetaVars e ok _ ih =>
    have h := inv_resetMetaVars K e ok ih.2.1 (ih.1 ▸ hw) (ih.1 ▸ hh)
    exact ⟨h.2.trans ih.1, h.1, stackOK_of_kept ih.2.2 (stackKept_resetMetaVars K e ok)⟩
  | resetUserVars e ok _ ih =>
    have h := inv_resetUserVars K e ok ih.2.1 (ih.1 ▸ hw) (ih.1 ▸ hh)
    exact ⟨h.2.trans ih.1, h.1, stackOK_of_kept ih.2.2 (stackKept_resetUserVars K e ok)⟩
  | save e _ ih =>
    obtain ⟨h1, h2, h3⟩ := inv_save e ih.2.1 ih.2.2
    exact ⟨h3.trans ih.1, h1, h2⟩
  | restore e _ ih =>
    obtain ⟨h1, h2, h3⟩ := inv_restore e ih.2.1 ih.2.2
    exact ⟨h3.trans ih.1, h1, h2⟩
  | createCommand m addr _ ih =>
    obtain ⟨h1, h2, h3⟩ := inv_createCommand m addr ih.2.1 ih.2.2
    exact ⟨h3.trans ih.1, h1, h2⟩
  | releaseCommand m _ ih =>
    obtain ⟨h1, h2, h3⟩ := inv_releaseCommand m ih.2.1 ih.2.2
    exact ⟨h3.trans ih.1, h1, h2⟩
  | capsOperation e e1 _ hm ho hp hs ih =>
    refine ⟨hm.trans ih.1, inv_transfer e e1 ih.2.1 hm ho (by rw [hp, ho]; exact ih.2.1.1), ?_⟩
    exact stackOK_of_kept ih.2.2 (stackKept_of_eq e e1 (by rw [ho]) hs)

/-- C11: in every state reached from the constructor by the clip-mutating
operations (whatever the outcome of their allocations), also when `save()`,
`restore()`, commands that hold a reference to the clip state, and operations
on the caps state come in between, the current clip state satisfies the clip
invariant: without a meta or user region the clip box is the full layer box
and the clip is simple; with one, the clip box is the bounding box of the work
region, the clip is simple exactly when the work region has at most one
rectangle, and the clip box lies inside the layer. -/
theorem clip_invariant (K : PaintEnv) (layer : RasterPaintLayer) (e : RasterPaintEngine)
    (hr : ClipReachable K layer e) (hw : 0 ≤ layer.width) (hh : 0 ≤ layer.height) :
    (e.clip.metaRegionUsed = false ∧ e.clip.userRegionUsed = false →
        e.clip.clipBox = ⟨0, 0, layer.width, layer.height⟩ ∧ e.clip.clipSimple = true) ∧
      (¬ (e.clip.metaRegionUsed = false ∧ e.clip.userRegionUsed = false) →
        IsBoundingBox e.clip.clipBox e.clip.workRegion.rects ∧
        (e.clip.clipSimple = true ↔ e.clip.workRegion.getLength ≤ 1) ∧
        e.clip.clipBox.Inside ⟨0, 0, layer.width, layer.height⟩) := by
  obtain ⟨hm, hi, _⟩ := clipReachable_inv K layer e hr hw hh
  have h := clipOK_current e hi
  rw [hm] at h
  exact h

/-- C11 at the engine that was saved and then clipped to two rectangles: the
setter worked on a copy of the shared clip state (the context points at the
new object, the saved one is on the stack), the clip box is the bounding box
of the two-rectangle work region and the clip is not simple. -/
theorem clip_invariant_witness :
    (savedTwoRectEngine.ctxClipState = 1 ∧ savedTwoRectEngine.states.length = 1 ∧
        savedTwoRectEngine.clip.refCount = 1) ∧
      IsBoundingBox savedTwoRectEngine.clip.clipBox savedTwoRectEngine.clip.workRegion.rects ∧
      (savedTwoRectEngine.clip.clipSimple = true ↔
        savedTwoRectEngine.clip.workRegion.getLength ≤ 1) ∧
      savedTwoRectEngine.clip.clipBox.Inside ⟨0, 0, 300, 300⟩ :=
  ⟨by decide,
    (clip_invariant sampleEnv ⟨300, 300, 0⟩ savedTwoRectEngine
      (ClipReachable.setUserRegionR _ _ _ (ClipReachable.save _ ClipReachable.create))
      (by decide) (by decide)).2 (by decide)⟩

/-! ## Transform classification (`_updateTransform`, `setMatrix`, `translate`) -/

/-- The low-byte test on an `int` is divisibility by 256. -/
theorem lowByteZero_iff (v : ℚ) : lowByteZero (iround (v * 256)) = true ↔ IntegralTo256 v := by
  simp only [lowByteZero, decide_eq_true_eq, IntegralTo256]
  omega

/-- The copy-on-write of the caps state either fails and leaves the engine as
it is, or leaves the context at a valid caps state that differs from the old
one in `refCount` at most; the clip state is not touched. -/
theorem detachCaps_result (e : RasterPaintEngine) (ok : Bool) (r : Option Nat)
    (e1 : RasterPaintEngine) (hp : e.ctxCapsState < e.capsObjs.length)
    (hd : e._detachCapsState ok = (r, e1)) :
    (ok = false ∧ r = none ∧ e1 = e) ∨
    (∃ p, r = some p ∧ e1.ctxCapsState < e1.capsObjs.length ∧
      e1.caps = { e.caps with refCount := 1 } ∧ e1.clip = e.clip) := by
  unfold RasterPaintEngine._detachCapsState at hd
  by_cases h1 : e.caps.refCount = 1
  · right
    rw [if_pos h1] at hd
    obtain ⟨rfl, rfl⟩ := Prod.mk.inj hd
    refine ⟨_, rfl, hp, ?_, rfl⟩
    conv_lhs => rw [← show ({ e.caps with refCount := e.caps.refCount } : RasterPaintCapsState)
      = e.caps from rfl]
    rw [h1]
  · rw [if_neg h1] at hd
    cases ok with
    | false =>
      left
      simp only [Bool.not_false, if_true] at hd
      obtain ⟨rfl, rfl⟩ := Prod.mk.inj hd
      exact ⟨rfl, rfl, rfl⟩
    | true =>
      right
      simp only [Bool.not_true, Bool.false_eq_true, if_false] at hd
      obtain ⟨rfl, rfl⟩ := Prod.mk.inj hd
      refine ⟨_, rfl, ?_, ?_, rfl⟩
      · simp [RasterPaintEngine._derefCapsState]
      · simp only [RasterPaintEngine._derefCapsState, RasterPaintEngine.caps]
        rw [readObj_set_ne _ _ _ _ (by omega), readObj_append_length, caps_copy_eq]

/-- The caps state that `_updateTransform` leaves behind a valid pointer: the
transform is kept, and with it the clip state; the type is recomputed by the
shortcut or by the full rule. -/
theorem updateTransform_caps (K : PaintEnv) (e : RasterPaintEngine) (b : Bool)
    (hp : e.ctxCapsState < e.capsObjs.length) :
    (e._updateTransform K b).caps.transform = e.caps.transform ∧
      (e._updateTransform K b).clip = e.clip ∧
      (e._updateTransform K b).ctxCapsState < (e._updateTransform K b).capsObjs.length ∧
      (e._updateTransform K b).caps.transformType =
        (if b then
          (if e.caps.transformType < TRANSFORM_AFFINE then
            (if IntegralTo256 e.caps.transform.tx ∧ IntegralTo256 e.caps.transform.ty
              then TRANSFORM_TRANSLATE_EXACT else TRANSFORM_TRANSLATE_SUBPX)
          else e.caps.transformType)
        else fullRuleType K e.caps.transform) := by
  unfold RasterPaintEngine._updateTransform
  simp only
  generalize hc : RasterPaintEngine.setCaps e _ = e1
  have key : e1.caps.transform = e.caps.transform ∧ e1.clip = e.clip ∧
      e1.ctxCapsState < e1.capsObjs.length ∧
      e1.caps.transformType =
        (if b then
          (if e.caps.transformType < TRANSFORM_AFFINE then
            (if IntegralTo256 e.caps.transform.tx ∧ IntegralTo256 e.caps.transform.ty
              then TRANSFORM_TRANSLATE_EXACT else TRANSFORM_TRANSLATE_SUBPX)
          else e.caps.transformType)
        else fullRuleType K e.caps.transform) := by
    rw [← hc]
    simp only [RasterPaintEngine.caps, RasterPaintEngine.setCaps, RasterPaintEngine.clip,
      List.length_set, readObj_set_eq _ _ _ hp]
    refine ⟨?_, trivial, hp, ?_⟩
    · cases b
      · simp only [Bool.false_eq_true, if_false]
        split_ifs <;> rfl
      · simp only [if_true]
        split_ifs <;> rfl
    · cases b
      · simp only [Bool.false_eq_true, if_false, fullRuleType, Matrix.feqIdentity,
          ← lowByteZero_iff]
        clear hc
        simp only [Bool.and_eq_true]
        split_ifs <;>
          simp_all [TRANSFORM_AFFINE, TRANSFORM_TRANSLATE_EXACT, TRANSFORM_TRANSLATE_SUBPX]
      · simp only [if_true, ← lowByteZero_iff]
        clear hc
        simp only [Bool.and_eq_true]
        split_ifs <;> rfl
  obtain ⟨r1, r2, r3, r4, r5, r6⟩ := resetPattern_frame e1
  have hr : (e1._resetPatternRasterPaintContext).caps = e1.caps ∧
      (e1._resetPatternRasterPaintContext).clip = e1.clip := by
    simp only [RasterPaintEngine.caps, RasterPaintEngine.clip, r1, r2, r3, r4, and_self]
  have key2 : ∀ e2 : RasterPaintEngine, e2 = e1 ∨ e2 = e1._resetPatternRasterPaintContext →
      e2.caps.transform = e.caps.transform ∧ e2.clip = e.clip ∧
      e2.ctxCapsState < e2.capsObjs.length ∧
      e2.caps.transformType =
        (if b then
          (if e.caps.transformType < TRANSFORM_AFFINE then
            (if IntegralTo256 e.caps.transform.tx ∧ IntegralTo256 e.caps.transform.ty
              then TRANSFORM_TRANSLATE_EXACT else TRANSFORM_TRANSLATE_SUBPX)
          else e.caps.transformType)
        else fullRuleType K e.caps.transform) := by
    intro e2 h2
    rcases h2 with rfl | rfl
    · exact key
    · rw [hr.1, hr.2, r2, r4]; exact key
  apply key2
  cases e1.ctxPctx with
  | none => exact Or.inl rfl
  | some p =>
    simp only
    split_ifs
    · exact Or.inr rfl
    · exact Or.inl rfl

/-- A write through a valid `ctx.capsState` is read back, and leaves the clip
state and the validity of the pointer alone. -/
theorem setCaps_caps (e : RasterPaintEngine) (c : RasterPaintCapsState)
    (hp : e.ctxCapsState < e.capsObjs.length) :
    (e.setCaps c).caps = c ∧ (e.setCaps c).clip = e.clip ∧
      (e.setCaps c).ctxCapsState < (e.setCaps c).capsObjs.length := by
  refine ⟨readObj_set_eq _ _ _ hp, rfl, ?_⟩
  simp only [RasterPaintEngine.setCaps, List.length_set]
  exact hp

/-- The method `Matrix::translate` keeps the linear part of the matrix. -/
theorem translate_linear (m : Matrix) (x y : ℚ) (append : Bool) :
    (m.translate x y append).sx = m.sx ∧ (m.translate x y append).shy = m.shy ∧
      (m.translate x y append).shx = m.shx ∧ (m.translate x y append).sy = m.sy := by
  cases append <;> exact ⟨rfl, rfl, rfl, rfl⟩

/-- The type the rule of the specification gives is below `TRANSFORM_AFFINE`
exactly for an identity linear part. -/
theorem classify_lt_affine (m : Matrix) :
    classifyTransform m < TRANSFORM_AFFINE ↔ m.linearIsIdentity := by
  unfold classifyTransform
  split_ifs <;> simp_all [TRANSFORM_AFFINE, TRANSFORM_TRANSLATE_EXACT, TRANSFORM_TRANSLATE_SUBPX]

/-- For an identity linear part the full rule of the code gives the type of
the specification, if `Math::feq` finds a number equal to itself. -/
theorem fullRuleType_of_identity (K : PaintEnv) (m : Matrix)
    (hrefl : ∀ a : ℚ, K.feq a a = true) (hid : m.linearIsIdentity) :
    fullRuleType K m = classifyTransform m := by
  have hf : m.feqIdentity K := by
    obtain ⟨h1, h2, h3, h4⟩ := hid
    simp only [Matrix.feqIdentity, h1, h2, h3, h4, hrefl, and_self]
  simp only [fullRuleType, classifyTransform, if_pos hf, if_pos hid]

/-- The full rule of the code gives the type of the specification for every
matrix, if `Math::feq` finds two numbers equal exactly when they are equal. -/
theorem fullRuleType_eq_classify (K : PaintEnv) (m : Matrix)
    (hrefl : ∀ a : ℚ, K.feq a a = true) (hexact : ∀ a b : ℚ, K.feq a b = true → a = b) :
    fullRuleType K m = classifyTransform m := by
  by_cases hid : m.linearIsIdentity
  · exact fullRuleType_of_identity K m hrefl hid
  · have hf : ¬ m.feqIdentity K := by
      rintro ⟨h1, h2, h3, h4⟩
      exact hid ⟨hexact _ _ h1, hexact _ _ h2, hexact _ _ h3, hexact _ _ h4⟩
    simp only [fullRuleType, classifyTransform, if_neg hf, if_neg hid]

/-- The type of the fresh engine agrees with the classification rule. -/
theorem freshEngine_classified :
    freshEngine.caps.transformType = classifyTransform freshEngine.caps.transform := by
  simp [freshEngine, sampleEnv, RasterPaintEngine.create, RasterPaintClipState.new,
    RasterPaintCapsState.new, RasterPaintEngine._setClipDefaults,
    RasterPaintEngine._setCapsDefaults, RasterPaintEngine.setClip, RasterPaintEngine.setCaps,
    RasterPaintEngine.clip, RasterPaintEngine.caps, readObj, classifyTransform,
    Matrix.linearIsIdentity, IntegralTo256, iround_zero, TRANSFORM_TRANSLATE_EXACT]

/-- The comparison of the sample environment finds a number equal to itself,
and two numbers equal only if they are equal. -/
theorem sampleEnv_feq :
    (∀ a : ℚ, sampleEnv.feq a a = true) ∧ ∀ a b : ℚ, sampleEnv.feq a b = true → a = b := by
  simp [sampleEnv]

/-- The engine after `setUserOrigin(Point(1, 0))` on a fresh engine: the work
origin moved to `(1, 0)`, the transform and `transformTranslateSaved` did not
change. -/
theorem movedOrigin_eq : freshEngine.setUserOrigin sampleEnv ⟨1, 0⟩ true =
    { main := ⟨300, 300, 0⟩,
      clipObjs := [⟨1, ⟨0, 0⟩, ⟨1, 0⟩, ⟨1, 0⟩, ⟨[]⟩, ⟨[]⟩, ⟨[]⟩, ⟨0, 0, 300, 300⟩,
        false, false, false, true⟩],
      capsObjs := [⟨1, 1, .argb 0xFF000000 0xFF000000, 0, 1, 1, 1, true, 0, ⟨0, 1⟩,
        ⟨1, 0, 0, 0, 4, [], 0⟩, ⟨1, 0, 0, 1, 0, 0⟩, .one, ⟨0, 0⟩, ⟨0, 0⟩⟩],
      pctxObjs := [], ctxClipState := 0, ctxCapsState := 0, ctxPctx := none, states := [] } := by
  simp [freshEngine, sampleEnv, RasterPaintEngine.create,
    RasterPaintClipState.new, RasterPaintCapsState.new,
    RasterPaintEngine._setClipDefaults, RasterPaintEngine._setCapsDefaults,
    RasterPaintEngine.setUserOrigin, RasterPaintEngine._detachClipState,
    RasterPaintEngine._updateWorkRegion, Point.add,
    RasterPaintEngine.setClip, RasterPaintEngine.setCaps, RasterPaintEngine.clip,
    RasterPaintEngine.caps, readObj, RasterPaintEngine._updateTransform, iround_zero,
    TRANSFORM_TRANSLATE_EXACT, TRANSFORM_AFFINE, lowByteZero]

/-- C13, evaluated on the code: the fresh engine has its transform anchored to
the work origin `(0, 0)`.  After `setUserOrigin(Point(1, 0))` the work origin
is `metaOrigin + userOrigin = (1, 0)`, and `_updateWorkRegion` has only run
`_updateTransform(true)`, which does not touch `transform.tx`: the stored
translation is still `0`, not `transformTranslateSaved.x + workOrigin.x = 1`. -/
theorem setUserOrigin_leaves_transform_unanchored :
    freshEngine.caps.transform.tx =
        freshEngine.caps.transformTranslateSaved.x + (freshEngine.clip.workOrigin.x : ℚ) ∧
      (freshEngine.setUserOrigin sampleEnv ⟨1, 0⟩ true).clip.workOrigin = ⟨1, 0⟩ ∧
      (freshEngine.setUserOrigin sampleEnv ⟨1, 0⟩ true).clip.workOrigin =
        (freshEngine.setUserOrigin sampleEnv ⟨1, 0⟩ true).clip.metaOrigin.add
          (freshEngine.setUserOrigin sampleEnv ⟨1, 0⟩ true).clip.userOrigin ∧
      (freshEngine.setUserOrigin sampleEnv ⟨1, 0⟩ true).caps.transform.tx = 0 ∧
      (freshEngine.setUserOrigin sampleEnv ⟨1, 0⟩ true).caps.transformTranslateSaved.x = 0 ∧
      (freshEngine.setUserOrigin sampleEnv ⟨1, 0⟩ true).caps.transform.tx ≠
        (freshEngine.setUserOrigin sampleEnv ⟨1, 0⟩ true).caps.transformTranslateSaved.x +
          (((freshEngine.setUserOrigin sampleEnv ⟨1, 0⟩ true).clip.workOrigin.x : Int) : ℚ) := by
  rw [movedOrigin_eq]
  refine ⟨?_, by decide, by decide, rfl, rfl, ?_⟩
  · simp [freshEngine, sampleEnv, RasterPaintEngine.create,
      RasterPaintClipState.new, RasterPaintCapsState.new,
      RasterPaintEngine._setClipDefaults, RasterPaintEngine._setCapsDefaults,
      RasterPaintEngine.setClip, RasterPaintEngine.setCaps, RasterPaintEngine.clip,
      RasterPaintEngine.caps, readObj]
  · simp [RasterPaintEngine.caps, RasterPaintEngine.clip, readObj]

/-! ## Enum setters -/

/-- The unsigned comparison `(uint)v >= count` holds for every out-of-range
`int` value `v`. -/
theorem toUInt_ge_of_outOfRange (v count : Int) (hv : IsInt32 v) (h0 : 0 ≤ count)
    (hc : count < 2147483648) (h : OutOfRange v count) : toUInt v ≥ toUInt count := by
  unfold toUInt
  obtain ⟨h1, h2⟩ := hv
  rcases h with h | h <;> omega

/-- C14: for an `int` argument that is out of range (negative, or at least the
count of the enum), each of `setOperator`, `setFillMode`, `setHint` (for the
anti-aliasing, image-interpolation and gradient-interpolation hints),
`setStartCap`, `setEndCap`, `setLineCaps` and `setLineJoin` returns the engine
it was given: no state object is detached, no field of any clip or caps state
changes, whatever the outcome an allocation would have had. -/
theorem out_of_range_setters_noop (K : PaintEnv) (e : RasterPaintEngine) (v : Int)
    (allocOk : Bool) (hv : IsInt32 v) (hK : K.CountsAreInts) :
    (OutOfRange v K.OPERATOR_COUNT → e.setOperator K v allocOk = e) ∧
    (OutOfRange v K.FILL_MODE_COUNT → e.setFillMode K v allocOk = e) ∧
    (OutOfRange v K.ANTI_ALIASING_COUNT →
      e.setHint K .antialiasingQuality v allocOk = e) ∧
    (OutOfRange v K.INTERPOLATION_INVALID →
      e.setHint K .imageInterpolation v allocOk = e) ∧
    (OutOfRange v K.INTERPOLATION_INVALID →
      e.setHint K .gradientInterpolation v allocOk = e) ∧
    (OutOfRange v K.LINE_CAP_COUNT → e.setStartCap K v allocOk = e) ∧
    (OutOfRange v K.LINE_CAP_COUNT → e.setEndCap K v allocOk = e) ∧
    (OutOfRange v K.LINE_CAP_COUNT → e.setLineCaps K v allocOk = e) ∧
    (OutOfRange v K.LINE_JOIN_COUNT → e.setLineJoin K v allocOk = e) := by
  obtain ⟨k1, k2, k3, k4, k5, k6, k7, k8⟩ := hK
  refine ⟨?_, ?_, ?_, ?_, ?_, ?_, ?_, ?_, ?_⟩
  · intro h
    have := toUInt_ge_of_outOfRange v _ hv (Int.natCast_nonneg _) k1 h
    simp [RasterPaintEngine.setOperator, this]
  · intro h
    have := toUInt_ge_of_outOfRange v _ hv (Int.natCast_nonneg _) k2 h
    simp [RasterPaintEngine.setFillMode, this]
  · intro h
    have := toUInt_ge_of_outOfRange v _ hv (Int.natCast_nonneg _) k3 h
    simp [RasterPaintEngine.setHint, this]
  · intro h
    have := toUInt_ge_of_outOfRange v _ hv (Int.natCast_nonneg _) k4 h
    simp [RasterPaintEngine.setHint, this]
  · intro h
    have := toUInt_ge_of_outOfRange v _ hv (Int.natCast_nonneg _) k4 h
    simp [RasterPaintEngine.setHint, this]
  · intro h
    have := toUInt_ge_of_outOfRange v _ hv k5 k6 h
    simp [RasterPaintEngine.setStartCap, this]
  · intro h
    have := toUInt_ge_of_outOfRange v _ hv k5 k6 h
    simp [RasterPaintEngine.setEndCap, this]
  · intro h
    have := toUInt_ge_of_outOfRange v _ hv k5 k6 h
    simp [RasterPaintEngine.setLineCaps, this]
  · intro h
    have := toUInt_ge_of_outOfRange v _ hv k7 k8 h
    simp [RasterPaintEngine.setLineJoin, this]

/-- C14 at the engine clipped to two rectangles, with the argument `-1` (out
of range for every enum) and with the argument `3` (out of range for the line
caps and joins, which have three values). -/
theorem out_of_range_setters_noop_witness :
    twoRectEngine.setOperator sampleEnv (-1) true = twoRectEngine ∧
      twoRectEngine.setHint sampleEnv .imageInterpolation (-1) true = twoRectEngine ∧
      twoRectEngine.setLineCaps sampleEnv 3 true = twoRectEngine ∧
      twoRectEngine.setLineJoin sampleEnv 3 false = twoRectEngine :=
  ⟨(out_of_range_setters_noop sampleEnv twoRectEngine (-1) true (by decide) (by decide)).1
      (by decide),
    (out_of_range_setters_noop sampleEnv twoRectEngine (-1) true (by decide)
      (by decide)).2.2.2.1 (by decide),
    (out_of_range_setters_noop sampleEnv twoRectEngine 3 true (by decide)
      (by decide)).2.2.2.2.2.2.2.1 (by decide),
    (out_of_range_setters_noop sampleEnv twoRectEngine 3 false (by decide)
      (by decide)).2.2.2.2.2.2.2.2 (by decide)⟩

/-! ## Command queue (`_postCommand`, `flush`) -/

/-- What `_postCommand` does on a queue that satisfies the invariant: it ends
normally; the command is stored at the command position, or at index 0 after
the flush of a full queue; the calculation, if there is one, is stored at the
calculation position, or at index 0 after the flush; each position used moves
on by one. -/
theorem postCommand_spec (e : RasterPaintEngineMT) (m : RasterPaintWorkerManager) (cmd : Nat)
    (clc : Option Nat) (hm : e.workerManager = some m) (i1 : 0 ≤ m.calcPosition)
    (i2 : m.calcPosition ≤ m.cmdPosition) (i3 : m.cmdPosition ≤ RASTER_MAX_COMMANDS)
    (i4 : m.cmdData.length = RASTER_MAX_COMMANDS)
    (i5 : m.calcData.length = RASTER_MAX_CALCULATIONS) :
    ∃ e1 m1, e._postCommand cmd clc = some e1 ∧ e1.workerManager = some m1 ∧
      (0 ≤ (if m.cmdPosition = RASTER_MAX_COMMANDS then 0 else m.cmdPosition) ∧
        (if m.cmdPosition = RASTER_MAX_COMMANDS then 0 else m.cmdPosition) <
          RASTER_MAX_COMMANDS ∧
        m1.cmdPosition = (if m.cmdPosition = RASTER_MAX_COMMANDS then 0 else m.cmdPosition) + 1 ∧
        m1.cmdData = m.cmdData.set
          (if m.cmdPosition = RASTER_MAX_COMMANDS then 0 else m.cmdPosition).toNat (some cmd)) ∧
      (clc = none →
        m1.calcPosition = (if m.cmdPosition = RASTER_MAX_COMMANDS then 0 else m.calcPosition) ∧
        m1.calcData = m.calcData) ∧
      (∀ c, clc = some c →
        0 ≤ (if m.cmdPosition = RASTER_MAX_COMMANDS then 0 else m.calcPosition) ∧
        (if m.cmdPosition = RASTER_MAX_COMMANDS then 0 else m.calcPosition) <
          RASTER_MAX_CALCULATIONS ∧
        m1.calcPosition =
          (if m.cmdPosition = RASTER_MAX_COMMANDS then 0 else m.calcPosition) + 1 ∧
        m1.calcData = m.calcData.set
          (if m.cmdPosition = RASTER_MAX_COMMANDS then 0 else m.calcPosition).toNat (some c)) := by
  have hmax : (RASTER_MAX_COMMANDS : Int) = 1024 := rfl
  have hmaxc : (RASTER_MAX_CALCULATIONS : Int) = 1024 := rfl
  by_cases hfull : m.cmdPosition = RASTER_MAX_COMMANDS
  · have h0 : m.cmdPosition ≠ 0 := by rw [hfull, hmax]; decide
    cases clc with
    | none =>
      simp [RasterPaintEngineMT._postCommand, RasterPaintEngineMT.flush, hm, hfull, storeAt,
        i4, i5, hmax, hmaxc, h0]
    | some c =>
      simp [RasterPaintEngineMT._postCommand, RasterPaintEngineMT.flush, hm, hfull, storeAt,
        i4, i5, hmax, hmaxc, h0]
  · have hlt : m.cmdPosition < 1024 := by
      rw [hmax] at i3 hfull
      omega
    have hc : 0 ≤ m.cmdPosition := le_trans i1 i2
    have hne : ¬ m.cmdPosition = 1024 := by omega
    cases clc with
    | none =>
      simp [RasterPaintEngineMT._postCommand, hm, hne, storeAt, i4, i5, hmax, hmaxc, hlt, hc]
    | some c =>
      have hk : m.calcPosition < 1024 := by omega
      simp [RasterPaintEngineMT._postCommand, hm, hne, storeAt, i4, i5, hmax, hmaxc, hlt, hc,
        hk, i1]

/-- The invariant of the queue: the positions are ordered and bounded, the
arrays have their declared sizes. -/
theorem queueReachable_inv (e : RasterPaintEngineMT) (h : QueueReachable e) :
    ∃ m, e.workerManager = some m ∧ 0 ≤ m.calcPosition ∧ m.calcPosition ≤ m.cmdPosition ∧
      m.cmdPosition ≤ RASTER_MAX_COMMANDS ∧ m.cmdData.length = RASTER_MAX_COMMANDS ∧
      m.calcData.length = RASTER_MAX_CALCULATIONS := by
  induction h with
  | start e m hm hs =>
    obtain ⟨s1, s2, s3, s4⟩ := hs
    exact ⟨m, hm, by omega, by omega, by rw [s1]; exact Int.natCast_nonneg _, s3, s4⟩
  | flush e _ ih =>
    obtain ⟨m, hm, i1, i2, i3, i4, i5⟩ := ih
    unfold RasterPaintEngineMT.flush
    rw [hm]
    simp only
    split_ifs with h0
    · exact ⟨m, hm, i1, i2, i3, i4, i5⟩
    · exact ⟨_, rfl, le_refl _, le_refl _, Int.natCast_nonneg _, i4, i5⟩
  | post e e1 cmd clc _ hp ih =>
    obtain ⟨m, hm, i1, i2, i3, i4, i5⟩ := ih
    obtain ⟨e2, m1, h1, h2, ⟨c1, c2, c3, c4⟩, hn, hs⟩ := postCommand_spec e m cmd clc hm i1 i2 i3 i4 i5
    rw [hp] at h1
    obtain rfl := Option.some.inj h1
    have hmax : (RASTER_MAX_COMMANDS : Int) = 1024 := rfl
    have hmaxc : (RASTER_MAX_CALCULATIONS : Int) = 1024 := rfl
    refine ⟨m1, h2, ?_, ?_, ?_, ?_, ?_⟩
    · cases clc with
      | none => rw [(hn rfl).1]; split_ifs <;> omega
      | some c => rw [(hs c rfl).2.2.1]; split_ifs <;> omega
    · rw [c3]
      cases clc with
      | none => rw [(hn rfl).1]; split_ifs <;> omega
      | some c => rw [(hs c rfl).2.2.1]; split_ifs <;> omega
    · rw [c3]; omega
    · rw [c4, List.length_set, i4]
    · cases clc with
      | none => rw [(hn rfl).2, i5]
      | some c => rw [(hs c rfl).2.2.2, List.length_set, i5]
  | workers e m calcData tasks _ hm hl ih =>
    obtain ⟨m1, hm1, i1, i2, i3, i4, i5⟩ := ih
    rw [hm] at hm1
    obtain rfl := Option.some.inj hm1
    exact ⟨_, rfl, i1, i2, i3, i4, by rw [← i5]; exact hl⟩

/-- Every command position up to the capacity is reached, the full queue
included. -/
theorem reachable_position (n : Nat) (hn : n ≤ RASTER_MAX_COMMANDS) :
    ∃ e m, QueueReachable e ∧ e.workerManager = some m ∧ m.cmdPosition = n := by
  induction n with
  | zero =>
    exact ⟨mtEngine, twoWorkers,
      QueueReachable.start mtEngine twoWorkers rfl
        ⟨rfl, rfl, by simp [twoWorkers], by simp [twoWorkers]⟩, rfl, rfl⟩
  | succ n ih =>
    obtain ⟨e, m, hr, hm, hpos⟩ := ih (by omega)
    obtain ⟨m0, hm0, i1, i2, i3, i4, i5⟩ := queueReachable_inv e hr
    rw [hm] at hm0
    obtain rfl := Option.some.inj hm0
    obtain ⟨e1, m1, h1, h2, ⟨_, _, c3, _⟩, _, _⟩ := postCommand_spec e m 0 none hm i1 i2 i3 i4 i5
    refine ⟨e1, m1, QueueReachable.post e e1 0 none hr h1, h2, ?_⟩
    have hne : m.cmdPosition ≠ (RASTER_MAX_COMMANDS : Int) := by
      rw [hpos]
      intro hc
      have := Int.ofNat_inj.mp hc
      omega
    rw [c3, if_neg hne, hpos]
    push_cast
    rfl

/-- C15: in every state reachable by `_postCommand` and `flush` there is a
worker manager with `0 <= calcPosition <= cmdPosition <= RASTER_MAX_COMMANDS`,
and every `_postCommand` from such a state ends normally, with its stores
inside the arrays: the command goes to an index `pos` below the capacity 1024
of `cmdData`, which is `cmdPosition`, or 0 when the queue was full and has been
flushed first; a calculation goes to an index `k` below the capacity 1024 of
`calcData`, which is `calcPosition`, or 0 after that flush. -/
theorem queue_positions_bounded (e : RasterPaintEngineMT) (h : QueueReachable e) :
    ∃ m, e.workerManager = some m ∧
      0 ≤ m.calcPosition ∧ m.calcPosition ≤ m.cmdPosition ∧
      m.cmdPosition ≤ RASTER_MAX_COMMANDS ∧
      m.cmdData.length = 1024 ∧ m.calcData.length = 1024 ∧
      ∀ (cmd : Nat) (clc : Option Nat), ∃ e1 m1,
        e._postCommand cmd clc = some e1 ∧ e1.workerManager = some m1 ∧
        (∃ pos : Nat, pos < m.cmdData.length ∧
          (m.cmdPosition = RASTER_MAX_COMMANDS → pos = 0) ∧
          (m.cmdPosition ≠ RASTER_MAX_COMMANDS → (pos : Int) = m.cmdPosition) ∧
          m1.cmdData = m.cmdData.set pos (some cmd) ∧ m1.cmdPosition = pos + 1) ∧
        (∀ c, clc = some c → ∃ k : Nat, k < m.calcData.length ∧
          (m.cmdPosition = RASTER_MAX_COMMANDS → k = 0) ∧
          (m.cmdPosition ≠ RASTER_MAX_COMMANDS → (k : Int) = m.calcPosition) ∧
          m1.calcData = m.calcData.set k (some c) ∧ m1.calcPosition = k + 1) := by
  obtain ⟨m, hm, i1, i2, i3, i4, i5⟩ := queueReachable_inv e h
  refine ⟨m, hm, i1, i2, i3, i4, i5, ?_⟩
  intro cmd clc
  obtain ⟨e1, m1, h1, h2, ⟨c1, c2, c3, c4⟩, _, hs⟩ := postCommand_spec e m cmd clc hm i1 i2 i3 i4 i5
  have hmax : (RASTER_MAX_COMMANDS : Int) = 1024 := rfl
  have hmaxc : (RASTER_MAX_CALCULATIONS : Int) = 1024 := rfl
  have i4n : m.cmdData.length = 1024 := i4
  have i5n : m.calcData.length = 1024 := i5
  refine ⟨e1, m1, h1, h2, ?_, ?_⟩
  · refine ⟨(if m.cmdPosition = RASTER_MAX_COMMANDS then 0 else m.cmdPosition).toNat,
      ?_, ?_, ?_, c4, ?_⟩
    · rw [i4n]; omega
    · intro hf; rw [if_pos hf]; rfl
    · intro hf; rw [if_neg hf] at c1 ⊢; omega
    · rw [c3]; omega
  · intro c hc
    obtain ⟨d1, d2, d3, d4⟩ := hs c hc
    refine ⟨(if m.cmdPosition = RASTER_MAX_COMMANDS then 0 else m.calcPosition).toNat,
      ?_, ?_, ?_, d4, ?_⟩
    · rw [i5n]; omega
    · intro hf; rw [if_pos hf]; rfl
    · intro hf; rw [if_neg hf] at d1 ⊢; omega
    · rw [d3]; omega

/-- C15 on the engine with two workers and an empty queue: the positions are
zero and within bounds, and any post stores inside the arrays. -/
theorem queue_positions_bounded_witness :
    ∃ m, mtEngine.workerManager = some m ∧
      0 ≤ m.calcPosition ∧ m.calcPosition ≤ m.cmdPosition ∧
      m.cmdPosition ≤ RASTER_MAX_COMMANDS ∧
      m.cmdData.length = 1024 ∧ m.calcData.length = 1024 ∧
      ∀ (cmd : Nat) (clc : Option Nat), ∃ e1 m1,
        mtEngine._postCommand cmd clc = some e1 ∧ e1.workerManager = some m1 ∧
        (∃ pos : Nat, pos < m.cmdData.length ∧
          (m.cmdPosition = RASTER_MAX_COMMANDS → pos = 0) ∧
          (m.cmdPosition ≠ RASTER_MAX_COMMANDS → (pos : Int) = m.cmdPosition) ∧
          m1.cmdData = m.cmdData.set pos (some cmd) ∧ m1.cmdPosition = pos + 1) ∧
        (∀ c, clc = some c → ∃ k : Nat, k < m.calcData.length ∧
          (m.cmdPosition = RASTER_MAX_COMMANDS → k = 0) ∧
          (m.cmdPosition ≠ RASTER_MAX_COMMANDS → (k : Int) = m.calcPosition) ∧
          m1.calcData = m.calcData.set k (some c) ∧ m1.calcPosition = k + 1) :=
  queue_positions_bounded mtEngine
    (QueueReachable.start mtEngine twoWorkers rfl
      ⟨rfl, rfl, by simp [twoWorkers], by simp [twoWorkers]⟩)

/-! ## The calculation phase: each calculation runs exactly once -/

/-- Reading an array after a slot was cleared. -/
theorem getD_set_none (l : List (Option Nat)) (i j : Nat) :
    (l.set i none).getD j none = if i = j then none else l.getD j none := by
  simp only [List.getD_eq_getElem?_getD, List.getElem?_set]
  by_cases h : i = j
  · simp only [h, if_true]
    split_ifs <;> rfl
  · simp only [h, if_false]

/-- The invariant of a worker survives the clearing of slots. -/
theorem calcWorker_ok_mono (posted data data1 : List (Option Nat)) (K : Int) (w : CalcWorker)
    (h : w.OK posted data K)
    (hd : ∀ j : Nat, data.getD j none = none → data1.getD j none = none) :
    w.OK posted data1 K := by
  obtain ⟨h1, h2, h3, h4⟩ := h
  refine ⟨h1, h2, fun j hj => hd j (h3 j hj), fun v hv => ?_⟩
  obtain ⟨a, b, c⟩ := h4 v hv
  exact ⟨a, fun hn => hd _ (b hn), c⟩

/-- Posted calculations with the workers at the start satisfy the invariant. -/
theorem calcPhase_inv_start (s : CalcPhase) (h : s.Posted) : CalcPhase.Inv s s := by
  obtain ⟨h1, h2, h3, h4, h5⟩ := h
  refine ⟨rfl, rfl, h1, h2, fun j => Or.inl rfl, ?_, ?_, ?_⟩
  · intro w hw
    rw [h4 w hw]
    refine ⟨le_refl _, h1, ?_, ?_⟩
    · intro j hj
      exact absurd hj (by simp only [not_lt]; exact Int.natCast_nonneg j)
    · intro v hv
      exact absurd hv (by simp)
  · rw [h5]; exact List.nodup_nil
  · intro j
    rw [h5]
    simp only [List.map_nil, List.not_mem_nil, false_iff, not_and]
    exact fun hj => h3 j hj

/-- One atomic step of a worker keeps the invariant. -/
theorem calcPhase_inv_step (start s : CalcPhase) (i : Nat) (h : CalcPhase.Inv start s) :
    CalcPhase.Inv start (s.step i) := by
  obtain ⟨h1, h2, h3, h4, h5, h6, h7, h8⟩ := h
  unfold CalcPhase.step
  cases hw : s.workers[i]? with
  | none => exact ⟨h1, h2, h3, h4, h5, h6, h7, h8⟩
  | some worker =>
    have hmem : worker ∈ s.workers := List.getElem?_mem hw
    obtain ⟨w1, w2, w3, w4⟩ := h6 worker hmem
    simp only
    cases hc : worker.clc with
    | none =>
      simp only
      split_ifs with hlt
      · refine ⟨h1, by simp only [List.length_set]; exact h2, h3, h4, h5, ?_, h7, h8⟩
        intro w hwm
        rcases List.mem_or_eq_of_mem_set hwm with hwm | rfl
        · exact h6 w hwm
        · refine ⟨w1, w2, w3, ?_⟩
          intro v hv
          simp only [Option.some.injEq] at hv
          subst hv
          refine ⟨hlt, fun hn => hn, fun p hp => ?_⟩
          rcases h5 worker.calcCurrent.toNat with e | e
          · rw [← e]; exact hp
          · rw [e] at hp; exact absurd hp (by simp)
      · exact ⟨h1, h2, h3, h4, h5, h6, h7, h8⟩
    | some v =>
      obtain ⟨a, b, c⟩ := w4 v hc
      have hidx : ((worker.calcCurrent.toNat : Nat) : Int) = worker.calcCurrent :=
        Int.toNat_of_nonneg w1
      simp only
      by_cases hwon : (v.isSome && decide (s.calcData.getD worker.calcCurrent.toNat none = v))
          = true
      · simp only [hwon, if_true]
        simp only [Bool.and_eq_true, decide_eq_true_eq] at hwon
        obtain ⟨hv, hslot⟩ := hwon
        obtain ⟨p, rfl⟩ := Option.isSome_iff_exists.mp hv
        have hmono : ∀ j : Nat, s.calcData.getD j none = none →
            (s.calcData.set worker.calcCurrent.toNat none).getD j none = none := by
          intro j hj
          rw [getD_set_none]
          split_ifs
          · rfl
          · exact hj
        refine ⟨h1, by simp only [List.length_set]; exact h2, h3,
          by simp only [List.length_set]; exact h4, ?_, ?_, ?_, ?_⟩
        · intro j
          rw [getD_set_none]
          split_ifs
          · exact Or.inr rfl
          · exact h5 j
        · intro w hwm
          rcases List.mem_or_eq_of_mem_set hwm with hwm | rfl
          · exact calcWorker_ok_mono _ _ _ _ _ (h6 w hwm) hmono
          · refine ⟨by simp only; omega, by simp only; omega, ?_, ?_⟩
            · intro j hj
              simp only at hj
              rw [getD_set_none]
              split_ifs with he
              · rfl
              · exact w3 j (by omega)
            · intro v hv
              exact absurd hv (by simp)
        · rw [List.map_append, List.nodup_append]
          refine ⟨h7, by simp, ?_⟩
          intro x hx1 hx2
          simp only [List.map_cons, List.map_nil, List.mem_singleton] at hx2
          subst hx2
          have := ((h8 _).mp hx1).2
          rw [hslot] at this
          exact absurd this (by simp)
        · intro j
          rw [List.map_append, List.mem_append, h8 j, getD_set_none]
          simp only [List.map_cons, List.map_nil, List.mem_singleton]
          constructor
          · rintro (⟨x1, x2⟩ | rfl)
            · refine ⟨x1, ?_⟩
              split_ifs
              · rfl
              · exact x2
            · exact ⟨by omega, by simp⟩
          · rintro ⟨x1, x2⟩
            by_cases he : worker.calcCurrent.toNat = j
            · exact Or.inr he.symm
            · rw [if_neg he] at x2
              exact Or.inl ⟨x1, x2⟩
      · simp only [hwon, Bool.false_eq_true, if_false]
        have hnull : s.calcData.getD worker.calcCurrent.toNat none = none := by
          cases v with
          | none => exact b rfl
          | some p =>
            simp only [Option.isSome_some, Bool.true_and, decide_eq_true_eq] at hwon
            rcases h5 worker.calcCurrent.toNat with e | e
            · rw [e, c p rfl] at hwon
              exact absurd rfl hwon
            · exact e
        refine ⟨h1, by simp only [List.length_set]; exact h2, h3, h4, h5, ?_, h7, h8⟩
        intro w hwm
        rcases List.mem_or_eq_of_mem_set hwm with hwm | rfl
        · exact h6 w hwm
        · refine ⟨by simp only; omega, by simp only; omega, ?_, ?_⟩
          · intro j hj
            simp only at hj
            by_cases he : (j : Int) < worker.calcCurrent
            · exact w3 j he
            · have : j = worker.calcCurrent.toNat := by omega
              rw [this]; exact hnull
          · intro v hv
            exact absurd hv (by simp)

/-- Every interleaving keeps the invariant. -/
theorem calcPhase_inv_run (start : CalcPhase) (schedule : List Nat) (s : CalcPhase)
    (h : CalcPhase.Inv start s) : CalcPhase.Inv start (s.run schedule) := by
  induction schedule generalizing s with
  | nil => exact h
  | cons i rest ih => exact ih (s.step i) (calcPhase_inv_step start s i h)

/-- Replacing one summand of a sum over a list. -/
theorem sum_map_set (l : List CalcWorker) (f : CalcWorker → Nat) (i : Nat) (x y : CalcWorker)
    (h : l[i]? = some y) : ((l.set i x).map f).sum + f y = (l.map f).sum + f x := by
  induction l generalizing i with
  | nil => simp at h
  | cons a t ih =>
    cases i with
    | zero =>
      simp only [List.getElem?_cons_zero, Option.some.injEq] at h
      subst h
      simp only [List.set_cons_zero, List.map_cons, List.sum_cons]
      omega
    | succ n =>
      simp only [List.getElem?_cons_succ] at h
      have := ih n h
      simp only [List.set_cons_succ, List.map_cons, List.sum_cons]
      omega

/-- A step that changes the state uses up one of the steps left. -/
theorem calcPhase_step_decreases (start s : CalcPhase) (i : Nat) (h : CalcPhase.Inv start s)
    (hne : s.step i ≠ s) : (s.step i).stepsLeft + 1 = s.stepsLeft := by
  obtain ⟨h1, h2, h3, h4, h5, h6, h7, h8⟩ := h
  unfold CalcPhase.step at hne ⊢
  cases hw : s.workers[i]? with
  | none => rw [hw] at hne; exact absurd rfl hne
  | some worker =>
    have hmem : worker ∈ s.workers := List.getElem?_mem hw
    obtain ⟨w1, w2, w3, w4⟩ := h6 worker hmem
    rw [hw] at hne
    simp only at hne ⊢
    cases hc : worker.clc with
    | none =>
      rw [hc] at hne
      simp only at hne ⊢
      split_ifs with hlt
      · simp only [CalcPhase.stepsLeft]
        have := sum_map_set s.workers (fun w =>
          2 * (s.calcPosition - w.calcCurrent).toNat - (if w.clc.isSome then 1 else 0)) i
          { worker with clc := some (s.calcData.getD worker.calcCurrent.toNat none) } worker hw
        simp only [hc, Option.isSome_some, Option.isSome_none, if_true, Bool.false_eq_true,
          if_false] at this
        have hpos : 1 ≤ (s.calcPosition - worker.calcCurrent).toNat := by omega
        omega
      · rw [if_neg hlt] at hne; exact absurd rfl hne
    | some v =>
      obtain ⟨a, b, c⟩ := w4 v hc
      simp only [CalcPhase.stepsLeft]
      have := sum_map_set s.workers (fun w =>
        2 * (s.calcPosition - w.calcCurrent).toNat - (if w.clc.isSome then 1 else 0)) i
        { calcCurrent := worker.calcCurrent + 1, clc := none } worker hw
      simp only [hc, Option.isSome_some, Option.isSome_none, if_true, Bool.false_eq_true,
        if_false] at this
      have hpos : (s.calcPosition - worker.calcCurrent).toNat =
          (s.calcPosition - (worker.calcCurrent + 1)).toNat + 1 := by omega
      omega

/-- While some worker has not passed the whole queue, some worker has a step
that changes the state. -/
theorem calcPhase_progress (s : CalcPhase) (h : ¬ s.Done) :
    ∃ i, i < s.workers.length ∧ s.step i ≠ s := by
  unfold CalcPhase.Done at h
  push_neg at h
  obtain ⟨w, hw, hn⟩ := h
  obtain ⟨i, hi, rfl⟩ := List.getElem_of_mem hw
  refine ⟨i, hi, ?_⟩
  unfold CalcPhase.step
  rw [List.getElem?_eq_getElem hi]
  simp only
  cases hc : (s.workers[i]).clc with
  | none =>
    simp only
    have hlt : (s.workers[i]).calcCurrent < s.calcPosition := by
      have := hn hc
      omega
    rw [if_pos hlt]
    intro heq
    have h2 := congrArg (fun t => t.workers[i]?) heq
    simp only [List.getElem?_set, if_true, hi, List.getElem?_eq_getElem, Option.some.injEq] at h2
    have h3 := congrArg CalcWorker.clc h2
    simp only [hc] at h3
    exact absurd h3 (by simp)
  | some v =>
    simp only
    intro heq
    have h2 := congrArg (fun t => t.workers[i]?) heq
    simp only [List.getElem?_set, if_true, hi, List.getElem?_eq_getElem, Option.some.injEq] at h2
    have h3 := congrArg CalcWorker.clc h2
    simp only [hc] at h3
    exact absurd h3 (by simp)

/-- When every worker has passed the whole queue no step is left. -/
theorem calcPhase_done_stepsLeft (s : CalcPhase) (h : s.Done) : s.stepsLeft = 0 := by
  unfold CalcPhase.stepsLeft
  apply List.sum_eq_zero
  intro x hx
  obtain ⟨w, hw, rfl⟩ := List.mem_map.mp hx
  obtain ⟨a, b⟩ := h w hw
  simp only [a, Option.isSome_none, Bool.false_eq_true, if_false]
  omega

/-- From every state of the calculation phase the workers finish, in exactly
`stepsLeft` further steps. -/
theorem calcPhase_completes (start : CalcPhase) (n : Nat) (s : CalcPhase)
    (h : CalcPhase.Inv start s) (hn : s.stepsLeft = n) :
    ∃ more : List Nat, more.length = n ∧ (s.run more).Done := by
  induction n generalizing s with
  | zero =>
    by_cases hd : s.Done
    · exact ⟨[], rfl, hd⟩
    · obtain ⟨i, _, hne⟩ := calcPhase_progress s hd
      have := calcPhase_step_decreases start s i h hne
      omega
  | succ k ih =>
    by_cases hd : s.Done
    · have := calcPhase_done_stepsLeft s hd
      omega
    · obtain ⟨i, _, hne⟩ := calcPhase_progress s hd
      have hdec := calcPhase_step_decreases start s i h hne
      obtain ⟨more, hl, hdone⟩ := ih (s.step i) (calcPhase_inv_step start s i h) (by omega)
      exact ⟨i :: more, by simp [hl], hdone⟩

/-- C16: `W >= 1` workers run the calculation phase of `RasterPaintTask::run`
over a queue of `K = calcPosition` posted calculations, their atomic steps (the
read of the slot, the `cmpXchg` with what follows it) interleaved in any order.
At every point of every interleaving no calculation has run twice.  Once every
worker has passed the queue, each of the `K` calculations has run exactly once
and exactly `K` runs were made.  And every interleaving can be continued to
that point, in exactly `stepsLeft` further steps. -/
theorem calc_runs_exactly_once (s0 : CalcPhase) (schedule : List Nat) (h : s0.Posted)
    (hW : s0.workers ≠ []) :
    (∀ j : Nat, ((s0.run schedule).ran.map Prod.snd).count j ≤ 1) ∧
    ((s0.run schedule).Done →
      (∀ j : Nat, (j : Int) < s0.calcPosition →
        ((s0.run schedule).ran.map Prod.snd).count j = 1) ∧
      (((s0.run schedule).ran.length : Nat) : Int) = s0.calcPosition) ∧
    (∃ more : List Nat, more.length = (s0.run schedule).stepsLeft ∧
      (s0.run (schedule ++ more)).Done) := by
  have hinv := calcPhase_inv_run s0 schedule s0 (calcPhase_inv_start s0 h)
  obtain ⟨h1, h2, h3, h4, h5, h6, h7, h8⟩ := hinv
  refine ⟨fun j => List.nodup_iff_count_le_one.mp h7 j, ?_, ?_⟩
  · intro hd
    have hl : (s0.run schedule).workers ≠ [] := by
      intro he
      rw [he] at h2
      exact hW (List.length_eq_zero.mp h2.symm)
    obtain ⟨w, hw⟩ := List.exists_mem_of_ne_nil _ hl
    obtain ⟨_, hK⟩ := hd w hw
    obtain ⟨_, _, w3, _⟩ := h6 w hw
    have hmem : ∀ j : Nat, j ∈ (s0.run schedule).ran.map Prod.snd ↔
        j < (s0.run schedule).calcPosition.toNat := by
      intro j
      rw [h8 j]
      constructor
      · rintro ⟨a, _⟩; omega
      · intro a
        have : (j : Int) < (s0.run schedule).calcPosition := by omega
        exact ⟨this, w3 j (by omega)⟩
    constructor
    · intro j hj
      apply List.count_eq_one_of_mem h7
      rw [hmem]
      omega
    · have hfin : ((s0.run schedule).ran.map Prod.snd).toFinset =
          Finset.range (s0.run schedule).calcPosition.toNat := by
        ext j
        rw [List.mem_toFinset, hmem, Finset.mem_range]
      have hcard := List.toFinset_card_of_nodup h7
      rw [hfin, Finset.card_range, List.length_map] at hcard
      rw [← h1, ← hcard]
      exact Int.toNat_of_nonneg h3
  · obtain ⟨more, hl, hdone⟩ := calcPhase_completes s0 _ (s0.run schedule)
      ⟨h1, h2, h3, h4, h5, h6, h7, h8⟩ rfl
    refine ⟨more, hl, ?_⟩
    unfold CalcPhase.run at hdone ⊢
    rw [List.foldl_append]
    exact hdone

/-- The queue `threeCalcs` holds three posted calculations. -/
theorem threeCalcs_posted : threeCalcs.Posted := by
  refine ⟨by decide, by decide, ?_, by decide, rfl⟩
  intro j hj
  have hj3 : j < 3 := by
    have : (j : Int) < 3 := hj
    omega
  interval_cases j <;> simp [threeCalcs]

/-- C16 on two workers and three calculations, both workers reading slot 0
before either exchanges it: three runs were made, one for each slot. -/
theorem calc_runs_exactly_once_witness :
    (∀ j : Nat, (j : Int) < 3 →
      ((threeCalcs.run [0, 1, 0, 1, 1, 1, 0, 0, 1, 1, 0, 0]).ran.map Prod.snd).count j = 1) ∧
    (((threeCalcs.run [0, 1, 0, 1, 1, 1, 0, 0, 1, 1, 0, 0]).ran.length : Nat) : Int) = 3 :=
  (calc_runs_exactly_once threeCalcs [0, 1, 0, 1, 1, 1, 0, 0, 1, 1, 0, 0] threeCalcs_posted
    (by decide)).2.1 (by decide)

/-! ## Image blit rows -/

/-- The calls of the loop of `_renderImage` are the row calls of the rows of
the loop of `_renderBoxes`: the two pointers advance with the row. -/
theorem imageLoop_eq (fuel : Nat) (dstStride bpp srcStride bytesPerPixel : Int)
    (dst src : Rect) (y1 y2 delta : Int) :
    imageLoop fuel (dst.x * bpp + y1 * dstStride)
        (src.x * bytesPerPixel + (src.y + y1 - dst.y) * srcStride)
        (dstStride * delta) (srcStride * delta) dst.w y1 y2 delta =
      (rowLoop fuel y1 y2 delta).map (rowCall dstStride bpp srcStride bytesPerPixel dst src) := by
  induction fuel generalizing y1 with
  | zero => rfl
  | succ n ih =>
    simp only [imageLoop, rowLoop, List.map_cons]
    have e1 : dst.x * bpp + y1 * dstStride + dstStride * delta =
        dst.x * bpp + (y1 + delta) * dstStride := by ring
    have e2 : src.x * bytesPerPixel + (src.y + y1 - dst.y) * srcStride + srcStride * delta =
        src.x * bytesPerPixel + (src.y + (y1 + delta) - dst.y) * srcStride := by ring
    rw [e1, e2, ih (y1 + delta)]
    have e3 : (⟨y1, dst.x * bpp + y1 * dstStride,
        src.x * bytesPerPixel + (src.y + y1 - dst.y) * srcStride, dst.w⟩ : VSpanCall) =
        rowCall dstStride bpp srcStride bytesPerPixel dst src y1 := by
      simp only [rowCall, VSpanCall.mk.injEq, true_and, and_true]
      ring
    rw [e3]
    split_ifs <;> rfl

/-- With a non-empty destination, `_renderImage` makes the row calls of the
rows that `_renderBoxes` visits in the same range under the same context. -/
theorem renderImage_eq (dstStride bpp srcStride bytesPerPixel : Int) (offset delta : Int)
    (dst src : Rect) (hh : 0 < dst.h) :
    _renderImage dstStride bpp srcStride bytesPerPixel offset delta dst src =
      (boxRows dst.y (dst.y + dst.h) offset delta).map
        (rowCall dstStride bpp srcStride bytesPerPixel dst src) := by
  unfold _renderImage boxRows
  by_cases h1 : delta = 1
  · subst h1
    simp only [if_true, ne_eq, not_true_eq_false, if_false]
    have hge : ¬ dst.y ≥ dst.y + dst.h := by omega
    rw [if_neg hge]
    have hf : max 1 (dst.y + dst.h - dst.y).toNat = (dst.y + dst.h - dst.y).toNat := by omega
    rw [hf]
    have := imageLoop_eq (dst.y + dst.h - dst.y).toNat dstStride bpp srcStride bytesPerPixel
      dst src dst.y (dst.y + dst.h) 1
    simp only [mul_one] at this
    have e : src.x * bytesPerPixel + (src.y + dst.y - dst.y) * srcStride =
        src.x * bytesPerPixel + src.y * srcStride := by ring
    rw [e] at this
    exact this
  · simp only [h1, if_false, ne_eq, not_false_eq_true, if_true]
    split_ifs with h2
    · rfl
    · exact imageLoop_eq _ dstStride bpp srcStride bytesPerPixel dst src _ _ delta

/-- The rows of the do-while loop do not lie before its first row. -/
theorem rowLoop_ge (fuel : Nat) (y1 y2 delta : Int) (hd : 1 ≤ delta) :
    ∀ y ∈ rowLoop fuel y1 y2 delta, y1 ≤ y := by
  induction fuel generalizing y1 with
  | zero => intro y hy; simp [rowLoop] at hy
  | succ n ih =>
    intro y hy
    simp only [rowLoop, List.mem_cons] at hy
    rcases hy with rfl | hy
    · exact le_refl _
    · split_ifs at hy
      · have := ih (y1 + delta) y hy
        omega
      · simp at hy

/-- The do-while loop visits no row twice. -/
theorem rowLoop_nodup (fuel : Nat) (y1 y2 delta : Int) (hd : 1 ≤ delta) :
    (rowLoop fuel y1 y2 delta).Nodup := by
  induction fuel generalizing y1 with
  | zero => simp [rowLoop]
  | succ n ih =>
    simp only [rowLoop, List.nodup_cons]
    split_ifs
    · refine ⟨?_, ih (y1 + delta)⟩
      intro hm
      have := rowLoop_ge n (y1 + delta) y2 delta hd y1 hm
      omega
    · simp

/-- A context visits no row of a box twice. -/
theorem boxRows_nodup (y1 y2 offset delta : Int) (hd : 1 ≤ delta) :
    (boxRows y1 y2 offset delta).Nodup := by
  unfold boxRows
  simp only
  split_ifs
  · exact List.nodup_nil
  · exact rowLoop_nodup _ _ _ _ hd
  · exact List.nodup_nil
  · exact rowLoop_nodup _ _ _ _ hd

/-- Different rows have different row calls. -/
theorem rowCall_injective (dstStride bpp srcStride bytesPerPixel : Int) (dst src : Rect) :
    Function.Injective (rowCall dstStride bpp srcStride bytesPerPixel dst src) := by
  intro a b h
  exact congrArg VSpanCall.y h

/-- C17: `_renderImage` on a destination with `dst.h > 0` and `N >= 1` workers.
The single-threaded context (offset 0, delta 1) makes, once each, the calls
that write destination row `y` from source row `src.y + (y - dst.y)`, for the
rows `y` of `[dst.y, dst.y + dst.h)`.  The worker context (offset `i`, delta
`N`) makes, once each, those of these calls whose row has residue `i` modulo
`N`.  So the calls of two different workers are disjoint, and the calls of all
workers together are the calls of the single-threaded context: every
destination row is written by exactly one worker, from the same source row. -/
theorem renderImage_workers_partition (dstStride bpp srcStride bytesPerPixel : Int)
    (dst src : Rect) (N : Int) (hh : 0 < dst.h) (hN : 1 ≤ N) :
    ((_renderImage dstStride bpp srcStride bytesPerPixel 0 1 dst src).Nodup ∧
      ∀ c, c ∈ _renderImage dstStride bpp srcStride bytesPerPixel 0 1 dst src ↔
        ∃ y, dst.y ≤ y ∧ y < dst.y + dst.h ∧
          c = rowCall dstStride bpp srcStride bytesPerPixel dst src y) ∧
    (∀ i : Int, 0 ≤ i → i < N →
      (_renderImage dstStride bpp srcStride bytesPerPixel i N dst src).Nodup ∧
      ∀ c, c ∈ _renderImage dstStride bpp srcStride bytesPerPixel i N dst src ↔
        ∃ y, dst.y ≤ y ∧ y < dst.y + dst.h ∧ y % N = i ∧
          c = rowCall dstStride bpp srcStride bytesPerPixel dst src y) ∧
    (∀ i j : Int, 0 ≤ i → i < N → 0 ≤ j → j < N → i ≠ j →
      List.Disjoint (_renderImage dstStride bpp srcStride bytesPerPixel i N dst src)
        (_renderImage dstStride bpp srcStride bytesPerPixel j N dst src)) ∧
    (∀ c, c ∈ _renderImage dstStride bpp srcStride bytesPerPixel 0 1 dst src ↔
      ∃ i : Int, 0 ≤ i ∧ i < N ∧
        c ∈ _renderImage dstStride bpp srcStride bytesPerPixel i N dst src) := by
  have hmem : ∀ (i M : Int), 1 ≤ M → 0 ≤ i → i < M → ∀ c,
      c ∈ _renderImage dstStride bpp srcStride bytesPerPixel i M dst src ↔
        ∃ y, dst.y ≤ y ∧ y < dst.y + dst.h ∧ y % M = i ∧
          c = rowCall dstStride bpp srcStride bytesPerPixel dst src y := by
    intro i M hM hi hiM c
    rw [renderImage_eq _ _ _ _ _ _ _ _ hh, List.mem_map]
    constructor
    · rintro ⟨y, hy, rfl⟩
      rw [mem_boxRows _ _ _ _ hM hi hiM] at hy
      exact ⟨y, hy.1, hy.2.1, hy.2.2, rfl⟩
    · rintro ⟨y, a, b, r, rfl⟩
      exact ⟨y, (mem_boxRows _ _ _ _ hM hi hiM y).mpr ⟨a, b, r⟩, rfl⟩
  have hnd : ∀ (i M : Int), 1 ≤ M →
      (_renderImage dstStride bpp srcStride bytesPerPixel i M dst src).Nodup := by
    intro i M hM
    rw [renderImage_eq _ _ _ _ _ _ _ _ hh]
    exact (boxRows_nodup _ _ _ _ hM).map (rowCall_injective _ _ _ _ _ _)
  refine ⟨⟨hnd 0 1 (le_refl _), ?_⟩, fun i hi hiN => ⟨hnd i N hN, hmem i N hN hi hiN⟩, ?_, ?_⟩
  · intro c
    rw [hmem 0 1 (le_refl _) (le_refl _) (by decide)]
    constructor
    · rintro ⟨y, a, b, _, e⟩; exact ⟨y, a, b, e⟩
    · rintro ⟨y, a, b, e⟩; exact ⟨y, a, b, Int.emod_one y, e⟩
  · intro i j hi hiN hj hjN hij c hci hcj
    rw [hmem i N hN hi hiN] at hci
    rw [hmem j N hN hj hjN] at hcj
    obtain ⟨y, _, _, r1, e1⟩ := hci
    obtain ⟨z, _, _, r2, e2⟩ := hcj
    have : y = z := rowCall_injective _ _ _ _ _ _ (e1.symm.trans e2)
    subst this
    exact hij (r1.symm.trans r2)
  · intro c
    rw [hmem 0 1 (le_refl _) (le_refl _) (by decide)]
    constructor
    · rintro ⟨y, a, b, _, e⟩
      refine ⟨y % N, Int.emod_nonneg _ (by omega), Int.emod_lt_of_pos _ (by omega), ?_⟩
      rw [hmem _ N hN (Int.emod_nonneg _ (by omega)) (Int.emod_lt_of_pos _ (by omega))]
      exact ⟨y, a, b, rfl, e⟩
    · rintro ⟨i, hi, hiN, hc⟩
      rw [hmem i N hN hi hiN] at hc
      obtain ⟨y, a, b, _, e⟩ := hc
      exact ⟨y, a, b, Int.emod_one y, e⟩

/-- C17 for a blit of five rows starting at row 3, with two workers: the calls
of the two workers are disjoint. -/
theorem renderImage_workers_partition_witness :
    List.Disjoint (_renderImage 400 4 64 4 0 2 ⟨10, 3, 7, 5⟩ ⟨1, 2, 7, 5⟩)
      (_renderImage 400 4 64 4 1 2 ⟨10, 3, 7, 5⟩ ⟨1, 2, 7, 5⟩) :=
  (renderImage_workers_partition 400 4 64 4 ⟨10, 3, 7, 5⟩ ⟨1, 2, 7, 5⟩ 2 (by decide)
    (by decide)).2.2.1 0 1 (by decide) (by decide) (by decide) (by decide) (by decide)

/-! ## Switching the engine mode -/

/-- The thread acquisition loop stops inside `[i, max]`, at `max` or at the
first refusal of the pool, with every thread before that acquired. -/
theorem acquireThreads_spec (getThread : Int → Bool) (max : Int) (fuel : Nat) (i : Int)
    (hi : i ≤ max) (hf : (max - i).toNat ≤ fuel) :
    i ≤ acquireThreads getThread max fuel i ∧ acquireThreads getThread max fuel i ≤ max ∧
      (acquireThreads getThread max fuel i = max ∨
        getThread (acquireThreads getThread max fuel i) = false) ∧
      ∀ k, i ≤ k → k < acquireThreads getThread max fuel i → getThread k = true := by
  induction fuel generalizing i with
  | zero =>
    simp only [acquireThreads]
    exact ⟨le_refl _, hi, Or.inl (by omega), fun k h1 h2 => by omega⟩
  | succ n ih =>
    simp only [acquireThreads]
    by_cases h1 : i < max
    · rw [if_pos h1]
      cases hg : getThread i with
      | true =>
        simp only [if_true]
        obtain ⟨a, b, c, d⟩ := ih (i + 1) (by omega) (by omega)
        refine ⟨by omega, b, c, ?_⟩
        intro k hk1 hk2
        by_cases hk : k = i
        · rw [hk]; exact hg
        · exact d k (by omega) hk2
      | false =>
        simp only [Bool.false_eq_true, if_false]
        exact ⟨le_refl _, hi, Or.inr hg, fun k h1 h2 => by omega⟩
    · rw [if_neg h1]
      exact ⟨le_refl _, hi, Or.inl (by omega), fun k h1 h2 => by omega⟩

/-- C18: `setEngine(engine, cores)`, for every `engine`, every `cores` and every
behaviour of the thread pool, on an engine whose own context has offset 0 and
delta 1 and whose workers, if it has any, are as `setEngine` builds them.
Afterwards the engine is single-threaded (no worker manager) or it has `W`
workers with `2 <= W <= RASTER_MAX_WORKERS`, worker `i` having `id` `i`, offset
`i` and delta `W`; every render context, that of the engine and those of the
workers, satisfies `0 <= offset < delta` and `delta >= 1`, the assertions of
`alignToDelta`; and a worker manager started by this call has an empty queue
and one worker for each thread the pool handed out. -/
theorem setEngine_workers (T : ThreadEnv) (e : RasterPaintEngineMT) (engine cores : Int)
    (hm : ∀ m, e.workerManager = some m → m.WorkersOK)
    (hctx : e.ctx.offset = 0 ∧ e.ctx.delta = 1) :
    ((e.setEngine T engine cores).workerManager = none ∨
      ∃ m, (e.setEngine T engine cores).workerManager = some m ∧ m.WorkersOK) ∧
    (∀ c ∈ (e.setEngine T engine cores).renderContexts,
      0 ≤ c.offset ∧ c.offset < c.delta ∧ 1 ≤ c.delta) ∧
    (e.workerManager = none → ∀ m, (e.setEngine T engine cores).workerManager = some m →
      m.Started ∧ ∀ k : Nat, k < m.numWorkers → T.getThread k = true) := by
  have key : ∀ e1 : RasterPaintEngineMT, e1.ctx = e.ctx →
      (e1.workerManager = none ∨ ∃ m, e1.workerManager = some m ∧ m.WorkersOK) →
      ∀ c ∈ e1.renderContexts, 0 ≤ c.offset ∧ c.offset < c.delta ∧ 1 ≤ c.delta := by
    intro e1 hc hw c hcm
    unfold RasterPaintEngineMT.renderContexts at hcm
    rw [List.mem_cons] at hcm
    rcases hcm with rfl | hcm
    · rw [hc, hctx.1, hctx.2]; decide
    · rcases hw with hw | ⟨m, hw, h2, h16, hl, ht⟩
      · rw [hw] at hcm; simp at hcm
      · rw [hw] at hcm
        simp only [List.mem_map] at hcm
        obtain ⟨task, htm, rfl⟩ := hcm
        obtain ⟨i, hi, rfl⟩ := List.getElem_of_mem htm
        obtain ⟨a, b, c⟩ := ht i _ (List.getElem?_eq_getElem hi)
        rw [b, c]
        rw [hl] at hi
        omega
  have hold : e.workerManager = none ∨ ∃ m, e.workerManager = some m ∧ m.WorkersOK := by
    cases hw : e.workerManager with
    | none => exact Or.inl rfl
    | some m => exact Or.inr ⟨m, rfl, hm m hw⟩
  have hnone : ∀ e1 : RasterPaintEngineMT, e1.ctx = e.ctx → e1.workerManager = none →
      (e1.workerManager = none ∨ ∃ m, e1.workerManager = some m ∧ m.WorkersOK) ∧
      (∀ c ∈ e1.renderContexts, 0 ≤ c.offset ∧ c.offset < c.delta ∧ 1 ≤ c.delta) ∧
      (e.workerManager = none → ∀ m, e1.workerManager = some m →
        m.Started ∧ ∀ k : Nat, k < m.numWorkers → T.getThread k = true) := by
    intro e1 hc hw
    refine ⟨Or.inl hw, key e1 hc (Or.inl hw), ?_⟩
    intro _ m hm1
    rw [hw] at hm1
    exact absurd hm1 (by simp)
  have hsame : (e.workerManager = none ∨ ∃ m, e.workerManager = some m ∧ m.WorkersOK) ∧
      (∀ c ∈ e.renderContexts, 0 ≤ c.offset ∧ c.offset < c.delta ∧ 1 ≤ c.delta) ∧
      (e.workerManager = none → ∀ m, e.workerManager = some m →
        m.Started ∧ ∀ k : Nat, k < m.numWorkers → T.getThread k = true) := by
    refine ⟨hold, key e rfl hold, ?_⟩
    intro h0 m hm1
    rw [h0] at hm1
    exact absurd hm1 (by simp)
  unfold RasterPaintEngineMT.setEngine
  simp only
  by_cases c1 : (!T.threadPool) = true
  · rw [if_pos c1]; exact hsame
  rw [if_neg c1]
  by_cases c2 : e.workerManager.isSome = decide (engine = T.PAINTER_ENGINE_RASTER_MT)
  · rw [if_pos c2]; exact hsame
  rw [if_neg c2]
  by_cases c3 : decide (engine = T.PAINTER_ENGINE_RASTER_MT) = true
  swap
  · rw [if_neg c3]; exact hnone _ rfl rfl
  rw [if_pos c3]
  by_cases c4 : (!T.managerAllocOk) = true
  · rw [if_pos c4]; exact hnone _ rfl rfl
  rw [if_neg c4]
  generalize hmax : (if min (if cores > 0 then cores else T.numberOfProcessors)
    (RASTER_MAX_WORKERS : Int) < 2 then (2 : Int)
    else min (if cores > 0 then cores else T.numberOfProcessors) (RASTER_MAX_WORKERS : Int)) = max
  have hmax2 : 2 ≤ max := by
    rw [← hmax]; split_ifs <;> omega
  have hmax16 : max ≤ 16 := by
    rw [← hmax]
    have : min (if cores > 0 then cores else T.numberOfProcessors) (RASTER_MAX_WORKERS : Int)
        ≤ 16 := min_le_right _ _
    split_ifs <;> omega
  obtain ⟨a1, a2, a3, a4⟩ := acquireThreads_spec T.getThread max max.toNat 0 (by omega) (by omega)
  generalize acquireThreads T.getThread max max.toNat 0 = cnt at a1 a2 a3 a4 ⊢
  by_cases c5 : cnt ≤ 1
  · rw [if_pos c5]; exact hnone _ rfl rfl
  rw [if_neg c5]
  have hok : RasterPaintWorkerManager.WorkersOK
      { numWorkers := cnt.toNat,
        tasks := (List.range cnt.toNat).map (fun (k : Nat) =>
          { RasterPaintTask.new with ctx := { RasterPaintContext.new with
              id := (k : Int), offset := (k : Int), delta := cnt } }),
        cmdPosition := 0,
        cmdData := List.replicate RASTER_MAX_COMMANDS none,
        calcPosition := 0,
        calcData := List.replicate RASTER_MAX_CALCULATIONS none } := by
    refine ⟨by simp only; omega, ?_, by simp only [List.length_map, List.length_range], ?_⟩
    · simp only [RASTER_MAX_WORKERS]; omega
    · intro i task ht
      simp only [List.getElem?_map, Option.map_eq_some'] at ht
      obtain ⟨k, hk, rfl⟩ := ht
      by_cases hlt : i < cnt.toNat
      · rw [List.getElem?_range hlt] at hk
        obtain rfl := Option.some.inj hk
        refine ⟨rfl, rfl, ?_⟩
        simp only
        omega
      · rw [List.getElem?_eq_none (by simp only [List.length_range]; omega)] at hk
        exact absurd hk (by simp)
  refine ⟨Or.inr ⟨_, rfl, hok⟩, key _ rfl (Or.inr ⟨_, rfl, hok⟩), ?_⟩
  intro _ m hm1
  obtain rfl := Option.some.inj hm1
  refine ⟨⟨rfl, rfl, List.length_replicate _ _, List.length_replicate _ _⟩, ?_⟩
  intro k hk
  simp only at hk
  exact a4 k (by omega) (by omega)

/-- The fresh single-threaded engine has the context of the constructor and no
workers. -/
theorem stEngine_contexts :
    (∀ m, stEngine.workerManager = some m → m.WorkersOK) ∧
      stEngine.ctx.offset = 0 ∧ stEngine.ctx.delta = 1 :=
  ⟨fun m h => absurd h (by simp [stEngine, RasterPaintEngineMT.create]), rfl, rfl⟩

/-- C18 on the fresh engine with a pool that hands out three threads: the
engine has no workers or well-formed ones, and every render context satisfies
the assertions of `alignToDelta`. -/
theorem setEngine_workers_witness :
    ((stEngine.setEngine threeThreads 1 0).workerManager = none ∨
      ∃ m, (stEngine.setEngine threeThreads 1 0).workerManager = some m ∧ m.WorkersOK) ∧
    (∀ c ∈ (stEngine.setEngine threeThreads 1 0).renderContexts,
      0 ≤ c.offset ∧ c.offset < c.delta ∧ 1 ≤ c.delta) :=
  ⟨(setEngine_workers threeThreads stEngine 1 0 stEngine_contexts.1 stEngine_contexts.2).1,
    (setEngine_workers threeThreads stEngine 1 0 stEngine_contexts.1 stEngine_contexts.2).2.1⟩

/-! ## Serializers: a failed pattern context skips the call -/

/-- The function `_getPatternRasterPaintContext` renders nothing and leaves the
worker manager alone. -/
theorem getPattern_frame (e : RasterPaintEngineMT) (O : SerializeEnv) :
    (e._getPatternRasterPaintContext O).2.rendered = e.rendered ∧
      (e._getPatternRasterPaintContext O).2.workerManager = e.workerManager := by
  unfold RasterPaintEngineMT._getPatternRasterPaintContext
  simp only
  cases e.ctxPctx with
  | none =>
    simp only
    split_ifs <;> exact ⟨rfl, rfl⟩
  | some p =>
    simp only
    split_ifs <;> exact ⟨rfl, rfl⟩

/-- For a request of at least twice the static size the loop of `getBuffer`
does not run: the capacity stays at 16384. -/
theorem growCapacity_large (t : Target) (fuel : Nat) (size : Int) (h : 16384 ≤ size) :
    growCapacity t (fuel + 1) size 16384 = some 16384 := by
  simp only [growCapacity]
  rw [if_neg (by omega)]

/-- The first capacity tried is 16384 on both targets. -/
theorem first_capacity (t : Target) : wrapSysInt t (BUFFER_STATIC_SIZE * 2) = 16384 := by
  cases t <;> decide

/-- Every successful `getBuffer(size)` that has to grow the buffer for a
request above 16384 bytes allocates `size` bytes and records 16384 as the
buffer size. -/
theorem getBuffer_large (t : Target) (ctx : RasterPaintContext) (size : Int)
    (h1 : ctx.bufferSize < size) (h2 : 16384 < size) :
    ctx.getBuffer t size true =
      some (true, { ctx with buffer := some size, bufferSize := 16384 }) := by
  unfold RasterPaintContext.getBuffer
  rw [if_pos (by omega), first_capacity, growCapacity_large t 64 size (by omega)]
  rfl

/-- C20, evaluated on the code: on a fresh context (static buffer, `bufferSize`
8192) a successful `getBuffer(20000)` allocates 20000 bytes, returns the new
buffer, and records `bufferSize = 16384`, which is less than the size asked
for: the loop `while (size < capacity) capacity <<= 1;` does not run when
`size` exceeds the first capacity. -/
theorem getBuffer_records_less_than_size (t : Target) :
    RasterPaintContext.new.bufferSize = 8192 ∧
      RasterPaintContext.new.getBuffer t 20000 true =
        some (true, { RasterPaintContext.new with buffer := some 20000, bufferSize := 16384 }) ∧
      (16384 : Int) < 20000 :=
  ⟨rfl, getBuffer_large t RasterPaintContext.new 20000 (by decide) (by decide), by decide⟩

/-- For a request between the static size and the first capacity the loop
doubles the capacity until the `sysint_t` wraps around: on the 32-bit target a
successful `getBuffer(10000)` on a fresh context records a negative buffer
size. -/
theorem getBuffer_small_wraps :
    RasterPaintContext.new.getBuffer .ilp32 10000 true =
      some (true, { RasterPaintContext.new with
        buffer := some 10000, bufferSize := -2147483648 }) := by
  decide

/-! ## `alignToDelta` returns the least row of the worker -/

/-- C21: for all integers `y`, `offset`, `delta` with `0 <= offset < delta`
(`y` may be negative), `alignToDelta(y, offset, delta)` lies in `[y, y + delta)`,
has the mathematical residue `offset` modulo `delta`, and is the least integer
`>= y` with that residue. -/
theorem alignToDelta_least (y offset delta : Int) (ho : 0 ≤ offset) (hod : offset < delta) :
    y ≤ alignToDelta y offset delta ∧ alignToDelta y offset delta < y + delta ∧
      alignToDelta y offset delta % delta = offset ∧
      ∀ z : Int, y ≤ z → z % delta = offset → alignToDelta y offset delta ≤ z := by
  obtain ⟨h1, h2, h3⟩ := alignToDelta_spec y offset delta (by omega) ho hod
  refine ⟨h1, h2, h3, ?_⟩
  intro z hz hm
  by_contra hc
  have := congruent_gap (alignToDelta y offset delta) z delta (by omega) (by rw [hm, h3])
    (by omega)
  omega

/-- C21 at the negative row `-7` with offset 2 and delta 4: the result is `-6`,
the least row `>= -7` with residue 2. -/
theorem alignToDelta_least_witness :
    alignToDelta (-7) 2 4 = -6 ∧
      (-7 ≤ alignToDelta (-7) 2 4 ∧ alignToDelta (-7) 2 4 < -7 + 4 ∧
        alignToDelta (-7) 2 4 % 4 = 2 ∧
        ∀ z : Int, -7 ≤ z → z % 4 = 2 → alignToDelta (-7) 2 4 ≤ z) :=
  ⟨by decide, alignToDelta_least (-7) 2 4 (by decide) (by decide)⟩

/-! ## Arena invariant: `used` counts the live allocations -/

/-- Filtering after erasing an element the filter drops anyway. -/
theorem filter_erase_of_not (l : List Ptr) (f : Ptr → Bool) (p : Ptr) (h : f p = false) :
    (l.erase p).filter f = l.filter f := by
  induction l with
  | nil => rfl
  | cons x rest ih =>
    by_cases hx : x = p
    · subst hx
      simp [List.filter_cons, h]
    · rw [List.erase_cons_tail (by simpa using hx)]
      simp only [List.filter_cons, ih]

/-- The live bytes of a block do not count a pointer into another block. -/
theorem liveBytes_cons_other (t : Target) (b : Block) (live : List Ptr) (p : Ptr)
    (h : p.block ≠ b.addr) : liveBytes t b (p :: live) = liveBytes t b live := by
  simp [liveBytes, List.filter_cons, h]

/-- The live bytes of a block count a new pointer into it. -/
theorem liveBytes_cons_same (t : Target) (b : Block) (live : List Ptr) (p : Ptr)
    (h : p.block = b.addr) :
    liveBytes t b (p :: live) = recordedSize t b p + liveBytes t b live := by
  simp [liveBytes, List.filter_cons, h]

/-- Freeing a pointer into another block leaves the live bytes of a block. -/
theorem liveBytes_erase_other (t : Target) (b : Block) (live : List Ptr) (p : Ptr)
    (h : p.block ≠ b.addr) : liveBytes t b (live.erase p) = liveBytes t b live := by
  unfold liveBytes
  rw [filter_erase_of_not _ _ _ (by simpa using h)]

/-- Freeing a live pointer of a block takes its recorded size off the live
bytes. -/
theorem liveBytes_erase_same (t : Target) (b : Block) (live : List Ptr) (p : Ptr)
    (hp : p ∈ live) (h : p.block = b.addr) :
    liveBytes t b live = recordedSize t b p + liveBytes t b (live.erase p) := by
  induction live with
  | nil => simp at hp
  | cons x rest ih =>
    by_cases hx : x = p
    · subst hx
      rw [List.erase_cons_head, liveBytes_cons_same t b rest x h]
    · have hp' : p ∈ rest := by
        rcases List.mem_cons.mp hp with e | e
        · exact absurd e.symm hx
        · exact e
      rw [List.erase_cons_tail (by simpa using hx)]
      by_cases hxb : x.block = b.addr
      · rw [liveBytes_cons_same t b _ x hxb, liveBytes_cons_same t b _ x hxb, ih hp']
        omega
      · rw [liveBytes_cons_other t b _ x hxb, liveBytes_cons_other t b _ x hxb, ih hp']

/-- The recorded sizes depend on the headers of the block only. -/
theorem recordedSize_congr (t : Target) (b b1 : Block) (p : Ptr) (h : b1.headers = b.headers) :
    recordedSize t b1 p = recordedSize t b p := by
  simp [recordedSize, h]

/-- The live bytes depend on the address and the headers of the block only. -/
theorem liveBytes_congr (t : Target) (b b1 : Block) (live : List Ptr)
    (ha : b1.addr = b.addr) (h : b1.headers = b.headers) :
    liveBytes t b1 live = liveBytes t b live := by
  unfold liveBytes
  rw [ha]
  congr 1
  apply List.map_congr_left
  intro p _
  exact recordedSize_congr t b b1 p h

/-- A block keeps its invariant when a pointer into another block becomes
live. -/
theorem blockOK_cons_other (t : Target) (b : Block) (live : List Ptr) (p0 : Ptr)
    (h : BlockOK t b live) (hne : p0.block ≠ b.addr) : BlockOK t b (p0 :: live) := by
  obtain ⟨h1, h2, h3, h4, h5⟩ := h
  refine ⟨h1, h2, by rw [liveBytes_cons_other t b live p0 hne]; exact h3, ?_, ?_⟩
  · intro p hp hpb
    rcases List.mem_cons.mp hp with rfl | hp
    · exact absurd hpb hne
    · exact h4 p hp hpb
  · intro p hp q hq hpb hqb hpq
    rcases List.mem_cons.mp hp with rfl | hp
    · exact absurd hpb hne
    · rcases List.mem_cons.mp hq with rfl | hq
      · exact absurd hqb hne
      · exact h5 p hp q hq hpb hqb hpq

/-- A block keeps its invariant when a pointer into another block is freed. -/
theorem blockOK_erase_other (t : Target) (b : Block) (live : List Ptr) (p0 : Ptr)
    (h : BlockOK t b live) (hne : p0.block ≠ b.addr) : BlockOK t b (live.erase p0) := by
  obtain ⟨h1, h2, h3, h4, h5⟩ := h
  refine ⟨h1, h2, by rw [liveBytes_erase_other t b live p0 hne]; exact h3, ?_, ?_⟩
  · intro p hp hpb
    exact h4 p (List.mem_of_mem_erase hp) hpb
  · intro p hp q hq hpb hqb hpq
    exact h5 p (List.mem_of_mem_erase hp) q (List.mem_of_mem_erase hq) hpb hqb hpq

/-- An allocation at the cursor of a block with room: the block keeps its
invariant with the new pointer live, and the new pointer was not live. -/
theorem blockOK_alloc (t : Target) (b : Block) (live : List Ptr) (sz : Nat)
    (h : BlockOK t b live) (hH : sizeofHeader t ≤ sz) (hroom : b.pos + sz ≤ BLOCK_SIZE) :
    BlockOK t (b.allocated sz) (⟨b.addr, b.pos + sizeofHeader t⟩ :: live) ∧
    (⟨b.addr, b.pos + sizeofHeader t⟩ : Ptr) ∉ live := by
  obtain ⟨h1, h2, h3, h4, h5⟩ := h
  have hpos := sizeofHeader_pos t
  have hold : ∀ p ∈ live, p.block = b.addr →
      recordedSize t (b.allocated sz) p = recordedSize t b p := by
    intro p hp hpb
    obtain ⟨a1, a2, a3⟩ := h4 p hp hpb
    have hne : (p.offset - sizeofHeader t == b.pos) = false := by
      rw [beq_eq_false_iff_ne]
      omega
    simp only [recordedSize, Block.allocated, List.lookup_cons, hne]
  have hnew : recordedSize t (b.allocated sz) ⟨b.addr, b.pos + sizeofHeader t⟩ = sz := by
    simp [recordedSize, Block.allocated, List.lookup_cons]
  have hbytes : liveBytes t (b.allocated sz) live = liveBytes t b live := by
    unfold liveBytes
    simp only [Block.allocated]
    congr 1
    apply List.map_congr_left
    intro p hp
    rw [List.mem_filter] at hp
    exact hold p hp.1 (by simpa using hp.2)
  have hfresh : (⟨b.addr, b.pos + sizeofHeader t⟩ : Ptr) ∉ live := by
    intro hm
    obtain ⟨a1, a2, a3⟩ := h4 _ hm rfl
    simp only at a1 a2 a3
    omega
  refine ⟨⟨by simp only [Block.allocated]; omega, by simp only [Block.allocated]; omega,
    ?_, ?_, ?_⟩, hfresh⟩
  · rw [liveBytes_cons_same t _ _ _ rfl, hnew, hbytes]
    simp only [Block.allocated]
    omega
  · intro p hp hpb
    rcases List.mem_cons.mp hp with rfl | hp
    · rw [hnew]
      simp only [Block.allocated]
      omega
    · obtain ⟨a1, a2, a3⟩ := h4 p hp hpb
      rw [hold p hp hpb]
      simp only [Block.allocated]
      omega
  · intro p hp q hq hpb hqb hpq
    rcases List.mem_cons.mp hp with rfl | hp
    · rcases List.mem_cons.mp hq with rfl | hq
      · exact absurd rfl hpq
      · obtain ⟨a1, a2, a3⟩ := h4 q hq hqb
        rw [hold q hq hqb, hnew]
        simp only
        right
        omega
    · rcases List.mem_cons.mp hq with rfl | hq
      · obtain ⟨a1, a2, a3⟩ := h4 p hp hpb
        rw [hold p hp hpb, hnew]
        simp only
        left
        omega
      · rw [hold p hp hpb, hold q hq hqb]
        exact h5 p hp q hq hpb hqb hpq

/-- A block with `used == 0` has no live allocation, and keeps its invariant
when its cursor is reset. -/
theorem blockOK_reset (t : Target) (b : Block) (live : List Ptr) (h : BlockOK t b live)
    (h0 : b.used = 0) :
    (∀ p ∈ live, p.block ≠ b.addr) ∧ BlockOK t { b with pos := 0 } live := by
  obtain ⟨h1, h2, h3, h4, h5⟩ := h
  have hpos := sizeofHeader_pos t
  have hnone : ∀ p ∈ live, p.block ≠ b.addr := by
    intro p hp hpb
    obtain ⟨a1, a2, a3⟩ := h4 p hp hpb
    have := liveBytes_erase_same t b live p hp hpb
    omega
  refine ⟨hnone, by simp only; omega, by simp only; omega, ?_, ?_, ?_⟩
  · exact h3
  · intro p hp hpb
    exact absurd hpb (hnone p hp)
  · intro p hp q _ hpb
    exact absurd hpb (hnone p hp)

/-- Freeing a live pointer of a block: the header in front of it holds its
recorded size, at most `used`, and the block keeps its invariant with `used`
reduced by that size. -/
theorem blockOK_free (t : Target) (b : Block) (live : List Ptr) (p : Ptr)
    (h : BlockOK t b live) (hp : p ∈ live) (hpb : p.block = b.addr) :
    b.headers.lookup (p.offset - sizeofHeader t) = some (recordedSize t b p) ∧
      recordedSize t b p ≤ b.used ∧
      BlockOK t { b with used := b.used - recordedSize t b p } (live.erase p) := by
  obtain ⟨h1, h2, h3, h4, h5⟩ := h
  have hpos := sizeofHeader_pos t
  obtain ⟨a1, a2, a3⟩ := h4 p hp hpb
  have hsum := liveBytes_erase_same t b live p hp hpb
  have hlook : b.headers.lookup (p.offset - sizeofHeader t) = some (recordedSize t b p) := by
    unfold recordedSize at a2 ⊢
    cases hl : b.headers.lookup (p.offset - sizeofHeader t) with
    | none => rw [hl] at a2; simp at a2; omega
    | some v => rfl
  refine ⟨hlook, by omega, by simp only; omega, by simp only; omega, ?_, ?_, ?_⟩
  · have e : liveBytes t { b with used := b.used - recordedSize t b p } (live.erase p) =
        liveBytes t b (live.erase p) := rfl
    rw [e]
    simp only
    omega
  · intro q hq hqb
    exact h4 q (List.mem_of_mem_erase hq) hqb
  · intro q hq r hr hqb hrb hqr
    exact h5 q (List.mem_of_mem_erase hq) r (List.mem_of_mem_erase hr) hqb hrb hqr

/-- The arena invariant after an allocation that put the block `nb` at the head
of the list and left the other blocks as they were. -/
theorem arenaInv_assemble (t : Target) (a : MemoryAllocator) (live : List Ptr) (nb : Block)
    (others : List Block) (next : Nat) (p0 : Ptr) (h : ArenaInv t a live)
    (hwf : (⟨nb :: others, next⟩ : MemoryAllocator).WF) (hsub : ∀ b ∈ others, b ∈ a.blocks)
    (hcov : ∀ b ∈ a.blocks, b ∈ others ∨ b.addr = nb.addr) (hp0 : p0.block = nb.addr)
    (hnb : BlockOK t nb (p0 :: live)) (hfresh : p0 ∉ live) :
    ArenaInv t ⟨nb :: others, next⟩ (p0 :: live) := by
  obtain ⟨_, hnd, hin, hok⟩ := h
  have hnod : nb.addr ∉ others.map Block.addr := by
    have := hwf.1
    simp only [List.map_cons, List.nodup_cons] at this
    exact this.1
  refine ⟨hwf, List.nodup_cons.mpr ⟨hfresh, hnd⟩, ?_, ?_⟩
  · intro p hp
    rcases List.mem_cons.mp hp with rfl | hp
    · exact ⟨nb, List.mem_cons_self _ _, hp0.symm⟩
    · obtain ⟨b, hb, hba⟩ := hin p hp
      rcases hcov b hb with hb1 | hb1
      · exact ⟨b, List.mem_cons_of_mem _ hb1, hba⟩
      · exact ⟨nb, List.mem_cons_self _ _, by rw [← hb1]; exact hba⟩
  · intro b hb
    rcases List.mem_cons.mp hb with rfl | hb
    · exact hnb
    · apply blockOK_cons_other t b live p0 (hok b (hsub b hb))
      intro he
      apply hnod
      rw [← hp0, he]
      exact List.mem_map_of_mem _ hb

/-- The arena invariant is kept by `alloc`, with the pointer returned becoming
live. -/
theorem arenaInv_alloc (t : Target) (a : MemoryAllocator) (live : List Ptr) (size : Nat)
    (sysOk : Bool) (st : AllocStep) (h : ArenaInv t a live)
    (hsize : size + sizeofHeader t ≤ BLOCK_SIZE) (hst : a.alloc t size sysOk = some st) :
    ArenaInv t st.after (match st.ptr with
      | some p => p :: live
      | none => live) := by
  have hwf := h.1
  have hin := h.2.2.1
  have hok := h.2.2.2
  have hpos := sizeofHeader_pos t
  obtain ⟨st', hst', hreq, hfresh, hfail, hfast, hreuse⟩ := alloc_cases t a size sysOk hwf hsize
  rw [hst] at hst'
  obtain rfl : st = st' := Option.some.inj hst'
  have hshape := alloc_shape t a size sysOk hwf hsize st hst
  by_cases hs : headShort a (size + sizeofHeader t)
  · cases hf : findFree a.blocks with
    | none =>
      have hall := (findFree_none a.blocks).mp hf
      have hr : st.sysRequested = true := hreq.mpr ⟨hs, hall⟩
      cases sysOk with
      | false =>
        obtain ⟨e1, e2⟩ := hfail hr rfl
        rw [e1, e2]
        exact h
      | true =>
        obtain ⟨e1, e2⟩ := hfresh hr rfl
        obtain ⟨_, _, _, _, _, _, _, hwf1⟩ := hshape _ e1
        rw [e1]
        rw [e2] at hwf1 ⊢
        have hno : ∀ p ∈ live, p.block ≠ a.sysNext := by
          intro p hp he
          obtain ⟨b, hb, hba⟩ := hin p hp
          have := (hwf.2 b hb).1
          omega
        have hnb0 : BlockOK t ⟨a.sysNext, BLOCK_SIZE, 0, 0, []⟩ live := by
          refine ⟨Nat.zero_le _, le_refl _, ?_, ?_, ?_⟩
          · unfold liveBytes
            rw [List.filter_eq_nil_iff.mpr]
            · rfl
            · intro p hp
              simpa using hno p hp
          · intro p hp hpb
            exact absurd hpb (hno p hp)
          · intro p hp q _ hpb
            exact absurd hpb (hno p hp)
        obtain ⟨k1, k2⟩ := blockOK_alloc t _ live (size + sizeofHeader t) hnb0 (by omega)
          (by simp only; omega)
        have eb : (⟨a.sysNext, BLOCK_SIZE, 0, 0, []⟩ : Block).allocated (size + sizeofHeader t) =
            ⟨a.sysNext, BLOCK_SIZE, size + sizeofHeader t, size + sizeofHeader t,
              [(0, size + sizeofHeader t)]⟩ := by
          simp [Block.allocated]
        have ep : (⟨a.sysNext, 0 + sizeofHeader t⟩ : Ptr) = ⟨a.sysNext, sizeofHeader t⟩ := by
          simp
        simp only at k1 k2
        rw [eb, ep] at k1
        rw [ep] at k2
        exact arenaInv_assemble t a live _ a.blocks _ _ h hwf1 (fun b hb => hb)
          (fun b hb => Or.inl hb) rfl k1 k2
    | some v =>
      obtain ⟨pre, cur, post⟩ := v
      obtain ⟨h1, h2, h3⟩ := (findFree_some _ _ _ _).mp hf
      obtain ⟨e1, e2⟩ := hreuse hs pre cur post h1 h2 h3
      obtain ⟨_, _, _, _, _, _, _, hwf1⟩ := hshape _ e1
      rw [e1]
      rw [e2] at hwf1 ⊢
      have hcur : cur ∈ a.blocks := by rw [h1]; simp
      obtain ⟨_, r2⟩ := blockOK_reset t cur live (hok cur hcur) h3
      obtain ⟨k1, k2⟩ := blockOK_alloc t _ live (size + sizeofHeader t) r2 (by omega)
        (by
          simp only
          omega)
      have eb : ({ cur with pos := 0 } : Block).allocated (size + sizeofHeader t) =
          { cur with headers := (0, size + sizeofHeader t) :: cur.headers,
                     pos := size + sizeofHeader t, used := size + sizeofHeader t } := by
        simp [Block.allocated, h3]
      have ep : (⟨cur.addr, 0 + sizeofHeader t⟩ : Ptr) = ⟨cur.addr, sizeofHeader t⟩ := by
        simp
      simp only at k1 k2
      rw [eb, ep] at k1
      rw [ep] at k2
      refine arenaInv_assemble t a live _ (pre ++ post) _ _ h hwf1 ?_ ?_ rfl k1 k2
      · intro b hb
        rw [h1]
        rcases List.mem_append.mp hb with hb | hb
        · exact List.mem_append_left _ hb
        · exact List.mem_append_right _ (List.mem_cons_of_mem _ hb)
      · intro b hb
        rw [h1] at hb
        rcases List.mem_append.mp hb with hb | hb
        · exact Or.inl (List.mem_append_left _ hb)
        · rcases List.mem_cons.mp hb with rfl | hb
          · exact Or.inr rfl
          · exact Or.inl (List.mem_append_right _ hb)
  · obtain ⟨b, rest, hbl, e1, e2⟩ := hfast hs
    obtain ⟨_, _, _, _, _, _, _, hwf1⟩ := hshape _ e1
    rw [e1]
    rw [e2] at hwf1 ⊢
    have hb : b ∈ a.blocks := by rw [hbl]; simp
    have hroom : b.pos + (size + sizeofHeader t) ≤ BLOCK_SIZE := by
      have hw := hwf.2 b hb
      unfold headShort at hs
      rw [hbl] at hs
      simp only [not_lt] at hs
      omega
    obtain ⟨k1, k2⟩ := blockOK_alloc t b live (size + sizeofHeader t) (hok b hb) (by omega) hroom
    refine arenaInv_assemble t a live _ rest _ _ h hwf1 ?_ ?_ rfl k1 k2
    · intro x hx
      rw [hbl]
      exact List.mem_cons_of_mem _ hx
    · intro x hx
      rw [hbl] at hx
      rcases List.mem_cons.mp hx with rfl | hx
      · exact Or.inr rfl
      · exact Or.inl hx

/-- What `free` of a live pointer does to one block of an arena that satisfies
the invariant: a block other than the one pointed into is not changed; the
block pointed into loses the recorded size of the allocation from `used` and
nothing else.  Either way the block satisfies the invariant afterwards. -/
theorem free_block (t : Target) (live : List Ptr) (p : Ptr) (b : Block)
    (h : BlockOK t b live) (hp : p ∈ live) :
    (if b.addr = p.block then
      match b.headers.lookup (p.offset - sizeofHeader t) with
      | some sz => { b with used := usub t b.used sz }
      | none => b
    else b) =
      (if b.addr = p.block then { b with used := b.used - recordedSize t b p } else b) ∧
    BlockOK t (if b.addr = p.block then { b with used := b.used - recordedSize t b p } else b)
      (live.erase p) := by
  by_cases hb : b.addr = p.block
  · obtain ⟨k1, k2, k3⟩ := blockOK_free t b live p h hp hb.symm
    have hu : b.used < 4294967296 := by
      have := h.1
      have := h.2.1
      have hB : BLOCK_SIZE = 8000 := rfl
      omega
    rw [if_pos hb, if_pos hb, k1]
    simp only
    rw [usub_small t _ _ hu k2]
    exact ⟨rfl, k3⟩
  · rw [if_neg hb, if_neg hb]
    exact ⟨rfl, blockOK_erase_other t b live p h (fun e => hb e.symm)⟩

/-- The arena invariant is kept by `free` of a live pointer, which stops being
live. -/
theorem arenaInv_free (t : Target) (a : MemoryAllocator) (live : List Ptr) (p : Ptr)
    (h : ArenaInv t a live) (hp : p ∈ live) : ArenaInv t (a.free t p) (live.erase p) := by
  obtain ⟨hwf, hnd, hin, hok⟩ := h
  have hblocks : (a.free t p).blocks = a.blocks.map (fun b =>
      if b.addr = p.block then { b with used := b.used - recordedSize t b p } else b) := by
    unfold MemoryAllocator.free
    simp only
    apply List.map_congr_left
    intro b hb
    exact (free_block t live p b (hok b hb) hp).1
  have haddr : ∀ b : Block, (if b.addr = p.block then
      ({ b with used := b.used - recordedSize t b p } : Block) else b).addr = b.addr := by
    intro b; split_ifs <;> rfl
  refine ⟨⟨?_, ?_⟩, hnd.erase p, ?_, ?_⟩
  · rw [hblocks, List.map_map]
    have : (Block.addr ∘ fun b => if b.addr = p.block then
        ({ b with used := b.used - recordedSize t b p } : Block) else b) = Block.addr := by
      funext b; exact haddr b
    rw [this]
    exact hwf.1
  · intro x hx
    rw [hblocks, List.mem_map] at hx
    obtain ⟨b, hb, rfl⟩ := hx
    obtain ⟨w1, w2, w3, w4⟩ := hwf.2 b hb
    have hsn : (a.free t p).sysNext = a.sysNext := rfl
    rw [hsn]
    have k := (free_block t live p b (hok b hb) hp).2
    split_ifs at k ⊢
    · exact ⟨w1, w2, k.1, k.2.1⟩
    · exact ⟨w1, w2, w3, w4⟩
  · intro q hq
    obtain ⟨b, hb, hba⟩ := hin q (List.mem_of_mem_erase hq)
    refine ⟨_, ?_, (haddr b).trans hba⟩
    rw [hblocks]
    exact List.mem_map_of_mem _ hb
  · intro x hx
    rw [hblocks, List.mem_map] at hx
    obtain ⟨b, hb, rfl⟩ := hx
    exact (free_block t live p b (hok b hb) hp).2

/-- Every reachable arena state satisfies the arena invariant. -/
theorem arenaReachable_inv (t : Target) (a : MemoryAllocator) (live : List Ptr)
    (h : ArenaReachable t a live) : ArenaInv t a live := by
  induction h with
  | init =>
    refine ⟨init_wf, List.nodup_nil, ?_, ?_⟩
    · intro p hp; simp at hp
    · intro b hb; simp [MemoryAllocator.init] at hb
  | alloc a live size sysOk st _ hsize hst ih => exact arenaInv_alloc t a live size sysOk st ih hsize hst
  | free a live p _ hp ih => exact arenaInv_free t a live p ih hp

/-- Blocks of a well-formed list with the same address are the same block. -/
theorem block_eq_of_addr (a : MemoryAllocator) (hwf : a.WF) (b c : Block)
    (hb : b ∈ a.blocks) (hc : c ∈ a.blocks) (h : b.addr = c.addr) : b = c :=
  List.inj_on_of_nodup_map hwf.1 hb hc h

/-- An allocation that does not start at the cursor of its block has reset the
cursor of a block without live allocations. -/
theorem alloc_reset_unused (t : Target) (a : MemoryAllocator) (live : List Ptr) (size : Nat)
    (sysOk : Bool) (st : AllocStep) (p0 : Ptr) (b : Block) (h : ArenaInv t a live)
    (hsize : size + sizeofHeader t ≤ BLOCK_SIZE) (hst : a.alloc t size sysOk = some st)
    (hp0 : st.ptr = some p0) (hb : b ∈ a.blocks) (hpb : p0.block = b.addr)
    (hoff : p0.offset ≠ b.pos + sizeofHeader t) : ∀ p ∈ live, p.block ≠ b.addr := by
  have hwf := h.1
  have hok := h.2.2.2
  obtain ⟨st', hst', hreq, hfresh, hfail, hfast, hreuse⟩ := alloc_cases t a size sysOk hwf hsize
  rw [hst] at hst'
  obtain rfl : st = st' := Option.some.inj hst'
  by_cases hs : headShort a (size + sizeofHeader t)
  · cases hf : findFree a.blocks with
    | none =>
      have hall := (findFree_none a.blocks).mp hf
      have hr : st.sysRequested = true := hreq.mpr ⟨hs, hall⟩
      cases sysOk with
      | false =>
        have := (hfail hr rfl).1
        rw [hp0] at this
        exact absurd this (by simp)
      | true =>
        have e1 := (hfresh hr rfl).1
        rw [hp0] at e1
        obtain rfl := Option.some.inj e1
        have := (hwf.2 b hb).1
        simp only at hpb
        omega
    | some v =>
      obtain ⟨pre, cur, post⟩ := v
      obtain ⟨h1, h2, h3⟩ := (findFree_some _ _ _ _).mp hf
      have e1 := (hreuse hs pre cur post h1 h2 h3).1
      rw [hp0] at e1
      obtain rfl := Option.some.inj e1
      have hcur : cur ∈ a.blocks := by rw [h1]; simp
      have hbc : b = cur := block_eq_of_addr a hwf b cur hb hcur hpb.symm
      subst hbc
      exact (blockOK_reset t b live (hok b hb) h3).1
  · obtain ⟨hd, rest, hbl, e1, _⟩ := hfast hs
    rw [hp0] at e1
    obtain rfl := Option.some.inj e1
    have hhd : hd ∈ a.blocks := by rw [hbl]; simp
    have hbc : b = hd := block_eq_of_addr a hwf b hd hb hhd hpb.symm
    subst hbc
    exact absurd rfl hoff

/-- C22: in every arena state reachable by `alloc` (request plus header at most
`BLOCK_SIZE`) and `free` of live pointers, every block has `used <= pos <=
BLOCK_SIZE`, its `used` counter is the total recorded size (headers included)
of its live allocations, each live allocation lies inside the block, and any
two live allocations of a block occupy disjoint byte ranges; every live pointer
points into a block of the list.  `free` of a live pointer takes the recorded
size of that allocation off `used` of its block and changes nothing else, and
an `alloc` that does not continue at the cursor of its block (it reset the
cursor) has taken a block without live allocations. -/
theorem arena_live_invariant (t : Target) (a : MemoryAllocator) (live : List Ptr)
    (h : ArenaReachable t a live) :
    (∀ b ∈ a.blocks, b.used ≤ b.pos ∧ b.pos ≤ BLOCK_SIZE ∧ b.used = liveBytes t b live ∧
      (∀ p ∈ live, p.block = b.addr → sizeofHeader t ≤ p.offset ∧
        p.offset - sizeofHeader t + recordedSize t b p ≤ BLOCK_SIZE) ∧
      (∀ p ∈ live, ∀ q ∈ live, p.block = b.addr → q.block = b.addr → p ≠ q →
        p.offset - sizeofHeader t + recordedSize t b p ≤ q.offset - sizeofHeader t ∨
          q.offset - sizeofHeader t + recordedSize t b q ≤ p.offset - sizeofHeader t)) ∧
    (∀ p ∈ live, ∃ b ∈ a.blocks, b.addr = p.block) ∧
    (∀ p ∈ live, (a.free t p).blocks = a.blocks.map (fun b =>
      if b.addr = p.block then { b with used := b.used - recordedSize t b p } else b)) ∧
    (∀ (size : Nat) (sysOk : Bool) (st : AllocStep) (p0 : Ptr), ∀ b ∈ a.blocks,
      size + sizeofHeader t ≤ BLOCK_SIZE → a.alloc t size sysOk = some st →
      st.ptr = some p0 → p0.block = b.addr → p0.offset ≠ b.pos + sizeofHeader t →
      ∀ p ∈ live, p.block ≠ b.addr) := by
  have hinv := arenaReachable_inv t a live h
  obtain ⟨hwf, hnd, hin, hok⟩ := hinv
  refine ⟨?_, hin, ?_, ?_⟩
  · intro b hb
    obtain ⟨k1, k2, k3, k4, k5⟩ := hok b hb
    refine ⟨k2, k1, k3, ?_, k5⟩
    intro p hp hpb
    obtain ⟨a1, _, a3⟩ := k4 p hp hpb
    exact ⟨a1, le_trans a3 k1⟩
  · intro p hp
    unfold MemoryAllocator.free
    simp only
    apply List.map_congr_left
    intro b hb
    exact (free_block t live p b (hok b hb) hp).1
  · intro size sysOk st p0 b hb hsize hst hp0 hpb hoff
    exact alloc_reset_unused t a live size sysOk st p0 b ⟨hwf, hnd, hin, hok⟩ hsize hst hp0 hb
      hpb hoff

/-- The arena `twoAllocsOneFreed` is reachable, with the second pointer live. -/
theorem twoAllocsOneFreed_reachable : ArenaReachable .lp64 twoAllocsOneFreed [⟨0, 132⟩] :=
  ArenaReachable.free ⟨[⟨0, 8000, 332, 332, [(116, 216), (0, 116)]⟩], 1⟩
    [⟨0, 132⟩, ⟨0, 16⟩] ⟨0, 16⟩
    (ArenaReachable.alloc ⟨[⟨0, 8000, 116, 116, [(0, 116)]⟩], 1⟩ [⟨0, 16⟩] 200 true
      ⟨some ⟨0, 132⟩, false, ⟨[⟨0, 8000, 332, 332, [(116, 216), (0, 116)]⟩], 1⟩⟩
      (ArenaReachable.alloc MemoryAllocator.init [] 100 true
        ⟨some ⟨0, 16⟩, true, ⟨[⟨0, 8000, 116, 116, [(0, 116)]⟩], 1⟩⟩
        ArenaReachable.init (by decide) (by decide))
      (by decide) (by decide))
    (by decide)

/-- C22 on the arena after two allocations and the release of the first: the
block has `used = 216 <= pos = 332`, and 216 is the recorded size of the one
live allocation. -/
theorem arena_live_invariant_witness :
    liveBytes .lp64 ⟨0, 8000, 332, 216, [(116, 216), (0, 116)]⟩ [⟨0, 132⟩] = 216 ∧
    (∀ b ∈ twoAllocsOneFreed.blocks, b.used ≤ b.pos ∧ b.pos ≤ BLOCK_SIZE ∧
      b.used = liveBytes .lp64 b [⟨0, 132⟩] ∧
      (∀ p ∈ [(⟨0, 132⟩ : Ptr)], p.block = b.addr → sizeofHeader .lp64 ≤ p.offset ∧
        p.offset - sizeofHeader .lp64 + recordedSize .lp64 b p ≤ BLOCK_SIZE) ∧
      (∀ p ∈ [(⟨0, 132⟩ : Ptr)], ∀ q ∈ [(⟨0, 132⟩ : Ptr)],
        p.block = b.addr → q.block = b.addr → p ≠ q →
        p.offset - sizeofHeader .lp64 + recordedSize .lp64 b p ≤ q.offset - sizeofHeader .lp64 ∨
          q.offset - sizeofHeader .lp64 + recordedSize .lp64 b q ≤
            p.offset - sizeofHeader .lp64)) :=
  ⟨by decide, (arena_live_invariant .lp64 twoAllocsOneFreed [⟨0, 132⟩]
    twoAllocsOneFreed_reachable).1⟩

/-! ## `transformTranslateInt` after `resetMatrix()` -/

/-- C23, evaluated on the code: on a fresh engine `translate(5, 0)` followed by
`resetMatrix()` leaves the stored transform with translation `(0, 0)`, whose
integer rounding is `(0, 0)`, while `transformTranslateInt` still holds
`(5, 0)`: `resetMatrix()` resets the matrix without a call of
`_updateTransform` and without writing `transformTranslateInt` itself. -/
theorem resetMatrix_keeps_stale_translateInt :
    ((freshEngine.translate sampleEnv 5 0 true true).resetMatrix true).caps.transform.tx = 0 ∧
      ((freshEngine.translate sampleEnv 5 0 true true).resetMatrix true).caps.transform.ty = 0 ∧
      ((freshEngine.translate sampleEnv 5 0 true true).resetMatrix
        true).caps.transformTranslateInt = ⟨5, 0⟩ ∧
      ((freshEngine.translate sampleEnv 5 0 true true).resetMatrix
        true).caps.transformTranslateInt ≠
        ⟨iround ((freshEngine.translate sampleEnv 5 0 true true).resetMatrix
            true).caps.transform.tx,
          iround ((freshEngine.translate sampleEnv 5 0 true true).resetMatrix
            true).caps.transform.ty⟩ := by
  have h : (freshEngine.translate sampleEnv 5 0 true true).resetMatrix true = resetEngine := rfl
  rw [h, resetEngine_eq]
  refine ⟨rfl, rfl, rfl, ?_⟩
  simp [RasterPaintEngine.caps, readObj, iround_zero]

/-! ## The command phase: a waiting command is not passed -/

/-- C24: one pass of the command phase of a worker over a well-formed queue
ends normally, and: a call of `run()` is made only for the command under the
cursor and only when its status is `COMMAND_STATUS_READY`; while the command
under the cursor has status `COMMAND_STATUS_WAIT` the cursor, the commands and
the calls made stay as they are and `wait` is set; and the cursor moves by one
command at a time, past a command whose status is `COMMAND_STATUS_READY` or
`COMMAND_STATUS_SKIP` only.  The queue is well formed afterwards, so this
holds for every later pass, whatever the other threads do to the statuses in
between. -/
theorem command_phase_respects_wait (mgr : RasterPaintWorkerManager) (s : CmdPhase)
    (hwf : s.WellFormed mgr) :
    ∃ s1, s.step mgr = some s1 ∧ s1.WellFormed mgr ∧
      (s1.ran = s.ran ∨
        (∃ ptr, s1.ran = s.ran ++ [(s.task.cmdCurrent, ptr)] ∧
          mgr.cmdData[s.task.cmdCurrent.toNat]? = some (some ptr) ∧
          s.current mgr = some COMMAND_STATUS_READY ∧
          s1.task.cmdCurrent = s.task.cmdCurrent + 1)) ∧
      (s.current mgr = some COMMAND_STATUS_WAIT →
        s1.task.cmdCurrent = s.task.cmdCurrent ∧ s1.ran = s.ran ∧ s1.cmds = s.cmds ∧
          s1.wait = true) ∧
      (s1.task.cmdCurrent ≠ s.task.cmdCurrent →
        s1.task.cmdCurrent = s.task.cmdCurrent + 1 ∧
          (s.current mgr = some COMMAND_STATUS_READY ∨
            s.current mgr = some COMMAND_STATUS_SKIP)) := by
  obtain ⟨h0, hq⟩ := hwf
  unfold CmdPhase.step CmdPhase.current
  simp only
  by_cases hlt : s.task.cmdCurrent < mgr.cmdPosition
  · rw [if_pos hlt, if_neg (by omega), if_pos ⟨hlt, h0⟩]
    obtain ⟨ptr, hptr, hlen⟩ := hq s.task.cmdCurrent.toNat (by omega)
    rw [hptr]
    simp only [List.getElem?_eq_getElem hlen, Option.map_some']
    by_cases hr : (s.cmds[ptr]).status = COMMAND_STATUS_READY
    · rw [if_pos hr]
      refine ⟨_, rfl, ⟨by simp only; omega, ?_⟩, Or.inr ⟨ptr, rfl, rfl, by rw [hr], rfl⟩, ?_, ?_⟩
      · intro i hi
        obtain ⟨q, hq1, hq2⟩ := hq i hi
        exact ⟨q, hq1, by simp only [List.length_set]; exact hq2⟩
      · intro hw
        rw [hr] at hw
        exact absurd (Option.some.inj hw) (by decide)
      · intro _
        exact ⟨rfl, Or.inl (by rw [hr])⟩
    · rw [if_neg hr]
      by_cases hk : (s.cmds[ptr]).status = COMMAND_STATUS_SKIP
      · rw [if_pos hk]
        refine ⟨_, rfl, ⟨by simp only; omega, ?_⟩, Or.inl rfl, ?_, ?_⟩
        · intro i hi
          obtain ⟨q, hq1, hq2⟩ := hq i hi
          exact ⟨q, hq1, by simp only [List.length_set]; exact hq2⟩
        · intro hw
          rw [hk] at hw
          exact absurd (Option.some.inj hw) (by decide)
        · intro _
          exact ⟨rfl, Or.inr (by rw [hk])⟩
      · rw [if_neg hk]
        by_cases hw : (s.cmds[ptr]).status = COMMAND_STATUS_WAIT
        · rw [if_pos hw]
          refine ⟨_, rfl, ⟨h0, hq⟩, Or.inl rfl, fun _ => ⟨rfl, rfl, rfl, rfl⟩, ?_⟩
          intro hne
          exact absurd rfl hne
        · rw [if_neg hw]
          refine ⟨_, rfl, ⟨h0, hq⟩, Or.inl rfl, ?_, ?_⟩
          · intro hc
            exact absurd (Option.some.inj hc) hw
          · intro hne
            exact absurd rfl hne
  · rw [if_neg hlt, if_neg (fun hc => hlt hc.1)]
    refine ⟨_, rfl, ⟨h0, hq⟩, Or.inl rfl, ?_, ?_⟩
    · intro hc
      exact absurd hc (by simp)
    · intro hne
      exact absurd rfl hne

/-- The worker after the first command of `threeCmds`, under the waiting
second command, is well formed. -/
theorem cmdWaiting_wellFormed :
    CmdPhase.WellFormed threeCmds { cmdStart with
      task := { RasterPaintTask.new with cmdCurrent := 1 }, ran := [(0, 0)] } := by
  refine ⟨by decide, ?_⟩
  intro i hi
  have : i < 3 := by
    have h3 : threeCmds.cmdPosition = 3 := rfl
    omega
  interval_cases i
  · exact ⟨0, rfl, by decide⟩
  · exact ⟨1, rfl, by decide⟩
  · exact ⟨2, rfl, by decide⟩

/-- C24 on a worker under a waiting command followed by a ready one: the pass
leaves the cursor at 1 and the calls made at the one call for command 0. -/
theorem command_phase_respects_wait_witness :
    ∃ s1, CmdPhase.step threeCmds { cmdStart with
        task := { RasterPaintTask.new with cmdCurrent := 1 }, ran := [(0, 0)] } = some s1 ∧
      s1.task.cmdCurrent = 1 ∧ s1.ran = [(0, 0)] ∧ s1.wait = true := by
  obtain ⟨s1, h1, _, _, h3, _⟩ := command_phase_respects_wait threeCmds _ cmdWaiting_wellFormed
  have h := h3 (by decide)
  exact ⟨s1, h1, h.1, h.2.1, h.2.2.2⟩

/-! ## `_renderPath` under a band of three clip rectangles -/

/-- C25, evaluated on the code: the work region is one band `[0, 2)` with three
rectangles, the cell bounds are `[0, 2)` and the context is the
single-threaded one.  Both rows are swept, but each call of `sweepScanline`
is handed the first two rectangles only, while the band of the row has three:
`clipTo` is moved on by one `if`, not by a loop, so `clipLen` is never more
than 2, and the third rectangle is skipped by the `while (clipCur->y2 <= y)`
of the next pass. -/
theorem renderPath_band_of_three :
    _renderPathClip RasterPaintContext.new threeInBand 0 2 =
        [(0, [⟨0, 0, 10, 2⟩, ⟨20, 0, 30, 2⟩]), (1, [⟨0, 0, 10, 2⟩, ⟨20, 0, 30, 2⟩])] ∧
      threeInBand.bandAt 0 = [⟨0, 0, 10, 2⟩, ⟨20, 0, 30, 2⟩, ⟨40, 0, 50, 2⟩] ∧
      threeInBand.bandAt 1 = [⟨0, 0, 10, 2⟩, ⟨20, 0, 30, 2⟩, ⟨40, 0, 50, 2⟩] := by
  decide

/-! ## Source rectangle of `blitImage(const Point&)` -/

/-- C26, evaluated on the code: on a fresh 300 x 300 engine, `blitImage` of a
10 x 10 image at `(0, 0)` with `irect = Rect(5, 0, 10, 10)` (valid, origin not
negative) passes the source rectangle `(5, 0, 10, 10)` to `_serializeImage`:
its width is `min(image.getWidth(), irect->getWidth()) = 10` and it starts at
`irect->x = 5`, so it ends at column 15 of an image that has 10 columns. -/
theorem blitImage_source_exceeds_image :
    freshEngine.blitImage ⟨0, 0⟩ ⟨10, 10⟩ (some ⟨5, 0, 10, 10⟩) =
        .image ⟨0, 0, 10, 10⟩ ⟨5, 0, 10, 10⟩ ∧
      Rect.isValid ⟨5, 0, 10, 10⟩ = true ∧
      ((⟨5, 0, 10, 10⟩ : Rect).x + (⟨5, 0, 10, 10⟩ : Rect).w : Int) > (⟨10, 10⟩ : Image).width := by
  decide

/-! ## The fast path of `fillRect(const RectD&)` -/

/-- Rounding of 128. -/
theorem iround_128 : iround 128 = 128 := by simpa using iround_intCast 128

/-- Rounding of 256. -/
theorem iround_256 : iround 256 = 256 := by simpa using iround_intCast 256

/-- Rounding of 384. -/
theorem iround_384 : iround 384 = 384 := by simpa using iround_intCast 384

/-- Rounding of 512. -/
theorem iround_512 : iround 512 = 512 := by simpa using iround_intCast 512

/-- The caps and clip state of the fresh engine that `fillRect` reads. -/
theorem freshEngine_fill_state :
    freshEngine.caps.transformType = 0 ∧ freshEngine.caps.transform.tx = 0 ∧
      freshEngine.caps.transform.ty = 0 ∧ freshEngine.clip.clipSimple = true ∧
      freshEngine.clip.clipBox = ⟨0, 0, 300, 300⟩ := by
  simp [freshEngine, sampleEnv, RasterPaintEngine.create, RasterPaintClipState.new,
    RasterPaintCapsState.new, RasterPaintEngine._setClipDefaults,
    RasterPaintEngine._setCapsDefaults, RasterPaintEngine.setClip, RasterPaintEngine.setCaps,
    RasterPaintEngine.clip, RasterPaintEngine.caps, readObj, TRANSFORM_TRANSLATE_EXACT]

/-- C27, evaluated on the code: on a fresh engine (identity transform)
`fillRect(RectD(0.5, 0.5, 1.5, 1.5))` takes the integer-box path although no
coordinate is integral (`r.x + tx = 0.5` is not integral to 1/256 of a pixel),
and fills the box `[0, 1) x [0, 1)`, which is not the rectangle
`[0.5, 2) x [0.5, 2)` in device space; the integral rectangle
`RectD(1, 1, 2, 2)` goes to the path rasterizer.  The tests compare the low
byte of the rounded coordinate with `0x80` (a half), not with `0x00`. -/
theorem fillRectD_fast_path_on_halves :
    freshEngine.fillRectD ⟨1 / 2, 1 / 2, 3 / 2, 3 / 2⟩ = [.boxes [⟨0, 0, 1, 1⟩]] ∧
      ¬ IntegralTo256 (1 / 2 + freshEngine.caps.transform.tx) ∧
      freshEngine.fillRectD ⟨1, 1, 2, 2⟩ = [.path [⟨1, 1, 2, 2⟩] false] := by
  obtain ⟨h1, h2, h3, h4, h5⟩ := freshEngine_fill_state
  refine ⟨?_, ?_, ?_⟩
  · simp only [RasterPaintEngine.fillRectD, h1, h2, h3, h4, h5]
    norm_num [RectD.isValid, TRANSFORM_AFFINE, iround_128, iround_384, lowByte, shiftRight8,
      Box.intersect, Box.isValid]
  · rw [h2]
    norm_num [IntegralTo256, iround_128]
  · simp only [RasterPaintEngine.fillRectD, h1, h2, h3, h4, h5]
    norm_num [RectD.isValid, TRANSFORM_AFFINE, iround_256, lowByte]

/-! ## `fillRects(const RectD*, count)` with one rectangle -/

/-- C28, evaluated on the code: on a fresh engine `fillRects` of the single
rectangle `RectD(1, 1, 2, 2)` hands the rectangle to the path serializer twice,
once through `fillRect(r[0])` and once more through the path of all
rectangles, while `fillRect` of the same rectangle hands it over once: the
branch `if (count == 1) fillRect(r[0]);` does not return. -/
theorem fillRectsD_single_rendered_twice :
    freshEngine.fillRectD ⟨1, 1, 2, 2⟩ = [.path [⟨1, 1, 2, 2⟩] false] ∧
      freshEngine.fillRectsD [⟨1, 1, 2, 2⟩] =
        [.path [⟨1, 1, 2, 2⟩] false, .path [⟨1, 1, 2, 2⟩] false] ∧
      freshEngine.fillRectsD [⟨1, 1, 2, 2⟩] ≠ freshEngine.fillRectD ⟨1, 1, 2, 2⟩ := by
  obtain ⟨h1, h2, h3, h4, h5⟩ := freshEngine_fill_state
  have h : freshEngine.fillRectD ⟨1, 1, 2, 2⟩ = [.path [⟨1, 1, 2, 2⟩] false] := by
    simp only [RasterPaintEngine.fillRectD, h1, h2, h3, h4, h5]
    norm_num [RectD.isValid, TRANSFORM_AFFINE, iround_256, lowByte]
  refine ⟨h, ?_, ?_⟩
  · simp [RasterPaintEngine.fillRectsD, h]
  · simp [RasterPaintEngine.fillRectsD, h]

/-! ## `setLineCaps` when one cap already has the value -/

/-- The caps of the engine after `setStartCap(1)`. -/
theorem startCapEngine_caps :
    startCapEngine.getStartCap = 1 ∧ startCapEngine.getEndCap = 0 := by
  decide

/-- C29, evaluated on the code: after `setStartCap(1)` on a fresh engine (start
cap 1, end cap 0), `setLineCaps(1)` with `1 < LINE_CAP_COUNT` returns at its
first test, because the start cap already is 1, and `getEndCap()` still
returns 0. -/
theorem setLineCaps_leaves_other_cap :
    (1 : Int) < sampleEnv.LINE_CAP_COUNT ∧
      startCapEngine.getStartCap = 1 ∧ startCapEngine.getEndCap = 0 ∧
      startCapEngine.setLineCaps sampleEnv 1 true = startCapEngine ∧
      (startCapEngine.setLineCaps sampleEnv 1 true).getEndCap = 0 ∧
      (startCapEngine.setLineCaps sampleEnv 1 true).getEndCap ≠ 1 := by
  have h : startCapEngine.setLineCaps sampleEnv 1 true = startCapEngine := by
    unfold RasterPaintEngine.setLineCaps
    rw [if_pos]
    have := startCapEngine_caps.1
    simp only [RasterPaintEngine.getStartCap] at this
    simp [this]
  refine ⟨by decide, startCapEngine_caps.1, startCapEngine_caps.2, h, ?_, ?_⟩
  · rw [h]; exact startCapEngine_caps.2
  · rw [h, startCapEngine_caps.2]; decide

/-! ## The integer path of `drawRect(const Rect&)` -/

/-- Cutting two boxes without a common pixel to a third one leaves them without
a common pixel. -/
theorem apart_intersect (a b c d : Box) (h : a.Apart b) :
    (a.intersect c).Apart (b.intersect d) := by
  intro px py hc
  rw [box_intersect_covers, box_intersect_covers] at hc
  exact h px py ⟨hc.1.1, hc.2.1⟩

/-- Two pieces of one box cut by boxes without a common pixel have no common
pixel. -/
theorem apart_intersect_left (x a b : Box) (h : a.Apart b) :
    (x.intersect a).Apart (x.intersect b) := by
  intro px py hc
  rw [box_intersect_covers, box_intersect_covers] at hc
  exact h px py ⟨hc.1.2, hc.2.2⟩

/-- Translation by the zero point leaves a box as it is. -/
theorem box_translate_zero (b : Box) : b.translate ⟨0, 0⟩ = b := by
  simp [Box.translate]

/-- The pixels of `Region::translateAndClip` with the zero point are the pixels
of the region that lie in the clip box. -/
theorem translateAndClip_zero_covers (g : Region) (c : Box) (px py : Int) :
    CoversAny (Region.translateAndClip g ⟨0, 0⟩ c).rects px py ↔
      CoversAny g.rects px py ∧ c.Covers px py := by
  simp only [CoversAny, Region.translateAndClip, List.mem_filter, List.mem_map,
    box_translate_zero]
  constructor
  · rintro ⟨x, ⟨⟨b, hb, rfl⟩, _⟩, hc⟩
    rw [box_intersect_covers] at hc
    exact ⟨⟨b, hb, hc.1⟩, hc.2⟩
  · rintro ⟨⟨b, hb, hcb⟩, hcc⟩
    have hc : (b.intersect c).Covers px py := (box_intersect_covers b c px py).mpr ⟨hcb, hcc⟩
    exact ⟨b.intersect c, ⟨⟨b, hb, rfl⟩, (box_isValid_iff _).mpr ⟨px, py, hc⟩⟩, hc⟩

/-- The function `Region::translateAndClip` with the zero point keeps
rectangles without common pixels so. -/
theorem translateAndClip_zero_apart (g : Region) (c : Box)
    (h : g.rects.Pairwise Box.Apart) :
    (Region.translateAndClip g ⟨0, 0⟩ c).rects.Pairwise Box.Apart := by
  simp only [Region.translateAndClip]
  apply List.Pairwise.filter
  apply List.Pairwise.map _ _ h
  intro a b hab
  rw [box_translate_zero, box_translate_zero]
  exact apart_intersect a b c c hab

/-- The function `Region::intersect` of two regions whose rectangles have no
common pixels gives rectangles without common pixels. -/
theorem region_intersect_apart (a b : Region) (ha : a.rects.Pairwise Box.Apart)
    (hb : b.rects.Pairwise Box.Apart) :
    (Region.intersect a b).rects.Pairwise Box.Apart := by
  simp only [Region.intersect]
  rw [List.pairwise_flatMap]
  constructor
  · intro x _
    apply List.Pairwise.filter
    apply List.Pairwise.map _ _ hb
    intro p q hpq
    exact apart_intersect_left x p q hpq
  · apply List.Pairwise.imp _ ha
    intro p q hpq x hx y hy
    simp only [List.mem_filter, List.mem_map] at hx hy
    obtain ⟨⟨u, _, rfl⟩, _⟩ := hx
    obtain ⟨⟨v, _, rfl⟩, _⟩ := hy
    exact apart_intersect p q u v hpq

/-- The four rectangles of a rectangle wider and higher than two pixels have
no common pixels and cover exactly the border of the translated rectangle. -/
theorem drawRectBoxes_border (r : Rect) (tx ty : Int) (hw : 2 < r.w) (hh : 2 < r.h) :
    (drawRectBoxes r tx ty).length = 4 ∧
      (drawRectBoxes r tx ty).Pairwise Box.Apart ∧
      ∀ px py : Int, CoversAny (drawRectBoxes r tx ty) px py ↔
        (r.moved ⟨tx, ty⟩).OnBorder px py := by
  have hn : ¬ (r.w ≤ 2 ∨ r.h ≤ 2) := by omega
  simp only [drawRectBoxes, if_neg hn]
  refine ⟨rfl, ?_, ?_⟩
  · simp only [List.pairwise_cons, List.mem_cons, List.mem_singleton, List.not_mem_nil,
      forall_eq_or_imp, forall_eq, Box.Apart, Box.Covers, Rect.getX1, Rect.getX2, Rect.getY1,
      Rect.getY2, List.Pairwise.nil, and_true, IsEmpty.forall_iff, implies_true]
    refine ⟨⟨?_, ?_, ?_⟩, ⟨?_, ?_⟩, ?_⟩ <;> intro px py <;> omega
  · intro px py
    simp only [CoversAny, List.mem_cons, List.mem_singleton, List.not_mem_nil, or_false,
      exists_eq_or_imp, exists_eq_left, Box.OnBorder, Box.Covers, Rect.moved, Rect.getX1,
      Rect.getX2, Rect.getY1, Rect.getY2]
    omega

/-- The single rectangle of a rectangle at most two pixels wide or high is the
translated rectangle. -/
theorem drawRectBoxes_small (r : Rect) (tx ty : Int) (h : r.w ≤ 2 ∨ r.h ≤ 2) :
    drawRectBoxes r tx ty = [r.moved ⟨tx, ty⟩] := by
  simp only [drawRectBoxes, if_pos h, Rect.moved, Rect.getX1, Rect.getX2, Rect.getY1,
    Rect.getY2]

/-- The rectangles `drawRect` builds never share a pixel. -/
theorem drawRectBoxes_apart (r : Rect) (tx ty : Int) :
    (drawRectBoxes r tx ty).Pairwise Box.Apart := by
  by_cases h : r.w ≤ 2 ∨ r.h ≤ 2
  · rw [drawRectBoxes_small r tx ty h]
    exact List.pairwise_singleton _ _
  · exact (drawRectBoxes_border r tx ty (by omega) (by omega)).2.1

/-- C30: on the integer path of `drawRect(const Rect& r)` (valid `r`,
exact-translate transform, simple line): for `r.w > 2` and `r.h > 2` the four
rectangles built have pairwise no common pixel and cover exactly the
one-pixel-wide border of `r` translated by `transformTranslateInt`; for
`r.w <= 2` or `r.h <= 2` the single rectangle is the whole translated
rectangle; and the boxes handed to `_serializeBoxes` (none when the list is
empty) have pairwise no common pixel and cover exactly the pixels of the built
rectangles that pass the clip, so a covered pixel is composited once.  For a
complex clip the rectangles of `workRegion` are taken to have no common
pixels, as the rectangles of a region do. -/
theorem drawRect_border_once (e : RasterPaintEngine) (r : Rect) (hv : r.isValid = true)
    (ht : e.caps.transformType = TRANSFORM_TRANSLATE_EXACT)
    (hl : e.caps.lineIsSimple = true)
    (hreg : e.clip.clipSimple = false → e.clip.workRegion.rects.Pairwise Box.Apart) :
    (2 < r.w ∧ 2 < r.h →
      (drawRectBoxes r e.caps.transformTranslateInt.x e.caps.transformTranslateInt.y).length = 4 ∧
      (drawRectBoxes r e.caps.transformTranslateInt.x
        e.caps.transformTranslateInt.y).Pairwise Box.Apart ∧
      ∀ px py : Int,
        CoversAny (drawRectBoxes r e.caps.transformTranslateInt.x
          e.caps.transformTranslateInt.y) px py ↔
        (r.moved e.caps.transformTranslateInt).OnBorder px py) ∧
    (r.w ≤ 2 ∨ r.h ≤ 2 →
      drawRectBoxes r e.caps.transformTranslateInt.x e.caps.transformTranslateInt.y =
        [r.moved e.caps.transformTranslateInt]) ∧
    ∃ out : List Box,
      e.drawRect r = (if out = [] then .nothing else .boxes out) ∧
      out.Pairwise Box.Apart ∧
      ∀ px py : Int, CoversAny out px py ↔
        CoversAny (drawRectBoxes r e.caps.transformTranslateInt.x
          e.caps.transformTranslateInt.y) px py ∧ e.InClip px py := by
  refine ⟨fun h => drawRectBoxes_border r _ _ h.1 h.2, fun h => drawRectBoxes_small r _ _ h, ?_⟩
  have hd : ∀ g : Region, (if g.getLength ≠ 0 then DrawCall.boxes g.rects else DrawCall.nothing) =
      (if g.rects = [] then DrawCall.nothing else DrawCall.boxes g.rects) := by
    intro g
    by_cases hg : g.rects = []
    · simp [Region.getLength, hg]
    · simp [Region.getLength, hg]
  by_cases hc : e.clip.clipSimple = true
  · refine ⟨(Region.translateAndClip ⟨drawRectBoxes r e.caps.transformTranslateInt.x
      e.caps.transformTranslateInt.y⟩ ⟨0, 0⟩ e.clip.clipBox).rects, ?_, ?_, ?_⟩
    · rw [← hd]
      simp [RasterPaintEngine.drawRect, hv, ht, hl, hc]
    · exact translateAndClip_zero_apart _ _ (drawRectBoxes_apart r _ _)
    · intro px py
      rw [translateAndClip_zero_covers]
      simp only [RasterPaintEngine.InClip, hc, if_true]
  · have hc2 : e.clip.clipSimple = false := by simpa using hc
    refine ⟨(Region.intersect ⟨drawRectBoxes r e.caps.transformTranslateInt.x
      e.caps.transformTranslateInt.y⟩ e.clip.workRegion).rects, ?_, ?_, ?_⟩
    · rw [← hd]
      simp [RasterPaintEngine.drawRect, hv, ht, hl, hc2]
    · exact region_intersect_apart _ _ (drawRectBoxes_apart r _ _) (hreg hc2)
    · intro px py
      rw [region_intersect_covers]
      simp [RasterPaintEngine.InClip, hc2]

/-- C30 at a concrete input: on a fresh 300 x 300 engine `drawRect(Rect(10,
10, 5, 4))` hands over the four rectangles of the border, which share no pixel
and cover exactly the border of the rectangle. -/
theorem drawRect_border_once_witness :
    freshEngine.drawRect ⟨10, 10, 5, 4⟩ =
        .boxes [⟨10, 10, 15, 11⟩, ⟨10, 11, 11, 13⟩, ⟨14, 11, 15, 13⟩, ⟨10, 13, 15, 14⟩] ∧
      ((drawRectBoxes ⟨10, 10, 5, 4⟩ 0 0).Pairwise Box.Apart ∧
        ∀ px py : Int, CoversAny (drawRectBoxes ⟨10, 10, 5, 4⟩ 0 0) px py ↔
          (Rect.moved ⟨10, 10, 5, 4⟩ ⟨0, 0⟩).OnBorder px py) :=
  ⟨by decide,
    ((drawRect_border_once freshEngine ⟨10, 10, 5, 4⟩ (by decide) (by decide) (by decide)
      (fun h => absurd h (by decide))).1 ⟨by decide, by decide⟩).2⟩

end Fog
